import Mathlib

/-!
# fast-root: the query-execution core (`context.cc`)

A shallow embedding of `Context::execute` and the functions it drives
(`legal_header`, `valid_header`, `parse_name`, `Context::parse_question`,
`Context::parse_edns`, `Context::parse_packet`, `Context::perform_lookup`,
`Context::type`), followed by theorems about the responses it emits.

Conventions of the embedding:

* bytes are `Fin 256`; a `uint16_t` held in a C++ variable is a `Nat` below
  `65536` (its host-order value, on a little-endian host), so that `ntohs` and
  `htons` are the byte swap they are in the source;
* mutable state (`ReadBuffer`, `Context`) is passed explicitly;
* a read or reservation past the end of a buffer is the error value
  `Fault.out_of_range`; nothing in `context.cc` handles it, so it leaves
  `execute` as it is;
* the `while` loop of `parse_name` runs on fuel; `Fault.out_of_fuel` is the
  value for exhausted fuel and is shown never to occur.
-/

namespace FastRoot

abbrev Byte := Fin 256

/-- A buffer access failed, or a loop model ran out of fuel. -/
inductive Fault where
  | out_of_range
  | out_of_fuel
  deriving DecidableEq, Repr

/-! ## Byte order -/

/-- The value of `ntohs(x)` for a 16-bit `x` on a little-endian host. -/
def ntohs (x : Nat) : Nat := (x % 256) * 256 + (x / 256) % 256

/-- The value of `htons(x)`; the argument is converted to `uint16_t` first. -/
def htons (x : Nat) : Nat := (x % 256) * 256 + (x / 256) % 256

/-- The host-order `uint16_t` stored in two consecutive bytes of memory. -/
def load16 (b0 b1 : Byte) : Nat := b0.val + 256 * b1.val

/-- The two bytes a host-order `uint16_t` occupies in memory. -/
def store16 (x : Nat) : List Byte := [Fin.ofNat (x % 256), Fin.ofNat (x / 256 % 256)]

/-- The `uint16_t` at offset `i` of a byte region. -/
def u16_at (l : List Byte) (i : Nat) : Nat := load16 (l.getD i 0) (l.getD (i + 1) 0)

/-! ## Constants of the `ldns` library used by the source

The values are those of the DNS registries (RFC 1035, RFC 6891, RFC 4034). -/

def LDNS_RCODE_NOERROR : Nat := 0
def LDNS_RCODE_FORMERR : Nat := 1
def LDNS_RCODE_NXDOMAIN : Nat := 3
def LDNS_RCODE_NOTIMPL : Nat := 4
def LDNS_PACKET_QUERY : Nat := 0
def LDNS_RR_CLASS_IN : Nat := 1
def LDNS_RR_TYPE_NS : Nat := 2
def LDNS_RR_TYPE_SOA : Nat := 6
def LDNS_RR_TYPE_OPT : Nat := 41
def LDNS_RR_TYPE_DS : Nat := 43
def LDNS_RR_TYPE_NSEC : Nat := 47
def LDNS_RR_TYPE_DNSKEY : Nat := 48
def LDNS_RR_TYPE_ANY : Nat := 255

/-! ## Buffers -/

/-- Modelled from the spec: `buffer.h` is absent. A ReadBuffer is an immutable
byte region plus a position cursor; `available = size - position`. -/
structure ReadBuffer where
  base : List Byte
  position : Nat
  deriving DecidableEq, Repr

/-- Modelled from the spec: `size()`. -/
def ReadBuffer.size (b : ReadBuffer) : Nat := b.base.length

/-- Modelled from the spec: `available() = size - position`. -/
def ReadBuffer.available (b : ReadBuffer) : Nat := b.size - b.position

/-- Modelled from the spec: `current()`, the slice from the position to the
end. -/
def ReadBuffer.current (b : ReadBuffer) : List Byte := b.base.drop b.position

/-- Modelled from the spec: `read(n)` of the absent `buffer.h`. It fails unless
`available ≥ n`, and otherwise returns the `n` bytes at the position and
advances the position by `n`. -/
def ReadBuffer.read (b : ReadBuffer) (n : Nat) : Except Fault (List Byte × ReadBuffer) :=
  if b.available < n then .error .out_of_range
  else .ok ((b.base.drop b.position).take n, { b with position := b.position + n })

/-- Modelled from the spec: `read<uint8_t>()` of the absent `buffer.h`. -/
def ReadBuffer.read_u8 (b : ReadBuffer) : Except Fault (Nat × ReadBuffer) :=
  match b.read 1 with
  | .error e => .error e
  | .ok (bs, b1) => .ok ((bs.getD 0 0).val, b1)

/-- Modelled from the spec: `read<uint16_t>()` of the absent `buffer.h`; the
value is not converted from network byte order. -/
def ReadBuffer.read_u16 (b : ReadBuffer) : Except Fault (Nat × ReadBuffer) :=
  match b.read 2 with
  | .error e => .error e
  | .ok (bs, b1) => .ok (u16_at bs 0, b1)

/-- Modelled from the spec: `WriteBuffer` of the absent `buffer.h`. A mutable
region of `size` bytes; `data` is the committed prefix `[0, position)`. -/
structure WriteBuffer where
  size : Nat
  data : List Byte
  deriving DecidableEq, Repr

/-- Modelled from the spec: `position()` of a WriteBuffer. -/
def WriteBuffer.position (w : WriteBuffer) : Nat := w.data.length

/-- Modelled from the spec: `available()` of a WriteBuffer. -/
def WriteBuffer.available (w : WriteBuffer) : Nat := w.size - w.position

/-- Modelled from the spec: `reserve(n)` of the absent `buffer.h`, together
with the stores the caller makes through the returned handle (`fill`, the `n`
bytes written). It fails when `available < n`. -/
def WriteBuffer.reserve (w : WriteBuffer) (n : Nat) (fill : List Byte) :
    Except Fault WriteBuffer :=
  if w.available < n then .error .out_of_range
  else .ok { w with data := w.data ++ fill }

/-! ## Headers -/

/-- The `dnshdr` struct: six `uint16_t` fields as they lie in memory. -/
structure dnshdr where
  id : Nat
  flags : Nat
  qdcount : Nat
  ancount : Nat
  nscount : Nat
  arcount : Nat
  deriving DecidableEq, Repr

/-- The struct overlaid on 12 bytes of memory. -/
def dnshdr.load (bs : List Byte) : dnshdr :=
  { id := u16_at bs 0, flags := u16_at bs 2, qdcount := u16_at bs 4,
    ancount := u16_at bs 6, nscount := u16_at bs 8, arcount := u16_at bs 10 }

/-- The 12 bytes of the struct in memory. -/
def dnshdr.store (h : dnshdr) : List Byte :=
  store16 h.id ++ store16 h.flags ++ store16 h.qdcount ++ store16 h.ancount ++
    store16 h.nscount ++ store16 h.arcount

/-- The `read<dnshdr>()` call of `execute`. -/
def ReadBuffer.read_dnshdr (b : ReadBuffer) : Except Fault (dnshdr × ReadBuffer) :=
  match b.read 12 with
  | .error e => .error e
  | .ok (bs, b1) => .ok (dnshdr.load bs, b1)

/-- The packed `edns_opt_rr` struct (11 bytes). -/
structure edns_opt_rr where
  name : Nat
  type : Nat
  bufsize : Nat
  ercode : Nat
  version : Nat
  flags : Nat
  rdlen : Nat
  deriving DecidableEq, Repr

/-- The 11 bytes of the packed struct in memory. -/
def edns_opt_rr.store (o : edns_opt_rr) : List Byte :=
  [Fin.ofNat (o.name % 256)] ++ store16 o.type ++ store16 o.bufsize ++
    [Fin.ofNat (o.ercode % 256)] ++ [Fin.ofNat (o.version % 256)] ++
    store16 o.flags ++ store16 o.rdlen

/-- Source: `legal_header` (context.cc 32-46). The index `header[2]` is inside
the buffer whenever it is evaluated, since `available ≥ 17` there. -/
def legal_header (inb : ReadBuffer) : Bool :=
  if inb.available < 17 then false
  else if (inb.current.getD 2 0).val &&& 0x80 ≠ 0 then false
  else true

/-- Source: `valid_header` (context.cc 48-71). -/
def valid_header (h : dnshdr) : Bool :=
  if ntohs h.flags &&& 0x000f ≠ 0 then false
  else if htons h.qdcount ≠ 1 then false
  else if h.ancount ≠ 0 ∨ h.nscount ≠ 0 then false
  else if htons h.arcount > 1 then false
  else true

/-! ## Name parsing -/

/-- Modelled from the spec: `strlower` of the absent `util.h`. ASCII-only
folding: bytes 'A'..'Z' become 'a'..'z', every other byte is preserved. -/
def tolower (c : Byte) : Byte :=
  if 65 ≤ c.val ∧ c.val ≤ 90 then Fin.ofNat (c.val + 32) else c

/-- Modelled from the spec: `strlower` of the absent `util.h`. -/
def strlower (s : List Byte) : List Byte := s.map tolower

/-- How the `while` loop of `parse_name` is left. -/
inductive LoopExit where
  /-- A `return false` inside the loop. -/
  | rejected (inb : ReadBuffer) (labels : Nat)
  /-- The `break`, or the loop condition turning false. -/
  | finished (inb : ReadBuffer) (last : Nat) (labels : Nat)
  deriving DecidableEq, Repr

/-- Source: the `while (in.available() > 0)` loop of `parse_name`
(context.cc 82-107). `total` is an `unsigned`, `labels` a `uint8_t`. -/
def parse_name_loop : Nat → ReadBuffer → Nat → Nat → Nat → Except Fault LoopExit
  | 0, _, _, _, _ => .error .out_of_fuel
  | fuel + 1, inb, total, last, labels =>
    if inb.available > 0 then
      match inb.read_u8 with
      | .error e => .error e
      | .ok (c, in1) =>
        if c = 0 then .ok (.finished in1 last labels)
        else
          let last1 := in1.position
          let labels1 := (labels + 1) % 256
          if c &&& 0xc0 ≠ 0 then .ok (.rejected in1 labels1)
          else
            let total1 := ((total + c) % 2 ^ 32 + 1) % 2 ^ 32
            if total1 > 255 then .ok (.rejected in1 labels1)
            else
              match in1.read c with
              | .error e => .error e
              | .ok (_, in2) => parse_name_loop fuel in2 total1 last1 labels1
    else .ok (.finished inb last labels)

/-- Source: `parse_name` (context.cc 76-117). Returns the `bool`, the buffer,
and the two reference parameters `name` and `labels`. `name_length` is a
`size_t` difference. -/
def parse_name (inb : ReadBuffer) (name : List Byte) :
    Except Fault (Bool × ReadBuffer × List Byte × Nat) :=
  match parse_name_loop (inb.available + 1) inb 0 inb.position 0 with
  | .error e => .error e
  | .ok (.rejected in1 labels) => .ok (false, in1, name, labels)
  | .ok (.finished in1 last labels) =>
    let name_length := (in1.position + 2 ^ 64 - last - 1) % 2 ^ 64
    .ok (true, in1, strlower ((in1.base.drop last).take name_length), labels)

/-! ## The zone collaborator -/

/-- Modelled from the spec: the closed category enum `Answer::Type`
(`answer.h` is absent); the names are the ones `Context::type` returns. -/
inductive AnswerType where
  | nxdomain
  | tld_referral
  | tld_ds
  | root_soa
  | root_ns
  | root_nsec
  | root_dnskey
  | root_any
  | root_nodata
  deriving DecidableEq, Repr

/-- Modelled from the spec: the `Answer` bundle of the absent `answer.h`:
host-order 16-bit counts, the `authoritative` flag, the wire data, and the
variant of the data adjusted by an offset. -/
structure Answer where
  ancount : Nat
  nscount : Nat
  arcount : Nat
  authoritative : Bool
  data : List Byte
  data_offset_by : Nat → List Byte

/-- Modelled from the spec: the sentinel `Answer::empty` of the absent
`answer.h`: all counts zero, an empty region, not authoritative. -/
def Answer.empty : Answer :=
  { ancount := 0, nscount := 0, arcount := 0, authoritative := false,
    data := [], data_offset_by := fun _ => [] }

/-- Modelled from the spec: a `const Answer*` is either the sentinel
`Answer::empty` or a bundle owned by the zone; `execute` tells the two apart by
pointer identity (line 286). -/
inductive AnswerPtr where
  | empty
  | bundle (a : Answer)

/-- Dereference of an answer pointer. -/
def AnswerPtr.get : AnswerPtr → Answer
  | .empty => Answer.empty
  | .bundle a => a

/-- Modelled from the spec: the external `AnswerSet` of the absent `zone.h`,
with its one operation `answer(category, do_bit)`. -/
structure AnswerSet where
  answer : AnswerType → Bool → AnswerPtr

/-- Modelled from the spec: the external `Zone` of the absent `zone.h`;
`lookup(qname, match)` returns the answer set and writes `match`. -/
structure Zone where
  lookup : List Byte → AnswerSet × Bool

/-! ## The query context -/

/-- Modelled from the spec: the class `Context` is declared in the absent
`context.h`; these are the members that `context.cc` reads and writes (`in` and
`match` are renamed `inb` and `matched`, and `_an_buf`, which only owns memory,
is left out). -/
structure Context where
  inb : ReadBuffer
  head : WriteBuffer
  edns : WriteBuffer
  qname : List Byte
  qtype : Nat
  qdstart : Nat
  qdsize : Nat
  bufsize : Nat
  qlabels : Nat
  matched : Bool
  has_edns : Bool
  do_bit : Bool
  rcode : Nat

/-- Modelled from the spec: the size of the header-plus-question scratch
buffer declared in the absent `context.h`. -/
def head_size : Nat := 532

/-- Modelled from the spec: the size of the OPT scratch buffer declared in the
absent `context.h`. -/
def edns_size : Nat := 11

/-- Modelled from the spec: the state of a freshly constructed `Context`
(`context.h` is absent): `rcode` is NOERROR, no question size has been
captured, no OPT has been seen, both scratch buffers are empty. -/
def Context.fresh (inb : ReadBuffer) : Context :=
  { inb := inb, head := { size := head_size, data := [] },
    edns := { size := edns_size, data := [] },
    qname := [], qtype := 0, qdstart := 0, qdsize := 0, bufsize := 0,
    qlabels := 0, matched := false, has_edns := false, do_bit := false,
    rcode := LDNS_RCODE_NOERROR }

/-- Source: `Context::parse_edns` (context.cc 119-168). -/
def parse_edns (ctx : Context) : Except Fault Context :=
  if ctx.inb.available = 0 then .ok ctx
  else if ctx.inb.available > 0 ∧ ctx.inb.available < 11 then
    .ok { ctx with rcode := LDNS_RCODE_FORMERR }
  else do
    let (ch, in1) ← ctx.inb.read_u8
    if ch ≠ 0 then
      pure { ctx with inb := in1, rcode := LDNS_RCODE_FORMERR }
    else
      let (t, in2) ← in1.read_u16
      if ntohs t ≠ LDNS_RR_TYPE_OPT then
        pure { ctx with inb := in2, rcode := LDNS_RCODE_FORMERR }
      else
        let (bs, in3) ← in2.read_u16
        let (_, in4) ← in3.read_u8
        let (version, in5) ← in4.read_u8
        let (fl, in6) ← in5.read_u16
        let (rl, in7) ← in6.read_u16
        let flags := ntohs fl
        let rdlen := ntohs rl
        if in7.available < rdlen then
          pure { ctx with inb := in7, bufsize := ntohs bs, rcode := LDNS_RCODE_FORMERR }
        else
          let (_, in8) ← in7.read rdlen
          let ctx1 := { ctx with inb := in8, bufsize := ntohs bs, has_edns := true,
                                 do_bit := decide (flags &&& 0x8000 ≠ 0) }
          if version > 0 then pure { ctx1 with rcode := 16 } else pure ctx1

/-- Source: `Context::parse_question` (context.cc 170-205). -/
def parse_question (ctx : Context) : Except Fault Context := do
  let ctx0 := { ctx with qdstart := ctx.inb.position }
  let (ok, in1, qname, qlabels) ← parse_name ctx0.inb ctx0.qname
  let ctx1 := { ctx0 with inb := in1, qname := qname, qlabels := qlabels }
  if ok = false then
    pure { ctx1 with rcode := LDNS_RCODE_FORMERR }
  else if in1.available < 4 then
    pure { ctx1 with rcode := LDNS_RCODE_FORMERR }
  else
    let (qt, in2) ← in1.read_u16
    let (qc, in3) ← in2.read_u16
    let qtype := ntohs qt
    let qclass := ntohs qc
    let ctx2 := { ctx1 with inb := in3, qtype := qtype,
                            qdsize := in3.position - ctx1.qdstart }
    if qtype ≥ 128 ∧ qtype < LDNS_RR_TYPE_ANY then
      pure { ctx2 with rcode := LDNS_RCODE_NOTIMPL }
    else if qclass ≠ LDNS_RR_CLASS_IN then
      pure { ctx2 with rcode := LDNS_RCODE_NOTIMPL }
    else
      pure ctx2

/-- Source: `Context::parse_packet` (context.cc 207-226). -/
def parse_packet (ctx : Context) : Except Fault Context := do
  let ctx0 := { ctx with rcode := LDNS_RCODE_NOERROR }
  let ctx1 ← parse_question ctx0
  if ctx1.rcode ≠ LDNS_RCODE_NOERROR then
    pure ctx1
  else
    let ctx2 ← parse_edns ctx1
    if ctx2.rcode ≠ LDNS_RCODE_NOERROR then
      pure ctx2
    else if ctx2.inb.available > 0 ∧ ctx2.inb.size > 46 then
      pure { ctx2 with rcode := LDNS_RCODE_FORMERR }
    else
      pure ctx2

/-- Source: `Context::type` (context.cc 311-338). -/
def Context.type (ctx : Context) : AnswerType :=
  if ctx.matched = false then .nxdomain
  else if ctx.qlabels > 1 then .tld_referral
  else if ctx.qlabels = 1 then
    if ctx.qtype = LDNS_RR_TYPE_DS then .tld_ds else .tld_referral
  else
    if ctx.qtype = LDNS_RR_TYPE_SOA then .root_soa
    else if ctx.qtype = LDNS_RR_TYPE_NS then .root_ns
    else if ctx.qtype = LDNS_RR_TYPE_NSEC then .root_nsec
    else if ctx.qtype = LDNS_RR_TYPE_DNSKEY then .root_dnskey
    else if ctx.qtype = LDNS_RR_TYPE_ANY then .root_any
    else .root_nodata

/-- Source: `Context::perform_lookup` (context.cc 228-233). Returns the
context and the answer pointer. -/
def perform_lookup (zone : Zone) (ctx : Context) : Context × AnswerPtr :=
  let r := zone.lookup ctx.qname
  let ctx1 := { ctx with matched := r.2 }
  let ctx2 := { ctx1 with rcode := if r.2 then LDNS_RCODE_NOERROR else LDNS_RCODE_NXDOMAIN }
  (ctx2, r.1.answer ctx2.type ctx2.do_bit)

/-- What `execute` leaves behind when it returns: its `bool`, the vector
`out`, the context and the answer pointer it selected. -/
structure Returned where
  ret : Bool
  out : List (List Byte)
  ctx : Context
  answer : AnswerPtr

/-- Source: `Context::execute`, lines 244-259: read the header and parse. -/
def execute_parse (zone : Zone) (ctx : Context) :
    Except Fault (dnshdr × Context × AnswerPtr) := do
  let (rx_hdr, in1) ← ctx.inb.read_dnshdr
  let ctx1 := { ctx with inb := in1 }
  if valid_header rx_hdr = false then
    pure (rx_hdr, { ctx1 with rcode := LDNS_RCODE_FORMERR }, AnswerPtr.empty)
  else
    let opcode := ((ntohs rx_hdr.flags >>> 11) &&& 0x0f) % 256
    if opcode ≠ LDNS_PACKET_QUERY then
      pure (rx_hdr, { ctx1 with rcode := LDNS_RCODE_NOTIMPL }, AnswerPtr.empty)
    else
      let ctx2 ← parse_packet ctx1
      if ctx2.rcode = LDNS_RCODE_NOERROR then
        let r := perform_lookup zone ctx2
        pure (rx_hdr, r.1, r.2)
      else
        pure (rx_hdr, ctx2, AnswerPtr.empty)

/-- Source: `Context::execute`, lines 265-272: the response flags word. -/
def response_flags (rx_hdr : dnshdr) (rcode : Nat) (answer : AnswerPtr) : Nat :=
  let flags := ntohs rx_hdr.flags
  let flags := flags &&& 0x0110
  let flags := flags ||| 0x8000
  let flags := flags ||| (rcode &&& 0x0f)
  if answer.get.authoritative then flags ||| 0x0400 else flags

/-- Source: `Context::execute`, lines 262-278: the response header. -/
def response_header (rx_hdr : dnshdr) (ctx : Context) (answer : AnswerPtr) : dnshdr :=
  { id := rx_hdr.id,
    flags := htons (response_flags rx_hdr ctx.rcode answer),
    qdcount := htons (if ctx.qdsize ≠ 0 then 1 else 0),
    ancount := htons answer.get.ancount,
    nscount := htons answer.get.nscount,
    arcount := htons (answer.get.arcount + (if ctx.has_edns then 1 else 0)) }

/-- Source: `Context::execute`, lines 297-304: the synthesised OPT RR. -/
def response_opt (ctx : Context) : edns_opt_rr :=
  { name := 0,
    type := htons LDNS_RR_TYPE_OPT,
    bufsize := htons 1480,
    ercode := ctx.rcode >>> 4,
    version := 0,
    flags := htons (if ctx.do_bit then 0x8000 else 0),
    rdlen := 0 }

/-- Source: `Context::execute`, lines 261-308: assemble the response. The
pointer returned by the zone is a reference, so the null test of line 285
passes. -/
def execute_respond (out : List (List Byte)) (rx_hdr : dnshdr) (ctx : Context)
    (answer : AnswerPtr) : Except Fault Returned := do
  let head1 ← ctx.head.reserve 12 (response_header rx_hdr ctx answer).store
  let head2 ← head1.reserve ctx.qdsize ((ctx.inb.base.drop ctx.qdstart).take ctx.qdsize)
  let ctx1 := { ctx with head := head2 }
  let out1 := out ++ [head2.data]
  let out2 := match answer with
    | .empty => out1 ++ [Answer.empty.data]
    | .bundle a => out1 ++ [a.data_offset_by (ctx1.qdsize + 12)]
  if ctx1.has_edns then
    let edns1 ← ctx1.edns.reserve 11 (response_opt ctx1).store
    pure { ret := true, out := out2 ++ [edns1.data], ctx := { ctx1 with edns := edns1 },
           answer := answer }
  else
    pure { ret := true, out := out2, ctx := ctx1, answer := answer }

/-- Source: `Context::execute` (context.cc 235-309). -/
def execute (zone : Zone) (ctx : Context) (out : List (List Byte)) :
    Except Fault Returned :=
  if legal_header ctx.inb = false then
    .ok { ret := false, out := out, ctx := ctx, answer := AnswerPtr.empty }
  else do
    let (rx_hdr, ctx1, answer) ← execute_parse zone ctx
    execute_respond out rx_hdr ctx1 answer

/-- A query packet handed to a fresh `Context`, with an empty output vector. -/
def run (zone : Zone) (input : List Byte) : Except Fault Returned :=
  execute zone (Context.fresh { base := input, position := 0 }) []

/-! ## Vocabulary for stating properties of wire messages -/

/-- The big-endian 16-bit word at offset `i` of a wire message. -/
def be16 (l : List Byte) (i : Nat) : Nat := (l.getD i 0).val * 256 + (l.getD (i + 1) 0).val

/-- The wire encoding of a sequence of labels, without the terminating root
byte: each label is preceded by its length byte. -/
def wire_name : List (List Byte) → List Byte
  | [] => []
  | l :: ls => Fin.ofNat l.length :: (l ++ wire_name ls)

/-- The result of `parse_edns` when at least 11 bytes remain. -/
def edns_result (ctx : Context) : Context :=
  let b := ctx.inb.base
  let p := ctx.inb.position
  if (b.getD p 0).val ≠ 0 then
    { ctx with inb := ⟨b, p + 1⟩, rcode := LDNS_RCODE_FORMERR }
  else if be16 b (p + 1) ≠ 41 then
    { ctx with inb := ⟨b, p + 3⟩, rcode := LDNS_RCODE_FORMERR }
  else if b.length - (p + 11) < be16 b (p + 9) then
    { ctx with inb := ⟨b, p + 11⟩, bufsize := be16 b (p + 3), rcode := LDNS_RCODE_FORMERR }
  else
    { ctx with inb := ⟨b, p + 11 + be16 b (p + 9)⟩, bufsize := be16 b (p + 3), has_edns := true,
               do_bit := decide (be16 b (p + 7) &&& 0x8000 ≠ 0),
               rcode := if (b.getD (p + 6) 0).val > 0 then 16 else ctx.rcode }

/-- The start of the last label body, as the loop of `parse_name` tracks it. -/
def last_start (ls : List (List Byte)) (pos last : Nat) : Nat :=
  match ls.getLast? with
  | none => last
  | some l => pos + (wire_name ls).length - l.length

/-- The answer segment pushed by `execute`, lines 285-293. -/
def answer_segment (ans : AnswerPtr) (qdsize : Nat) : List Byte :=
  match ans with
  | .empty => Answer.empty.data
  | .bundle a => a.data_offset_by (qdsize + 12)

/-- What `execute` returns on its response path (lines 261-308), when both
reservations succeed on empty scratch buffers. -/
def response_record (rx : dnshdr) (ctx : Context) (ans : AnswerPtr) : Returned :=
  { ret := true,
    out := [(response_header rx ctx ans).store ++
              (ctx.inb.base.drop ctx.qdstart).take ctx.qdsize,
            answer_segment ans ctx.qdsize] ++
           (if ctx.has_edns then [(response_opt ctx).store] else []),
    ctx := { ctx with
             head := ⟨head_size, (response_header rx ctx ans).store ++
               (ctx.inb.base.drop ctx.qdstart).take ctx.qdsize⟩,
             edns := if ctx.has_edns then ⟨edns_size, (response_opt ctx).store⟩
                     else ⟨edns_size, []⟩ },
    answer := ans }

/-- The first output segment (header and echoed question). -/
def first_segment (r : Returned) : List Byte := r.out.headD []

/-- The opcode nibble (flags bits 11..14) of a wire message. -/
def opcode_of (msg : List Byte) : Nat := (be16 msg 2 >>> 11) &&& 0x0f

/-- What `run` returns, with the untouched context standing in when a fault
escapes. -/
def result_of (zone : Zone) (input : List Byte) : Returned :=
  match run zone input with
  | .ok r => r
  | .error _ => { ret := false, out := [], ctx := Context.fresh ⟨input, 0⟩,
                  answer := AnswerPtr.empty }

/-- The context right after the header has been read from a packet. -/
def after_header (input : List Byte) : Context :=
  { Context.fresh ⟨input, 0⟩ with inb := ⟨input, 12⟩ }

/-- The legal-header gate in wire terms: at least 17 bytes, QR clear. -/
def gate_ok (msg : List Byte) : Prop :=
  17 ≤ msg.length ∧ (msg.getD 2 0).val &&& 0x80 = 0

/-- The valid-header check in wire terms: RCODE nibble 0, QDCOUNT 1, ANCOUNT 0,
NSCOUNT 0, ARCOUNT at most 1. -/
def header_counts_ok (msg : List Byte) : Prop :=
  be16 msg 2 &&& 0x0f = 0 ∧ be16 msg 4 = 1 ∧ be16 msg 6 = 0 ∧ be16 msg 8 = 0 ∧
    be16 msg 10 ≤ 1

instance (msg : List Byte) : Decidable (gate_ok msg) := by
  unfold gate_ok
  infer_instance

instance (msg : List Byte) : Decidable (header_counts_ok msg) := by
  unfold header_counts_ok
  infer_instance

/-- The classifier table as the spec words it: nxdomain without a match;
otherwise tld_referral for two or more labels, and for one label unless the
type is DS; tld_ds for one label and type DS; for the root the category of the
type (SOA 6, NS 2, NSEC 47, DNSKEY 48, ANY 255), root_nodata for any other. -/
def classifier_table (qlabels qtype : Nat) (m : Bool) : AnswerType :=
  if m = false then .nxdomain
  else if 2 ≤ qlabels then .tld_referral
  else if qlabels = 1 ∧ qtype ≠ 43 then .tld_referral
  else if qlabels = 1 ∧ qtype = 43 then .tld_ds
  else if qtype = 6 then .root_soa
  else if qtype = 2 then .root_ns
  else if qtype = 47 then .root_nsec
  else if qtype = 48 then .root_dnskey
  else if qtype = 255 then .root_any
  else .root_nodata

/-- The context after `parse_question` has read a well-formed question: the
labels `ls`, the root byte, the type bytes `a b` and two class bytes. -/
def question_ctx (input : List Byte) (ls : List (List Byte)) (a b : Byte) (rc : Nat) :
    Context :=
  { after_header input with
    qdstart := 12,
    inb := ⟨input, 12 + (wire_name ls).length + 5⟩,
    qname := strlower (ls.getLast?.getD []),
    qlabels := ls.length,
    qtype := a.val * 256 + b.val,
    qdsize := (wire_name ls).length + 5,
    rcode := rc }

/-- The context after `parse_edns` has accepted an OPT RR behind a well-formed
question. -/
def opt_ctx (input : List Byte) (ls : List (List Byte)) (a b : Byte)
    (bufsize rdlen : Nat) (dobit : Bool) (rc : Nat) : Context :=
  { question_ctx input ls a b rc with
    inb := ⟨input, 12 + (wire_name ls).length + 5 + 11 + rdlen⟩,
    bufsize := bufsize,
    has_edns := true,
    do_bit := dobit }

/-- The 11 bytes of the OPT RR that `execute` synthesises: root owner, type 41,
udp-size 1480, the extended rcode, version 0, the DO flag, rdlen 0. -/
def opt_bytes (rcode : Nat) (dobit : Bool) : List Byte :=
  [0, 0, 41, 5, 200, Fin.ofNat ((rcode >>> 4) % 256), 0, if dobit then 128 else 0, 0, 0, 0]

/-- The question is one that `parse_question` rejects with NOTIMPL: a type in
the meta range [128, 255) or a class other than IN. -/
def question_rejected (a b c d : Byte) : Prop :=
  (128 ≤ a.val * 256 + b.val ∧ a.val * 256 + b.val < 255) ∨ c.val * 256 + d.val ≠ 1

instance (a b c d : Byte) : Decidable (question_rejected a b c d) := by
  unfold question_rejected
  infer_instance

/-! ## A small zone and a few packets for concrete evaluation -/

/-- A zone that knows the root and `com`; its root SOA answer is
authoritative, NXDOMAIN gets the empty sentinel. -/
def demo_zone : Zone :=
  { lookup := fun q =>
      ({ answer := fun t _ =>
          match t with
          | .nxdomain => AnswerPtr.empty
          | .root_soa => AnswerPtr.bundle
              { ancount := 1, nscount := 0, arcount := 0, authoritative := true,
                data := [7], data_offset_by := fun _ => [7] }
          | _ => AnswerPtr.bundle
              { ancount := 0, nscount := 2, arcount := 3, authoritative := false,
                data := [8, 9], data_offset_by := fun _ => [8, 9] } },
       decide (q = [] ∨ q = [99, 111, 109])) }

/-- Scenario S1: id 1, the root name, qtype SOA, class IN. -/
def s1_input : List Byte := [0, 1, 0, 0, 0, 1, 0, 0, 0, 0, 0, 0, 0, 0, 6, 0, 1]

/-- Scenario S5: id 5, flags 0x0800 (a non-QUERY opcode), question `xxx A IN`. -/
def s5_input : List Byte :=
  [0, 5, 8, 0, 0, 1, 0, 0, 0, 0, 0, 0, 3, 120, 120, 120, 0, 0, 1, 0, 1]

/-- A query for the root with QDCOUNT 2. -/
def qd2_input : List Byte := [0, 9, 1, 0, 0, 2, 0, 0, 0, 0, 0, 0, 0, 0, 6, 0, 1]

/-- A query `com A CH` (class 3) with RD set and no OPT. -/
def ch_input : List Byte :=
  [0, 7, 1, 0, 0, 1, 0, 0, 0, 0, 0, 0, 3, 99, 111, 109, 0, 0, 1, 0, 3]

/-- A root `A IN` query followed by an OPT RR with version 1 and DO set. -/
def badvers_input : List Byte :=
  [0, 5, 1, 16, 0, 1, 0, 0, 0, 0, 0, 1, 0, 0, 1, 0, 1,
   0, 0, 41, 16, 0, 0, 1, 128, 0, 0, 0]

/-- A root `SOA IN` query followed by an OPT RR with version 0 and DO set. -/
def edns_input : List Byte :=
  [0, 6, 0, 0, 0, 1, 0, 0, 0, 0, 0, 1, 0, 0, 6, 0, 1,
   0, 0, 41, 16, 0, 0, 0, 128, 0, 0, 0]

/-- A root `A CH` query (class 3) followed by a valid OPT RR. -/
def ch_edns_input : List Byte :=
  [0, 8, 0, 0, 0, 1, 0, 0, 0, 0, 0, 1, 0, 0, 1, 0, 3,
   0, 0, 41, 16, 0, 0, 0, 128, 0, 0, 0]

/-- A 17-byte query whose first label announces 5 bytes where 4 remain. -/
def overrun_input : List Byte := [0, 1, 0, 0, 0, 1, 0, 0, 0, 0, 0, 0, 5, 1, 2, 3, 4]

/-- The trailing-garbage rule of `parse_packet` (lines 221-225). -/
def trailing_rule (c2 : Context) : Context :=
  if c2.rcode ≠ LDNS_RCODE_NOERROR then c2
  else if c2.inb.available > 0 ∧ c2.inb.size > 46 then { c2 with rcode := LDNS_RCODE_FORMERR }
  else c2

/-- A query for `com` in which a compression pointer (0xC0 0x0C) stands where
the root byte belongs. -/
def pointer_input : List Byte :=
  [0, 2, 0, 0, 0, 1, 0, 0, 0, 0, 0, 0, 3, 99, 111, 109, 192, 12, 0, 1, 0, 1]

/-- Four labels of 63 bytes: 256 bytes of length bytes and label bodies. -/
def long_labels : List (List Byte) := List.replicate 4 (List.replicate 63 97)

/-- A query for the name `long_labels`, root byte, type A, class IN. -/
def long_input : List Byte :=
  [0, 3, 0, 0, 0, 1, 0, 0, 0, 0, 0, 0] ++ (wire_name long_labels ++ [0, 0, 1, 0, 1])

/-- Three labels of 63 bytes and one of 62: 255 bytes of length bytes and label
bodies. -/
def edge_labels : List (List Byte) :=
  List.replicate 3 (List.replicate 63 97) ++ [List.replicate 62 97]

/-- A query for the name `edge_labels`, root byte, type A, class IN. -/
def edge_input : List Byte :=
  [0, 4, 0, 0, 0, 1, 0, 0, 0, 0, 0, 0] ++ (wire_name edge_labels ++ [0, 0, 1, 0, 1])

/-- A query whose name is the label `com` followed by a length byte 7 with only
two bytes left. -/
def short_label_input : List Byte :=
  [0, 2, 0, 0, 0, 1, 0, 0, 0, 0, 0, 0, 3, 99, 111, 109, 7, 97, 98]

/-- A 17-byte query whose only label `abcd` ends exactly at the end of the
input. -/
def open_end_input : List Byte :=
  [0, 2, 0, 0, 0, 1, 0, 0, 0, 0, 0, 0, 4, 97, 98, 99, 100]

/-- The labels `www` and `ExAMple`. -/
def mixed_case_labels : List (List Byte) :=
  [[119, 119, 119], [69, 120, 65, 77, 112, 108, 101]]

/-- A buffer holding the name `www.ExAMple`, the root byte, type A, class IN. -/
def mixed_case_buffer : ReadBuffer :=
  ⟨[3, 119, 119, 119, 7, 69, 120, 65, 77, 112, 108, 101, 0, 0, 1, 0, 1], 0⟩

/-- A root `SOA IN` query with an OPT RR (DO set) and 19 more bytes: 47 bytes. -/
def garbage_input : List Byte :=
  [0, 6, 0, 0, 0, 1, 0, 0, 0, 0, 0, 1, 0, 0, 6, 0, 1,
   0, 0, 41, 16, 0, 0, 0, 128, 0, 0, 0,
   0, 0, 0, 0, 0, 0, 0, 0, 0, 0, 0, 0, 0, 0, 0, 0, 0, 0, 0]

/-- A root `SOA IN` query with an OPT RR (DO set) and 18 more bytes: 46 bytes. -/
def padded_opt_input : List Byte :=
  [0, 6, 0, 0, 0, 1, 0, 0, 0, 0, 0, 1, 0, 0, 6, 0, 1,
   0, 0, 41, 16, 0, 0, 0, 128, 0, 0, 0,
   0, 0, 0, 0, 0, 0, 0, 0, 0, 0, 0, 0, 0, 0, 0, 0, 0, 0]

/-- The root `SOA IN` query of scenario S1 padded with zero bytes to 46 bytes. -/
def padded_input : List Byte :=
  [0, 1, 0, 0, 0, 1, 0, 0, 0, 0, 0, 0, 0, 0, 6, 0, 1,
   0, 0, 0, 0, 0, 0, 0, 0, 0, 0, 0, 0, 0, 0, 0, 0, 0, 0, 0, 0, 0, 0, 0, 0, 0, 0, 0, 0, 0]

/-- The bytes behind the question are not an acceptable OPT RR: fewer than 11
bytes, an owner byte other than 0, a type other than 41, or an rdlen above the
number of bytes behind the 11 fixed ones. -/
def opt_malformed (rest : List Byte) : Prop :=
  rest.length < 11 ∨ (rest.getD 0 0).val ≠ 0 ∨ be16 rest 1 ≠ 41 ∨
    rest.length - 11 < be16 rest 9

instance (rest : List Byte) : Decidable (opt_malformed rest) := by
  unfold opt_malformed
  infer_instance

/-- The input carries a valid OPT RR: a well-formed question (labels of 1 to
63 bytes, at most 255 bytes of them, the root byte, type and class) is followed
by bytes that start with an acceptable OPT RR (owner 0, type 41, rdlen within
the bytes behind the 11 fixed ones). -/
def carries_opt (input : List Byte) : Prop :=
  ∃ (ls : List (List Byte)) (a b c d : Byte) (rest : List Byte),
    input.drop 12 = wire_name ls ++ 0 :: a :: b :: c :: d :: rest ∧
    (∀ l ∈ ls, 1 ≤ l.length ∧ l.length ≤ 63) ∧ (wire_name ls).length ≤ 255 ∧
    ¬ opt_malformed rest

/-- A root `SOA IN` query followed by 11 bytes whose type field is 42. -/
def bad_opt_input : List Byte :=
  [0, 6, 0, 0, 0, 1, 0, 0, 0, 0, 0, 1, 0, 0, 6, 0, 1,
   0, 0, 42, 16, 0, 0, 0, 128, 0, 0, 0]

/-! ## The Internet checksum (`netserver/checksum.h`) -/

/-- Source: the data members of `class Checksum` (checksum.h 10-11); `sum` is
a `uint32_t`. -/
structure Checksum where
  sum : Nat
  odd : Bool
  deriving DecidableEq, Repr

/-- Source: the member initialisers of `class Checksum`. -/
def Checksum.fresh : Checksum := { sum := 0, odd := false }

/-- Source: one turn of the loop of `Checksum::add(const void*, size_t)`
(checksum.h 37-46). -/
def Checksum.add_byte (s : Checksum) (c : Byte) : Checksum :=
  { sum := if s.odd then (s.sum + c.val) % 2 ^ 32 else (s.sum + (c.val <<< 8)) % 2 ^ 32,
    odd := !s.odd }

/-- Source: `Checksum::add(const void* p, size_t n)` (checksum.h 33-49); the
list holds the `n` bytes at `p`. -/
def Checksum.add (s : Checksum) : List Byte → Checksum
  | [] => s
  | c :: rest => Checksum.add (s.add_byte c) rest

/-- Source: `Checksum::add(const iovec&)` (checksum.h 51-54). -/
def Checksum.add_iov (s : Checksum) (iov : List Byte) : Checksum := s.add iov

/-- Source: `Checksum::add(uint16_t n)` (checksum.h 56-61): the two bytes of
`htons(n)` as they lie in memory. -/
def Checksum.add_u16 (s : Checksum) (n : Nat) : Checksum :=
  s.add (store16 (htons (n % 65536)))

/-- Source: the `while` loop of `Checksum::value` (checksum.h 25-27). -/
def Checksum.value_loop : Nat → Nat → Except Fault Nat
  | 0, _ => .error .out_of_fuel
  | fuel + 1, tmp =>
    if tmp >>> 16 ≠ 0 then
      Checksum.value_loop fuel (((tmp &&& 0xffff) + (tmp >>> 16)) % 2 ^ 32)
    else .ok tmp

/-- Source: `Checksum::value` (checksum.h 22-31). Every turn of the loop makes
`tmp` smaller, so `sum + 1` turns are enough fuel. -/
def Checksum.value (s : Checksum) : Except Fault Nat := do
  let tmp ← Checksum.value_loop (s.sum + 1) s.sum
  let tmp := (2 ^ 32 - 1 - tmp) % 2 ^ 32
  pure (htons (tmp % 65536) % 65536)

/-- The sum of the big-endian 16-bit words of a byte sequence, an odd final
byte padded with a zero low byte (written from the claim). -/
def be_word_sum : List Byte → Nat
  | [] => 0
  | [a] => a.val * 256
  | a :: b :: rest => a.val * 256 + b.val + be_word_sum rest

/-- The end-around-carry fold of a sum to 16 bits (written from the claim): 0
for 0, otherwise the value in 1..65535 congruent to the sum modulo 65535. -/
def ones_fold (s : Nat) : Nat := if s = 0 then 0 else (s - 1) % 65535 + 1

/-- What a byte sequence adds to the sum, starting at an odd or even offset. -/
def word_sum : Bool → List Byte → Nat
  | _, [] => 0
  | odd, c :: rest => (if odd then c.val else c.val * 256) + word_sum (!odd) rest

/-- The checksum example of RFC 1071, split into an odd-length and a
following chunk. -/
def rfc1071_head : List Byte := [0, 1, 242]

/-- The second chunk of the RFC 1071 example. -/
def rfc1071_tail : List Byte := [3, 244, 245, 246, 247]

/-! ## Buffer reads -/

theorem read_cur (b : ReadBuffer) (n : Nat) (xs tl : List Byte)
    (hcur : b.current = xs ++ tl) (hn : xs.length = n) :
    b.read n = .ok (xs, ⟨b.base, b.position + n⟩) ∧
      ReadBuffer.current ⟨b.base, b.position + n⟩ = tl := by
  unfold ReadBuffer.current at hcur
  have hlen : b.base.length - b.position = xs.length + tl.length := by
    have := congrArg List.length hcur
    simpa using this
  constructor
  · unfold ReadBuffer.read ReadBuffer.available ReadBuffer.size
    rw [if_neg (by omega), hcur]
    simp [← hn]
  · unfold ReadBuffer.current
    simp only
    rw [← List.drop_drop, hcur]
    simp [← hn]

theorem read_u8_cur (b : ReadBuffer) (c : Byte) (tl : List Byte)
    (hcur : b.current = c :: tl) :
    b.read_u8 = .ok (c.val, ⟨b.base, b.position + 1⟩) ∧
      ReadBuffer.current ⟨b.base, b.position + 1⟩ = tl := by
  have h := read_cur b 1 [c] tl (by simpa using hcur) rfl
  refine ⟨?_, h.2⟩
  unfold ReadBuffer.read_u8
  rw [h.1]
  rfl

theorem read_u16_cur (b : ReadBuffer) (c0 c1 : Byte) (tl : List Byte)
    (hcur : b.current = c0 :: c1 :: tl) :
    b.read_u16 = .ok (load16 c0 c1, ⟨b.base, b.position + 2⟩) ∧
      ReadBuffer.current ⟨b.base, b.position + 2⟩ = tl := by
  have h := read_cur b 2 [c0, c1] tl (by simpa using hcur) rfl
  refine ⟨?_, h.2⟩
  unfold ReadBuffer.read_u16
  rw [h.1]
  rfl

theorem ntohs_load16 (c0 c1 : Byte) : ntohs (load16 c0 c1) = c0.val * 256 + c1.val := by
  unfold ntohs load16
  have h0 := c0.isLt
  have h1 := c1.isLt
  omega

theorem flags_lt (x r : Nat) (a : Bool) :
    (if a then (x &&& 0x0110 ||| 0x8000 ||| (r &&& 0x0f)) ||| 0x0400 else (x &&& 0x0110 ||| 0x8000 ||| (r &&& 0x0f))) < 65536 := by
  have h1 : x &&& 0x0110 < 2 ^ 16 := Nat.and_lt_two_pow x (by norm_num)
  have h2 : r &&& 0x0f < 2 ^ 16 := Nat.and_lt_two_pow r (by norm_num)
  have h3 : x &&& 0x0110 ||| 0x8000 ||| (r &&& 0x0f) < 2 ^ 16 :=
    Nat.or_lt_two_pow (Nat.or_lt_two_pow h1 (by norm_num)) h2
  split
  · exact Nat.or_lt_two_pow h3 (by norm_num)
  · exact h3


theorem testBit_0x8000 (i : Nat) : Nat.testBit 0x8000 i = decide (i = 15) := by
  have h : (0x8000 : Nat) = 2 ^ 15 := by norm_num
  rw [h, Nat.testBit_two_pow]
  simp [eq_comm]

theorem testBit_0x0400 (i : Nat) : Nat.testBit 0x0400 i = decide (i = 10) := by
  have h : (0x0400 : Nat) = 2 ^ 10 := by norm_num
  rw [h, Nat.testBit_two_pow]
  simp [eq_comm]

theorem testBit_0x0110 (i : Nat) : Nat.testBit 0x0110 i = decide (i = 4 ∨ i = 8) := by
  have h : (0x0110 : Nat) = 2 ^ 4 ||| 2 ^ 8 := by decide
  rw [h, Nat.testBit_or, Nat.testBit_two_pow, Nat.testBit_two_pow]
  simp [eq_comm]

theorem testBit_0x0f (i : Nat) : Nat.testBit 0x0f i = decide (i < 4) := by
  have h : (0x0f : Nat) = 2 ^ 4 - 1 := by norm_num
  rw [h, Nat.testBit_two_pow_sub_one]


theorem read_base (b : ReadBuffer) (n : Nat) (xs : List Byte) (b1 : ReadBuffer)
    (h : b.read n = .ok (xs, b1)) : b1.base = b.base ∧ b1.position = b.position + n ∧ n ≤ b.available := by
  unfold ReadBuffer.read at h
  split at h
  · cases h
  · cases h
    exact ⟨rfl, rfl, by omega⟩

theorem read_u8_base (b : ReadBuffer) (c : Nat) (b1 : ReadBuffer)
    (h : b.read_u8 = .ok (c, b1)) : b1.base = b.base ∧ b1.position = b.position + 1 ∧ 1 ≤ b.available := by
  unfold ReadBuffer.read_u8 at h
  split at h
  · cases h
  · next bs b2 hr =>
    cases h
    exact read_base b 1 bs _ hr

theorem read_u16_base (b : ReadBuffer) (c : Nat) (b1 : ReadBuffer)
    (h : b.read_u16 = .ok (c, b1)) : b1.base = b.base ∧ b1.position = b.position + 2 ∧ 2 ≤ b.available := by
  unfold ReadBuffer.read_u16 at h
  split at h
  · cases h
  · next bs b2 hr =>
    cases h
    exact read_base b 2 bs _ hr


theorem read_error (b : ReadBuffer) (n : Nat) (e : Fault)
    (h : b.read n = .error e) : b.available < n ∧ e = .out_of_range := by
  unfold ReadBuffer.read at h
  split at h
  · cases h
    exact ⟨by assumption, rfl⟩
  · cases h

theorem read_u8_error (b : ReadBuffer) (e : Fault)
    (h : b.read_u8 = .error e) : b.available < 1 ∧ e = .out_of_range := by
  unfold ReadBuffer.read_u8 at h
  split at h
  · next e1 hr =>
    cases h
    exact read_error b 1 _ hr
  · cases h

theorem read_u16_error (b : ReadBuffer) (e : Fault)
    (h : b.read_u16 = .error e) : b.available < 2 ∧ e = .out_of_range := by
  unfold ReadBuffer.read_u16 at h
  split at h
  · next e1 hr =>
    cases h
    exact read_error b 2 _ hr
  · cases h

/-- The loop of `parse_name` keeps the region, only moves the cursor forward,
and never runs out of fuel when started with more fuel than bytes. -/
theorem parse_name_loop_frame (fuel : Nat) :
    ∀ (b : ReadBuffer) (total last labels : Nat), b.available < fuel →
      (∀ e, parse_name_loop fuel b total last labels = .error e → e = .out_of_range) ∧
      (∀ b1 l1, parse_name_loop fuel b total last labels = .ok (.rejected b1 l1) →
        b1.base = b.base ∧ b.position ≤ b1.position) ∧
      (∀ b1 last1 l1, parse_name_loop fuel b total last labels = .ok (.finished b1 last1 l1) →
        b1.base = b.base ∧ b.position ≤ b1.position) := by
  induction fuel with
  | zero => intro b total last labels h; omega
  | succ fuel ih =>
    intro b total last labels hav
    rw [parse_name_loop]
    split
    · next hpos =>
      split
      · next e he =>
        have := read_u8_error b e he
        refine ⟨?_, ?_, ?_⟩
        · intro e1 h1; cases h1; exact this.2
        · intro b1 l1 h1; cases h1
        · intro b1 l1 k1 h1; cases h1
      · next c in1 hr =>
        have hb := read_u8_base b c in1 hr
        split
        · refine ⟨?_, ?_, ?_⟩
          · intro e1 h1; cases h1
          · intro b1 l1 h1; cases h1
          · intro b1 l1 k1 h1; cases h1; exact ⟨hb.1, by omega⟩
        · simp only
          split
          · refine ⟨?_, ?_, ?_⟩
            · intro e1 h1; cases h1
            · intro b1 l1 h1; cases h1; exact ⟨hb.1, by omega⟩
            · intro b1 l1 k1 h1; cases h1
          · split
            · refine ⟨?_, ?_, ?_⟩
              · intro e1 h1; cases h1
              · intro b1 l1 h1; cases h1; exact ⟨hb.1, by omega⟩
              · intro b1 l1 k1 h1; cases h1
            · split
              · next e he =>
                have := read_error in1 c e he
                refine ⟨?_, ?_, ?_⟩
                · intro e1 h1; cases h1; exact this.2
                · intro b1 l1 h1; cases h1
                · intro b1 l1 k1 h1; cases h1
              · next xs in2 hr2 =>
                have hb2 := read_base in1 c xs in2 hr2
                have hav2 : in2.available < fuel := by
                  unfold ReadBuffer.available ReadBuffer.size at *
                  rw [hb2.1, hb2.2.1, hb.1, hb.2.1]
                  omega
                have := ih in2 (((total + c) % 2 ^ 32 + 1) % 2 ^ 32) in1.position ((labels + 1) % 256) hav2
                refine ⟨this.1, ?_, ?_⟩
                · intro b1 l1 h1
                  have := this.2.1 b1 l1 h1
                  exact ⟨by rw [this.1, hb2.1, hb.1], by omega⟩
                · intro b1 l1 k1 h1
                  have := this.2.2 b1 l1 k1 h1
                  exact ⟨by rw [this.1, hb2.1, hb.1], by omega⟩
    · refine ⟨?_, ?_, ?_⟩
      · intro e1 h1; cases h1
      · intro b1 l1 h1; cases h1
      · intro b1 l1 k1 h1; cases h1; exact ⟨rfl, le_refl _⟩


theorem parse_name_frame (b : ReadBuffer) (name : List Byte) :
    (∀ e, parse_name b name = .error e → e = .out_of_range) ∧
    (∀ ok b1 nm labs, parse_name b name = .ok (ok, b1, nm, labs) →
      b1.base = b.base ∧ b.position ≤ b1.position) := by
  have hf := parse_name_loop_frame (b.available + 1) b 0 b.position 0 (Nat.lt_succ_self _)
  unfold parse_name
  split
  · next e he =>
    refine ⟨?_, ?_⟩
    · intro e1 h1; cases h1; exact hf.1 e he
    · intro ok b1 nm labs h1; cases h1
  · next in1 labels he =>
    refine ⟨?_, ?_⟩
    · intro e1 h1; cases h1
    · intro ok b1 nm labs h1; cases h1; exact hf.2.1 _ _ he
  · next in1 last labels he =>
    refine ⟨?_, ?_⟩
    · intro e1 h1; cases h1
    · intro ok b1 nm labs h1; cases h1; exact hf.2.2 _ _ _ he

theorem parse_question_inv (ctx ctx1 : Context) (h : parse_question ctx = .ok ctx1) :
    ctx1.head = ctx.head ∧ ctx1.edns = ctx.edns ∧ ctx1.has_edns = ctx.has_edns ∧
    ctx1.do_bit = ctx.do_bit ∧ ctx1.inb.base = ctx.inb.base ∧
    ctx1.qdstart = ctx.inb.position ∧
    (ctx1.qdsize = ctx.qdsize ∨
      (ctx1.qdsize = ctx1.inb.position - ctx.inb.position ∧
        ctx1.inb.position ≤ ctx1.inb.size ∧ ctx.inb.position + 4 ≤ ctx1.inb.position)) ∧
    (ctx1.rcode = ctx.rcode ∨ ctx1.rcode = LDNS_RCODE_FORMERR ∨
      ctx1.rcode = LDNS_RCODE_NOTIMPL) := by
  unfold parse_question at h
  simp only [bind, Except.bind, pure, Except.pure] at h
  split at h
  · cases h
  · next v hv =>
    obtain ⟨ok, in1, nm, labs⟩ := v
    have hn := (parse_name_frame _ _).2 ok in1 nm labs hv
    simp only at h hn
    split at h
    · cases h; simp [hn.1]
    · split at h
      · cases h; simp [hn.1]
      · split at h
        · cases h
        · next v2 hv2 =>
          obtain ⟨qt, in2⟩ := v2
          have h2 := read_u16_base in1 qt in2 hv2
          simp only at h
          split at h
          · cases h
          · next v3 hv3 =>
            obtain ⟨qc, in3⟩ := v3
            have h3 := read_u16_base in2 qc in3 hv3
            have hsz : in3.position ≤ in3.size ∧ ctx.inb.position + 4 ≤ in3.position := by
              unfold ReadBuffer.available ReadBuffer.size at *
              rw [h3.1, h3.2.1, h2.2.1, h2.1]
              rw [h2.1, h2.2.1] at h3
              omega
            simp only at h
            split at h
            · cases h; simp [h3.1, h2.1, hn.1, hsz]
            · split at h
              · cases h; simp [h3.1, h2.1, hn.1, hsz]
              · cases h; simp [h3.1, h2.1, hn.1, hsz]

theorem parse_question_error (ctx : Context) (e : Fault) (h : parse_question ctx = .error e) :
    e = .out_of_range := by
  unfold parse_question at h
  simp only [bind, Except.bind, pure, Except.pure] at h
  split at h
  · next e1 he =>
    cases h
    exact (parse_name_frame _ _).1 _ he
  · next v hv =>
    obtain ⟨ok, in1, nm, labs⟩ := v
    simp only at h
    split at h
    · cases h
    · split at h
      · cases h
      · next hav =>
        split at h
        · next e2 he2 =>
          have := read_u16_error _ _ he2
          omega
        · next v2 hv2 =>
          obtain ⟨qt, in2⟩ := v2
          have h2 := read_u16_base in1 qt in2 hv2
          simp only at h
          split at h
          · next e3 he3 =>
            have := read_u16_error _ _ he3
            unfold ReadBuffer.available ReadBuffer.size at *
            rw [h2.1, h2.2.1] at this
            omega
          · split at h
            · cases h
            · split at h <;> cases h

theorem getD_drop (l : List Byte) (n i : Nat) (d : Byte) :
    (l.drop n).getD i d = l.getD (n + i) d := by
  simp [List.getD_eq_getElem?_getD, List.getElem?_drop]

theorem getD_take (l : List Byte) (n i : Nat) (d : Byte) (h : i < n) :
    (l.take n).getD i d = l.getD i d := by
  simp [List.getD_eq_getElem?_getD, List.getElem?_take, h]

theorem current_length (b : ReadBuffer) : b.current.length = b.available := by
  simp [ReadBuffer.current, ReadBuffer.available, ReadBuffer.size]

theorem current_advance (b : ReadBuffer) (n : Nat) :
    ReadBuffer.current ⟨b.base, b.position + n⟩ = b.current.drop n := by
  simp [ReadBuffer.current, List.drop_drop]

theorem available_advance (b : ReadBuffer) (n : Nat) :
    ReadBuffer.available ⟨b.base, b.position + n⟩ = b.available - n := by
  simp [ReadBuffer.available, ReadBuffer.size]
  omega

theorem read_ok (b : ReadBuffer) (n : Nat) (h : b.position + n ≤ b.base.length) :
    b.read n = .ok ((b.base.drop b.position).take n, ⟨b.base, b.position + n⟩) := by
  unfold ReadBuffer.read ReadBuffer.available ReadBuffer.size
  rw [if_neg (by omega)]

theorem read_u8_ok (b : ReadBuffer) (h : b.position + 1 ≤ b.base.length) :
    b.read_u8 = .ok ((b.base.getD b.position 0).val, ⟨b.base, b.position + 1⟩) := by
  unfold ReadBuffer.read_u8
  rw [read_ok b 1 h]
  simp only [getD_take _ 1 0 0 (by omega), getD_drop, Nat.add_zero]

theorem read_u16_ok (b : ReadBuffer) (h : b.position + 2 ≤ b.base.length) :
    b.read_u16 = .ok (load16 (b.base.getD b.position 0) (b.base.getD (b.position + 1) 0),
      ⟨b.base, b.position + 2⟩) := by
  unfold ReadBuffer.read_u16
  rw [read_ok b 2 h]
  simp only [u16_at, getD_take _ 2 0 0 (by omega), getD_take _ 2 1 0 (by omega), getD_drop,
    Nat.add_zero]

theorem ntohs_load16_getD (l : List Byte) (i : Nat) :
    ntohs (load16 (l.getD i 0) (l.getD (i + 1) 0)) = be16 l i := by
  rw [ntohs_load16]
  rfl

theorem parse_edns_eq (ctx : Context) (h11 : 11 ≤ ctx.inb.available) :
    parse_edns ctx = .ok (edns_result ctx) := by
  have h11a : ctx.inb.position + 11 ≤ ctx.inb.base.length := by
    unfold ReadBuffer.available ReadBuffer.size at h11
    omega
  unfold parse_edns edns_result
  rw [if_neg (by omega), if_neg (by omega)]
  simp only [bind, Except.bind, pure, Except.pure]
  rw [read_u8_ok _ (by omega)]
  simp only
  split
  · rfl
  · rw [read_u16_ok _ (by simp only; omega)]
    simp only [ntohs_load16_getD, LDNS_RR_TYPE_OPT, Nat.add_assoc, Nat.reduceAdd]
    split
    · rfl
    · rw [read_u16_ok _ (by simp only; omega)]
      simp only [Nat.add_assoc, Nat.reduceAdd]
      rw [read_u8_ok _ (by simp only; omega)]
      simp only [Nat.add_assoc, Nat.reduceAdd]
      rw [read_u8_ok _ (by simp only; omega)]
      simp only [Nat.add_assoc, Nat.reduceAdd]
      rw [read_u16_ok _ (by simp only; omega)]
      simp only [Nat.add_assoc, Nat.reduceAdd]
      rw [read_u16_ok _ (by simp only; omega)]
      simp only [Nat.add_assoc, Nat.reduceAdd, ntohs_load16_getD, ReadBuffer.available,
        ReadBuffer.size]
      split
      · rfl
      · rw [read_ok _ _ (by simp only; omega)]
        simp only [Nat.add_assoc, Nat.reduceAdd]
        split <;> rfl

theorem land_0xc0_of_le (c : Nat) (h : c ≤ 63) : c &&& 0xc0 = 0 := by
  interval_cases c <;> rfl

theorem wire_name_length_cons (l : List Byte) (ls : List (List Byte)) :
    (wire_name (l :: ls)).length = 1 + l.length + (wire_name ls).length := by
  simp [wire_name]
  omega

theorem parse_name_loop_wire (ls : List (List Byte)) :
    ∀ (fuel : Nat) (b : ReadBuffer) (total last labels : Nat) (tl : List Byte),
      b.current = wire_name ls ++ 0 :: tl →
      (∀ l ∈ ls, 1 ≤ l.length ∧ l.length ≤ 63) →
      total + (wire_name ls).length ≤ 255 →
      ls.length < fuel →
      labels < 256 →
      parse_name_loop fuel b total last labels =
        .ok (.finished ⟨b.base, b.position + (wire_name ls).length + 1⟩
          (last_start ls b.position last) ((labels + ls.length) % 256)) := by
  induction ls with
  | nil =>
    intro fuel b total last labels tl hcur _ _ hfuel hlab
    obtain ⟨fuel, rfl⟩ : ∃ f, fuel = f + 1 := ⟨fuel - 1, by simp at hfuel; omega⟩
    have hav : b.available > 0 := by
      rw [← current_length, hcur]; simp [wire_name]
    rw [parse_name_loop, if_pos hav]
    have hr := read_u8_cur b 0 tl (by simpa [wire_name] using hcur)
    rw [hr.1]
    simp only [Fin.val_zero, if_true, wire_name, List.length_nil, Nat.add_zero, last_start,
      List.getLast?_nil]
    rw [Nat.mod_eq_of_lt hlab]
  | cons l ls ih =>
    intro fuel b total last labels tl hcur hwf htot hfuel hlab
    obtain ⟨fuel, rfl⟩ : ∃ f, fuel = f + 1 := ⟨fuel - 1, by simp at hfuel; omega⟩
    have hl := hwf l (List.mem_cons_self _ _)
    have hwf1 : ∀ l1 ∈ ls, 1 ≤ l1.length ∧ l1.length ≤ 63 :=
      fun l1 h1 => hwf l1 (List.mem_cons_of_mem _ h1)
    rw [wire_name_length_cons] at htot
    have hav : b.available > 0 := by
      rw [← current_length, hcur]; simp [wire_name]
    have hc : (Fin.ofNat l.length : Byte).val = l.length := by
      show l.length % 256 = l.length
      omega
    have hr := read_u8_cur b (Fin.ofNat l.length) (l ++ (wire_name ls ++ 0 :: tl))
      (by simpa [wire_name] using hcur)
    rw [parse_name_loop, if_pos hav, hr.1, hc]
    simp only
    rw [if_neg (by omega), if_neg (by rw [land_0xc0_of_le _ hl.2]; simp)]
    have htot1 : ((total + l.length) % 2 ^ 32 + 1) % 2 ^ 32 = total + l.length + 1 := by
      omega
    rw [htot1, if_neg (by omega)]
    have hr2 := read_cur ⟨b.base, b.position + 1⟩ l.length l (wire_name ls ++ 0 :: tl) hr.2 rfl
    rw [hr2.1]
    simp only
    rw [ih fuel _ _ _ _ tl hr2.2 hwf1 (by omega) (by simpa using hfuel)
      (Nat.mod_lt _ (by norm_num))]
    simp only [wire_name_length_cons, List.length_cons]
    have e1 : b.position + 1 + l.length + (wire_name ls).length + 1 =
        b.position + (1 + l.length + (wire_name ls).length) + 1 := by omega
    have e2 : ((labels + 1) % 256 + ls.length) % 256 = (labels + (ls.length + 1)) % 256 := by
      omega
    have e3 : last_start ls (b.position + 1 + l.length) (b.position + 1) =
        last_start (l :: ls) b.position last := by
      unfold last_start
      cases ls with
      | nil =>
        simp [wire_name]
        omega
      | cons l2 ls2 =>
        rw [List.getLast?_cons_cons]
        cases hg : (l2 :: ls2).getLast? with
        | none => simp at hg
        | some l3 =>
          simp only [wire_name_length_cons]
          omega
    rw [e1, e2, e3]

theorem length_le_wire_name (ls : List (List Byte)) : ls.length ≤ (wire_name ls).length := by
  induction ls with
  | nil => simp
  | cons l ls ih =>
    rw [wire_name_length_cons, List.length_cons]
    omega

theorem wire_name_getLast (ls : List (List Byte)) (l : List Byte)
    (h : ls.getLast? = some l) : ∃ pre, wire_name ls = pre ++ l := by
  induction ls with
  | nil => simp at h
  | cons l1 ls ih =>
    cases ls with
    | nil =>
      simp at h
      subst h
      exact ⟨[Fin.ofNat l1.length], by simp [wire_name]⟩
    | cons l2 ls2 =>
      rw [List.getLast?_cons_cons] at h
      obtain ⟨pre, hpre⟩ := ih h
      refine ⟨Fin.ofNat l1.length :: (l1 ++ pre), ?_⟩
      rw [wire_name, hpre]
      simp

/-- On a well-formed, zero-terminated name `parse_name` succeeds: it consumes
the name and its root byte, counts the labels, and reports the last label
lower-cased. -/
theorem parse_name_wire (ls : List (List Byte)) (b : ReadBuffer) (name tl : List Byte)
    (hcur : b.current = wire_name ls ++ 0 :: tl)
    (hwf : ∀ l ∈ ls, 1 ≤ l.length ∧ l.length ≤ 63)
    (hlen : (wire_name ls).length ≤ 255) :
    parse_name b name =
      .ok (true, ⟨b.base, b.position + (wire_name ls).length + 1⟩,
        strlower (ls.getLast?.getD []), ls.length) := by
  have hll := length_le_wire_name ls
  have hav : (wire_name ls).length + 1 ≤ b.available := by
    rw [← current_length, hcur]; simp
  unfold parse_name
  rw [parse_name_loop_wire ls _ b 0 b.position 0 tl hcur hwf (by omega) (by omega) (by omega)]
  simp only [Nat.zero_add]
  rw [Nat.mod_eq_of_lt (show ls.length < 256 by omega)]
  unfold last_start
  cases hg : ls.getLast? with
  | none =>
    simp only [Option.getD_none]
    have : (b.position + (wire_name ls).length + 1 + 2 ^ 64 - b.position - 1) % 2 ^ 64 = 0 := by
      have hnil : ls = [] := by simpa using hg
      have hz : (wire_name ls).length = 0 := by rw [hnil]; rfl
      omega
    rw [this]
    simp [strlower]
  | some l =>
    simp only [Option.getD_some]
    obtain ⟨pre, hpre⟩ := wire_name_getLast ls l hg
    have hl : l.length ≤ 63 := (hwf l (List.mem_of_getLast?_eq_some hg)).2
    have hwl : (wire_name ls).length = pre.length + l.length := by rw [hpre]; simp
    have hnl : (b.position + (wire_name ls).length + 1 + 2 ^ 64 -
        (b.position + (wire_name ls).length - l.length) - 1) % 2 ^ 64 = l.length := by
      omega
    rw [hnl]
    have hdrop : List.drop (b.position + (wire_name ls).length - l.length) b.base =
        l ++ 0 :: tl := by
      have e : b.position + (wire_name ls).length - l.length = b.position + pre.length := by
        omega
      rw [e, ← List.drop_drop]
      unfold ReadBuffer.current at hcur
      rw [hcur, hpre]
      simp
    rw [hdrop]
    simp

theorem current_after (b : ReadBuffer) (pre tl : List Byte) (n : Nat)
    (hcur : b.current = pre ++ tl) (hn : pre.length = n) :
    ReadBuffer.current ⟨b.base, b.position + n⟩ = tl := by
  rw [current_advance, hcur, ← hn]
  simp

/-- On a well-formed question `parse_question` captures the question size and
rejects only meta types and classes other than IN. -/
theorem parse_question_wire (ctx : Context) (ls : List (List Byte)) (a b c d : Byte)
    (tl : List Byte)
    (hcur : ctx.inb.current = wire_name ls ++ 0 :: a :: b :: c :: d :: tl)
    (hwf : ∀ l ∈ ls, 1 ≤ l.length ∧ l.length ≤ 63)
    (hlen : (wire_name ls).length ≤ 255) :
    parse_question ctx = .ok
      { ctx with
        qdstart := ctx.inb.position,
        inb := ⟨ctx.inb.base, ctx.inb.position + (wire_name ls).length + 5⟩,
        qname := strlower (ls.getLast?.getD []),
        qlabels := ls.length,
        qtype := a.val * 256 + b.val,
        qdsize := (wire_name ls).length + 5,
        rcode := if (128 ≤ a.val * 256 + b.val ∧ a.val * 256 + b.val < 255) ∨
            c.val * 256 + d.val ≠ 1 then LDNS_RCODE_NOTIMPL else ctx.rcode } := by
  have hc1 : ReadBuffer.current ⟨ctx.inb.base, ctx.inb.position + (wire_name ls).length + 1⟩ =
      a :: b :: c :: d :: tl := by
    rw [Nat.add_assoc]
    exact current_after ctx.inb (wire_name ls ++ [0]) _ _ (by simpa using hcur) (by simp)
  have hav : ¬ ReadBuffer.available ⟨ctx.inb.base, ctx.inb.position + (wire_name ls).length + 1⟩ < 4 := by
    rw [← current_length, hc1]
    simp
  have hr1 := read_u16_cur _ a b (c :: d :: tl) hc1
  have hr2 := read_u16_cur _ c d tl hr1.2
  unfold parse_question
  simp only [bind, Except.bind, pure, Except.pure]
  rw [parse_name_wire ls ctx.inb ctx.qname _ hcur hwf hlen]
  simp only [Bool.true_eq_false, if_false]
  rw [if_neg hav, hr1.1]
  simp only
  rw [hr2.1]
  simp only [ntohs_load16, LDNS_RR_TYPE_ANY, LDNS_RR_CLASS_IN, ge_iff_le]
  have e : ctx.inb.position + (wire_name ls).length + 1 + 2 + 2 - ctx.inb.position =
      (wire_name ls).length + 5 := by omega
  have e2 : ctx.inb.position + (wire_name ls).length + 1 + 2 + 2 =
      ctx.inb.position + (wire_name ls).length + 5 := by omega
  rw [e, e2]
  by_cases h1 : 128 ≤ a.val * 256 + b.val ∧ a.val * 256 + b.val < 255
  · rw [if_pos h1, if_pos (Or.inl h1)]
  · rw [if_neg h1]
    by_cases h2 : c.val * 256 + d.val ≠ 1
    · rw [if_pos h2, if_pos (Or.inr h2)]
    · rw [if_neg h2, if_neg (by tauto)]

theorem parse_edns_cases (ctx : Context) :
    (ctx.inb.available = 0 ∧ parse_edns ctx = .ok ctx) ∨
    (0 < ctx.inb.available ∧ ctx.inb.available < 11 ∧
      parse_edns ctx = .ok { ctx with rcode := LDNS_RCODE_FORMERR }) ∨
    (11 ≤ ctx.inb.available ∧ parse_edns ctx = .ok (edns_result ctx)) := by
  by_cases h0 : ctx.inb.available = 0
  · left
    refine ⟨h0, ?_⟩
    unfold parse_edns
    rw [if_pos h0]
  · by_cases h11 : ctx.inb.available < 11
    · right; left
      refine ⟨by omega, h11, ?_⟩
      unfold parse_edns
      rw [if_neg h0, if_pos ⟨by omega, h11⟩]
    · right; right
      exact ⟨by omega, parse_edns_eq ctx (by omega)⟩

theorem edns_result_frame (ctx : Context) :
    (edns_result ctx).head = ctx.head ∧ (edns_result ctx).edns = ctx.edns ∧
    (edns_result ctx).inb.base = ctx.inb.base ∧ (edns_result ctx).qdsize = ctx.qdsize ∧
    (edns_result ctx).qdstart = ctx.qdstart ∧ (edns_result ctx).qname = ctx.qname ∧
    (edns_result ctx).qlabels = ctx.qlabels ∧ (edns_result ctx).qtype = ctx.qtype := by
  unfold edns_result
  simp only
  split
  · simp
  · split
    · simp
    · split <;> simp

theorem parse_edns_inv (ctx ctx1 : Context) (h : parse_edns ctx = .ok ctx1) :
    ctx1.head = ctx.head ∧ ctx1.edns = ctx.edns ∧ ctx1.inb.base = ctx.inb.base ∧
    ctx1.qdsize = ctx.qdsize ∧ ctx1.qdstart = ctx.qdstart ∧ ctx1.qname = ctx.qname ∧
    ctx1.qlabels = ctx.qlabels ∧ ctx1.qtype = ctx.qtype := by
  rcases parse_edns_cases ctx with ⟨_, h1⟩ | ⟨_, _, h1⟩ | ⟨_, h1⟩
  · rw [h1] at h; cases h; simp
  · rw [h1] at h; cases h; simp
  · rw [h1] at h; cases h; exact edns_result_frame ctx

theorem parse_edns_total (ctx : Context) : ∃ ctx1, parse_edns ctx = .ok ctx1 := by
  rcases parse_edns_cases ctx with ⟨_, h1⟩ | ⟨_, _, h1⟩ | ⟨_, h1⟩ <;> exact ⟨_, h1⟩

theorem parse_packet_inv (ctx ctx1 : Context) (h : parse_packet ctx = .ok ctx1) :
    ctx1.head = ctx.head ∧ ctx1.edns = ctx.edns ∧ ctx1.inb.base = ctx.inb.base ∧
    ctx1.qdstart = ctx.inb.position ∧
    (ctx1.qdsize = ctx.qdsize ∨
      (ctx.inb.position + ctx1.qdsize ≤ ctx.inb.base.length ∧ 4 ≤ ctx1.qdsize)) := by
  unfold parse_packet at h
  simp only [bind, Except.bind, pure, Except.pure] at h
  split at h
  · cases h
  · next c1 hq =>
    have hq1 := parse_question_inv _ _ hq
    simp only at hq1
    have hsz : c1.qdsize = ctx.qdsize ∨
        (ctx.inb.position + c1.qdsize ≤ ctx.inb.base.length ∧ 4 ≤ c1.qdsize) := by
      rcases hq1.2.2.2.2.2.2.1 with h1 | h1
      · exact Or.inl h1
      · right
        unfold ReadBuffer.size at h1
        rw [hq1.2.2.2.2.1] at h1
        omega
    split at h
    · cases h
      exact ⟨hq1.1, hq1.2.1, hq1.2.2.2.2.1, hq1.2.2.2.2.2.1, hsz⟩
    · split at h
      · cases h
      · next c2 he =>
        have he1 := parse_edns_inv _ _ he
        have hall : c2.head = ctx.head ∧ c2.edns = ctx.edns ∧ c2.inb.base = ctx.inb.base ∧
            c2.qdstart = ctx.inb.position ∧
            (c2.qdsize = ctx.qdsize ∨
              (ctx.inb.position + c2.qdsize ≤ ctx.inb.base.length ∧ 4 ≤ c2.qdsize)) := by
          refine ⟨by rw [he1.1, hq1.1], by rw [he1.2.1, hq1.2.1],
            by rw [he1.2.2.1, hq1.2.2.2.2.1], by rw [he1.2.2.2.2.1, hq1.2.2.2.2.2.1], ?_⟩
          rw [he1.2.2.2.1]
          exact hsz
        split at h
        · cases h; exact hall
        · split at h
          · cases h; exact hall
          · cases h; exact hall

theorem parse_packet_error (ctx : Context) (e : Fault) (h : parse_packet ctx = .error e) :
    e = .out_of_range := by
  unfold parse_packet at h
  simp only [bind, Except.bind, pure, Except.pure] at h
  split at h
  · next e1 he =>
    cases h
    exact parse_question_error _ _ he
  · next c1 hq =>
    split at h
    · cases h
    · split at h
      · next e2 he2 =>
        obtain ⟨c2, hc2⟩ := parse_edns_total c1
        rw [hc2] at he2
        cases he2
      · split at h
        · cases h
        · split at h <;> cases h

theorem read_dnshdr_ok (b : ReadBuffer) (h : b.position + 12 ≤ b.base.length) :
    b.read_dnshdr = .ok (dnshdr.load ((b.base.drop b.position).take 12),
      ⟨b.base, b.position + 12⟩) := by
  unfold ReadBuffer.read_dnshdr
  rw [read_ok b 12 h]

theorem legal_header_length (b : ReadBuffer) (h : legal_header b = true) :
    b.position + 17 ≤ b.base.length := by
  unfold legal_header at h
  split at h
  · cases h
  · unfold ReadBuffer.available ReadBuffer.size at *
    omega

theorem store16_length (x : Nat) : (store16 x).length = 2 := rfl

theorem dnshdr_store_length (h : dnshdr) : h.store.length = 12 := rfl

theorem edns_opt_rr_store_length (o : edns_opt_rr) : o.store.length = 11 := rfl

/-- What the header read and the parse leave behind, for a packet handed to a
fresh context. -/
theorem execute_parse_inv (zone : Zone) (input : List Byte) (rx : dnshdr) (ctx : Context)
    (ans : AnswerPtr) (hlen : 12 ≤ input.length)
    (h : execute_parse zone (Context.fresh ⟨input, 0⟩) = .ok (rx, ctx, ans)) :
    rx = dnshdr.load (input.take 12) ∧
    ctx.head = ⟨head_size, []⟩ ∧ ctx.edns = ⟨edns_size, []⟩ ∧ ctx.inb.base = input ∧
    (ctx.qdsize = 0 ∨ (ctx.qdstart = 12 ∧ 12 + ctx.qdsize ≤ input.length ∧ 4 ≤ ctx.qdsize)) := by
  unfold execute_parse at h
  rw [read_dnshdr_ok _ (by simpa [Context.fresh] using hlen)] at h
  simp only [bind, Except.bind, pure, Except.pure, Context.fresh, List.drop_zero,
    Nat.zero_add] at h
  split at h
  · cases h
    simp
  · split at h
    · cases h
      simp
    · split at h
      · cases h
      · next c2 hp =>
        have hp1 := parse_packet_inv _ _ hp
        simp only at hp1
        have hsz : c2.qdsize = 0 ∨ (c2.qdstart = 12 ∧ 12 + c2.qdsize ≤ input.length ∧
            4 ≤ c2.qdsize) := by
          rcases hp1.2.2.2.2 with h1 | h1
          · exact Or.inl h1
          · exact Or.inr ⟨hp1.2.2.2.1, h1⟩
        split at h
        · cases h
          exact ⟨rfl, hp1.1, hp1.2.1, hp1.2.2.1, hsz⟩
        · cases h
          exact ⟨rfl, hp1.1, hp1.2.1, hp1.2.2.1, hsz⟩

theorem execute_parse_error (zone : Zone) (input : List Byte) (e : Fault)
    (hlen : 12 ≤ input.length)
    (h : execute_parse zone (Context.fresh ⟨input, 0⟩) = .error e) : e = .out_of_range := by
  unfold execute_parse at h
  rw [read_dnshdr_ok _ (by simpa [Context.fresh] using hlen)] at h
  simp only [bind, Except.bind, pure, Except.pure] at h
  split at h
  · cases h
  · split at h
    · cases h
    · split at h
      · next e1 he =>
        cases h
        exact parse_packet_error _ _ he
      · split at h <;> cases h

theorem reserve_ok (w : WriteBuffer) (n : Nat) (fill : List Byte)
    (h : w.data.length + n ≤ w.size) :
    w.reserve n fill = .ok { w with data := w.data ++ fill } := by
  unfold WriteBuffer.reserve WriteBuffer.available WriteBuffer.position
  rw [if_neg (by omega)]

theorem reserve_error (w : WriteBuffer) (n : Nat) (fill : List Byte)
    (h : w.size - w.data.length < n) :
    w.reserve n fill = .error .out_of_range := by
  unfold WriteBuffer.reserve WriteBuffer.available WriteBuffer.position
  rw [if_pos (by omega)]

theorem response_opt_congr (c1 c2 : Context) (h1 : c1.rcode = c2.rcode)
    (h2 : c1.do_bit = c2.do_bit) : response_opt c1 = response_opt c2 := by
  unfold response_opt
  rw [h1, h2]

theorem edns_reserve (fill : List Byte) :
    (WriteBuffer.mk edns_size []).reserve 11 fill = .ok ⟨edns_size, fill⟩ := by
  rw [reserve_ok _ 11 _ (by unfold edns_size; simp only [List.length_nil]; omega)]
  rfl

/-- The segments pushed by `execute`, lines 281-306. -/
theorem execute_respond_eq (rx : dnshdr) (ctx : Context) (ans : AnswerPtr)
    (hh : ctx.head = ⟨head_size, []⟩) (he : ctx.edns = ⟨edns_size, []⟩)
    (hq : 12 + ctx.qdsize ≤ head_size) :
    execute_respond [] rx ctx ans = .ok
      { ret := true,
        out := [(response_header rx ctx ans).store ++
                  (ctx.inb.base.drop ctx.qdstart).take ctx.qdsize,
                answer_segment ans ctx.qdsize] ++
               (if ctx.has_edns then [(response_opt ctx).store] else []),
        ctx := { ctx with
                 head := ⟨head_size, (response_header rx ctx ans).store ++
                   (ctx.inb.base.drop ctx.qdstart).take ctx.qdsize⟩,
                 edns := if ctx.has_edns then ⟨edns_size, (response_opt ctx).store⟩
                         else ⟨edns_size, []⟩ },
        answer := ans } := by
  have h12 : ([] : List Byte).length + 12 ≤ head_size := by
    unfold head_size
    simp only [List.length_nil]
    omega
  have h11 : ([] : List Byte).length + 11 ≤ edns_size := by
    unfold edns_size
    simp only [List.length_nil]
    omega
  have hqd : (([] : List Byte) ++ (response_header rx ctx ans).store).length + ctx.qdsize ≤
      head_size := by
    rw [List.nil_append, dnshdr_store_length]
    exact hq
  unfold execute_respond
  rw [hh, he, reserve_ok _ 12 _ h12]
  simp only [bind, Except.bind, pure, Except.pure]
  rw [reserve_ok _ _ _ hqd]
  simp only [List.nil_append]
  by_cases hed : ctx.has_edns = true
  · rw [if_pos hed, if_pos hed, if_pos hed, edns_reserve]
    simp only
    rw [response_opt_congr _ ctx rfl rfl]
    cases ans <;> rfl
  · rw [if_neg hed, if_neg hed, if_neg hed]
    cases ans <;> rfl

theorem execute_respond_ok (rx : dnshdr) (ctx : Context) (ans : AnswerPtr) (r : Returned)
    (hh : ctx.head = ⟨head_size, []⟩)
    (h : execute_respond [] rx ctx ans = .ok r) : 12 + ctx.qdsize ≤ head_size := by
  by_contra hn
  unfold execute_respond at h
  rw [hh, reserve_ok _ 12 _ (by simp [head_size])] at h
  simp only [bind, Except.bind, pure, Except.pure, List.nil_append] at h
  rw [reserve_error _ _ _ (by simp only [dnshdr_store_length, head_size] at *; omega)] at h
  cases h

/-! ## The shape of `run` -/

theorem run_dropped (zone : Zone) (input : List Byte)
    (hl : legal_header ⟨input, 0⟩ = false) :
    run zone input = .ok { ret := false, out := [], ctx := Context.fresh ⟨input, 0⟩,
                           answer := AnswerPtr.empty } := by
  unfold run execute
  rw [if_pos (by simpa [Context.fresh] using hl)]

theorem run_legal (zone : Zone) (input : List Byte)
    (hl : legal_header ⟨input, 0⟩ = true) :
    run zone input =
      (match execute_parse zone (Context.fresh ⟨input, 0⟩) with
       | .error e => .error e
       | .ok (rx, ctx, ans) => execute_respond [] rx ctx ans) := by
  unfold run execute
  rw [if_neg (by simp [Context.fresh, hl])]
  simp only [bind, Except.bind]
  split <;> simp_all

/-- The response built from the parse results. -/
theorem run_responded (zone : Zone) (input : List Byte) (r : Returned)
    (h : run zone input = .ok r) (hret : r.ret = true) :
    ∃ rx ctx ans, legal_header ⟨input, 0⟩ = true ∧
      execute_parse zone (Context.fresh ⟨input, 0⟩) = .ok (rx, ctx, ans) ∧
      12 + ctx.qdsize ≤ head_size ∧
      r = { ret := true,
            out := [(response_header rx ctx ans).store ++
                      (ctx.inb.base.drop ctx.qdstart).take ctx.qdsize,
                    answer_segment ans ctx.qdsize] ++
                   (if ctx.has_edns then [(response_opt ctx).store] else []),
            ctx := { ctx with
                     head := ⟨head_size, (response_header rx ctx ans).store ++
                       (ctx.inb.base.drop ctx.qdstart).take ctx.qdsize⟩,
                     edns := if ctx.has_edns then ⟨edns_size, (response_opt ctx).store⟩
                             else ⟨edns_size, []⟩ },
            answer := ans } := by
  cases hl : legal_header ⟨input, 0⟩ with
  | false =>
    rw [run_dropped zone input hl] at h
    cases h
    cases hret
  | true =>
    rw [run_legal zone input hl] at h
    have hlen : 12 ≤ input.length := by
      have := legal_header_length _ hl
      simp only at this
      omega
    split at h
    · cases h
    · next rx ctx ans hp =>
      have hinv := execute_parse_inv zone input rx ctx ans hlen hp
      have hq := execute_respond_ok rx ctx ans r hinv.2.1 h
      rw [execute_respond_eq rx ctx ans hinv.2.1 hinv.2.2.1 hq] at h
      cases h
      exact ⟨rx, ctx, ans, rfl, hp, hq, rfl⟩

/-! ## Header bytes -/

theorem ofNat_val (b : Byte) : (Fin.ofNat b.val : Byte) = b := by
  apply Fin.ext
  show b.val % 256 = b.val
  have := b.isLt
  omega

theorem ofNat_val_mod (n : Nat) : ((Fin.ofNat n : Byte)).val = n % 256 := rfl

theorem store16_load16 (b0 b1 : Byte) : store16 (load16 b0 b1) = [b0, b1] := by
  unfold store16 load16
  have h0 := b0.isLt
  have h1 := b1.isLt
  have e0 : (b0.val + 256 * b1.val) % 256 = b0.val := by omega
  have e1 : (b0.val + 256 * b1.val) / 256 % 256 = b1.val := by omega
  rw [e0, e1, ofNat_val, ofNat_val]

theorem be16_store16_htons (x : Nat) (tl : List Byte) :
    be16 (store16 (htons x) ++ tl) 0 = x % 65536 := by
  have key : ∀ lo hi : Nat, lo < 256 → hi < 256 →
      (lo * 256 + hi) % 256 = hi ∧ (lo * 256 + hi) / 256 % 256 = lo := by
    intro lo hi h1 h2
    omega
  have hk := key (x % 256) (x / 256 % 256) (Nat.mod_lt _ (by norm_num))
    (Nat.mod_lt _ (by norm_num))
  have h1 : htons x % 256 = x / 256 % 256 := hk.1
  have h2 : htons x / 256 % 256 = x % 256 := hk.2
  have h3 : x / 256 % 256 % 256 * 256 + x % 256 % 256 = x % 65536 := by
    have hd : x / 256 / 256 = x / 65536 := by
      rw [Nat.div_div_eq_div_mul]
    clear h1 h2 hk key
    omega
  unfold be16 store16
  simp only [List.cons_append, List.nil_append, List.getD_cons_zero, List.getD_cons_succ,
    ofNat_val_mod]
  rw [h1, h2]
  exact h3

theorem be16_cons2 (a b : Byte) (l : List Byte) (i : Nat) :
    be16 (a :: b :: l) (i + 2) = be16 l i := by
  unfold be16
  simp only [List.getD_cons_succ]

theorem u16_at_take (l : List Byte) (i : Nat) (h : i + 1 < 12) :
    u16_at (l.take 12) i = load16 (l.getD i 0) (l.getD (i + 1) 0) := by
  unfold u16_at
  rw [getD_take _ _ _ _ (by omega), getD_take _ _ _ _ h]

/-- The fields of the response header as they appear on the wire. -/
theorem response_header_wire (input : List Byte) (ctx : Context) (ans : AnswerPtr)
    (q : List Byte) :
    let seg := (response_header (dnshdr.load (input.take 12)) ctx ans).store ++ q
    seg.getD 0 0 = input.getD 0 0 ∧ seg.getD 1 0 = input.getD 1 0 ∧
    be16 seg 2 = response_flags (dnshdr.load (input.take 12)) ctx.rcode ans % 65536 ∧
    be16 seg 4 = (if ctx.qdsize ≠ 0 then 1 else 0) ∧
    be16 seg 6 = ans.get.ancount % 65536 ∧
    be16 seg 8 = ans.get.nscount % 65536 ∧
    be16 seg 10 = (ans.get.arcount + (if ctx.has_edns then 1 else 0)) % 65536 ∧
    seg.length = 12 + q.length := by
  intro seg
  have hstore : seg = store16 (load16 (input.getD 0 0) (input.getD 1 0)) ++
      (store16 (htons (response_flags (dnshdr.load (input.take 12)) ctx.rcode ans)) ++
      (store16 (htons (if ctx.qdsize ≠ 0 then 1 else 0)) ++
      (store16 (htons ans.get.ancount) ++
      (store16 (htons ans.get.nscount) ++
      (store16 (htons (ans.get.arcount + (if ctx.has_edns then 1 else 0))) ++ q))))) := by
    show (response_header (dnshdr.load (input.take 12)) ctx ans).store ++ q = _
    unfold response_header dnshdr.store dnshdr.load
    simp only [List.append_assoc, u16_at_take _ 0 (by omega)]
  have hlen : seg.length = 12 + q.length := by
    show ((response_header (dnshdr.load (input.take 12)) ctx ans).store ++ q).length = _
    rw [List.length_append, dnshdr_store_length]
  rw [store16_load16] at hstore
  refine ⟨by rw [hstore]; rfl, by rw [hstore]; rfl, ?_, ?_, ?_, ?_, ?_, hlen⟩
  · rw [hstore]
    exact (be16_cons2 _ _ _ 0).trans (be16_store16_htons _ _)
  · rw [hstore]
    refine ((be16_cons2 _ _ _ 2).trans ((be16_cons2 _ _ _ 0).trans
      (be16_store16_htons _ _))).trans ?_
    split <;> rfl
  · rw [hstore]
    exact (be16_cons2 _ _ _ 4).trans ((be16_cons2 _ _ _ 2).trans ((be16_cons2 _ _ _ 0).trans
      (be16_store16_htons _ _)))
  · rw [hstore]
    exact (be16_cons2 _ _ _ 6).trans ((be16_cons2 _ _ _ 4).trans ((be16_cons2 _ _ _ 2).trans
      ((be16_cons2 _ _ _ 0).trans (be16_store16_htons _ _))))
  · rw [hstore]
    exact (be16_cons2 _ _ _ 8).trans ((be16_cons2 _ _ _ 6).trans ((be16_cons2 _ _ _ 4).trans
      ((be16_cons2 _ _ _ 2).trans ((be16_cons2 _ _ _ 0).trans (be16_store16_htons _ _)))))

/-! ## Names accepted by `parse_name` -/

theorem read_inv (b : ReadBuffer) (n : Nat) (xs : List Byte) (b1 : ReadBuffer)
    (h : b.read n = .ok (xs, b1)) :
    b.current = xs ++ b1.current ∧ xs.length = n ∧ b1 = ⟨b.base, b.position + n⟩ := by
  unfold ReadBuffer.read at h
  split at h
  · cases h
  · next hav =>
    cases h
    unfold ReadBuffer.available ReadBuffer.size at hav
    refine ⟨?_, ?_, rfl⟩
    · unfold ReadBuffer.current
      simp only
      rw [← List.drop_drop, List.take_append_drop]
    · rw [List.length_take, List.length_drop]
      omega

theorem read_u8_inv (b : ReadBuffer) (c : Nat) (b1 : ReadBuffer)
    (h : b.read_u8 = .ok (c, b1)) :
    ∃ c1 : Byte, b.current = c1 :: b1.current ∧ c = c1.val ∧
      b1 = ⟨b.base, b.position + 1⟩ := by
  unfold ReadBuffer.read_u8 at h
  split at h
  · cases h
  · next bs b2 hr =>
    cases h
    have hi := read_inv b 1 bs _ hr
    match bs, hi with
    | [x], hi => exact ⟨x, by simpa using hi.1, rfl, hi.2.2⟩

set_option maxRecDepth 100000 in
theorem le_of_land_0xc0 (c : Byte) (h : c.val &&& 0xc0 = 0) : c.val ≤ 63 := by
  revert c
  decide

theorem last_start_cons (l : List Byte) (ls : List (List Byte)) (pos last : Nat) :
    last_start (l :: ls) pos last = last_start ls (pos + 1 + l.length) (pos + 1) := by
  unfold last_start
  cases ls with
  | nil =>
    simp [wire_name]
    omega
  | cons l2 ls2 =>
    rw [List.getLast?_cons_cons]
    cases hg : (l2 :: ls2).getLast? with
    | none => simp at hg
    | some l3 =>
      simp only [wire_name_length_cons]
      omega

/-- Whatever the loop of `parse_name` accepts is a sequence of labels of at
most 63 bytes each, within the length limit, followed by the root byte unless
the input ended first. -/
theorem parse_name_loop_finished (fuel : Nat) :
    ∀ (b : ReadBuffer) (total last labels : Nat) (b1 : ReadBuffer) (last1 labels1 : Nat),
      parse_name_loop fuel b total last labels = .ok (.finished b1 last1 labels1) →
      labels < 256 → total ≤ 255 →
      ∃ ls : List (List Byte),
        (∀ l ∈ ls, 1 ≤ l.length ∧ l.length ≤ 63) ∧
        total + (wire_name ls).length ≤ 255 ∧
        labels1 = (labels + ls.length) % 256 ∧
        last1 = last_start ls b.position last ∧
        b1.base = b.base ∧
        ((b.current = wire_name ls ++ 0 :: b1.current ∧
            b1.position = b.position + (wire_name ls).length + 1) ∨
          (b.current = wire_name ls ∧ b1.available = 0 ∧
            b1.position = b.position + (wire_name ls).length)) := by
  induction fuel with
  | zero =>
    intro b total last labels b1 last1 labels1 h
    rw [parse_name_loop] at h
    cases h
  | succ fuel ih =>
    intro b total last labels b1 last1 labels1 h hlab htotal
    rw [parse_name_loop] at h
    split at h
    · next hav =>
      split at h
      · cases h
      · next c in1 hr =>
        obtain ⟨c1, hcur, hc, hin1⟩ := read_u8_inv b c in1 hr
        split at h
        · next hc0 =>
          cases h
          refine ⟨[], by simp, by simpa [wire_name] using htotal,
            by simp [Nat.mod_eq_of_lt hlab], by simp [last_start],
            by rw [hin1], Or.inl ⟨?_, by rw [hin1]; simp [wire_name]⟩⟩
          have : c1 = 0 := Fin.ext (by rw [← hc, hc0]; rfl)
          rw [hcur, this]
          simp [wire_name]
        · next hc0 =>
          simp only at h
          split at h
          · cases h
          · next hland =>
            split at h
            · cases h
            · next htot =>
              split at h
              · cases h
              · next xs in2 hr2 =>
                obtain ⟨hcur2, hxs, hin2⟩ := read_inv in1 c xs in2 hr2
                have hc63 : c ≤ 63 := by
                  rw [hc]
                  apply le_of_land_0xc0
                  rw [← hc]
                  simpa using hland
                have htot1 : ((total + c) % 2 ^ 32 + 1) % 2 ^ 32 ≤ 255 := by omega
                have htot2 : total + c + 1 ≤ 255 := by omega
                obtain ⟨ls, hwf, hlen, hlabs, hlast, hbase, hshape⟩ :=
                  ih in2 _ _ _ b1 last1 labels1 h (Nat.mod_lt _ (by norm_num)) htot1
                have hofnat : (Fin.ofNat xs.length : Byte) = c1 := by
                  rw [hxs, hc, ofNat_val]
                have hw : wire_name (xs :: ls) = c1 :: (xs ++ wire_name ls) := by
                  rw [wire_name, hofnat]
                have hpos2 : in2.position = b.position + 1 + xs.length := by
                  rw [hin2, hin1, hxs]
                refine ⟨xs :: ls, ?_, ?_, ?_, ?_, ?_, ?_⟩
                · intro l hl
                  rcases List.mem_cons.mp hl with rfl | hl
                  · omega
                  · exact hwf l hl
                · rw [wire_name_length_cons]
                  omega
                · rw [hlabs, List.length_cons]
                  omega
                · rw [hlast, last_start_cons, hpos2, hin1]
                · rw [hbase, hin2, hin1]
                · rw [wire_name_length_cons]
                  rcases hshape with ⟨hs1, hs2⟩ | ⟨hs1, hs2, hs3⟩
                  · left
                    refine ⟨?_, by rw [hs2, hpos2]; omega⟩
                    rw [hcur, hcur2, hs1, hw]
                    simp
                  · right
                    refine ⟨?_, hs2, by rw [hs3, hpos2]; omega⟩
                    rw [hcur, hcur2, hs1, hw]
    · next hav =>
      cases h
      refine ⟨[], by simp, by simpa [wire_name] using htotal,
        by simp [Nat.mod_eq_of_lt hlab], by simp [last_start],
        rfl, Or.inr ⟨?_, by omega, by simp [wire_name]⟩⟩
      have hl := current_length b
      simp only [wire_name]
      exact List.eq_nil_of_length_eq_zero (by omega)

theorem parse_name_true (b : ReadBuffer) (name : List Byte) (in1 : ReadBuffer)
    (nm : List Byte) (labs : Nat) (h : parse_name b name = .ok (true, in1, nm, labs)) :
    ∃ last, parse_name_loop (b.available + 1) b 0 b.position 0 =
      .ok (.finished in1 last labs) := by
  unfold parse_name at h
  split at h
  · cases h
  · cases h
  · next in2 last labels he =>
    cases h
    exact ⟨last, he⟩

/-- Either `parse_question` fails with FORMERR before capturing the question
size, or the buffer holds a well-formed, zero-terminated name followed by four
bytes. -/
theorem parse_question_shape (ctx ctx1 : Context) (h : parse_question ctx = .ok ctx1) :
    (ctx1.qdsize = ctx.qdsize ∧ ctx1.rcode = LDNS_RCODE_FORMERR) ∨
    ∃ (ls : List (List Byte)) (a b c d : Byte) (tl : List Byte),
      ctx.inb.current = wire_name ls ++ 0 :: a :: b :: c :: d :: tl ∧
      (∀ l ∈ ls, 1 ≤ l.length ∧ l.length ≤ 63) ∧ (wire_name ls).length ≤ 255 := by
  unfold parse_question at h
  simp only [bind, Except.bind, pure, Except.pure] at h
  split at h
  · cases h
  · next v hv =>
    obtain ⟨ok, in1, nm, labs⟩ := v
    simp only at h
    split at h
    · cases h; exact Or.inl ⟨rfl, rfl⟩
    · next hok =>
      split at h
      · cases h; exact Or.inl ⟨rfl, rfl⟩
      · next hav =>
        right
        have hok1 : ok = true := by simpa using hok
        subst hok1
        obtain ⟨last, hloop⟩ := parse_name_true _ _ _ _ _ hv
        obtain ⟨ls, hwf, hlen, _, _, _, hshape⟩ :=
          parse_name_loop_finished _ _ _ _ _ _ _ _ hloop (by norm_num) (by norm_num)
        rcases hshape with ⟨hs1, _⟩ | ⟨_, hs2, _⟩
        · have hl := current_length in1
          match hc : in1.current, hl with
          | a :: b :: c :: d :: tl, _ =>
            refine ⟨ls, a, b, c, d, tl, ?_, hwf, by omega⟩
            rw [hs1, hc]
          | [], hl => simp at hl; omega
          | [_], hl => simp at hl; omega
          | [_, _], hl => simp at hl; omega
          | [_, _, _], hl => simp at hl; omega
        · omega

/-! ## Claims -/

theorem run_error (zone : Zone) (input : List Byte) (e : Fault)
    (h : run zone input = .error e) : e = .out_of_range := by
  cases hl : legal_header ⟨input, 0⟩ with
  | false =>
    rw [run_dropped zone input hl] at h
    cases h
  | true =>
    rw [run_legal zone input hl] at h
    have hlen : 12 ≤ input.length := by
      have := legal_header_length _ hl
      simp only at this
      omega
    split at h
    · next e1 he =>
      cases h
      exact execute_parse_error zone input _ hlen he
    · next rx ctx ans hp =>
      have hinv := execute_parse_inv zone input rx ctx ans hlen hp
      by_cases hq : 12 + ctx.qdsize ≤ head_size
      · rw [execute_respond_eq rx ctx ans hinv.2.1 hinv.2.2.1 hq] at h
        cases h
      · unfold execute_respond at h
        rw [hinv.2.1, reserve_ok _ 12 _ (by simp [head_size])] at h
        simp only [bind, Except.bind, pure, Except.pure, List.nil_append] at h
        rw [reserve_error _ _ _ (by simp only [dnshdr_store_length, head_size] at *; omega)] at h
        cases h
        rfl

theorem legal_header_iff (input : List Byte) :
    legal_header ⟨input, 0⟩ = false ↔
      input.length < 17 ∨ (input.getD 2 0).val &&& 0x80 ≠ 0 := by
  unfold legal_header ReadBuffer.available ReadBuffer.size ReadBuffer.current
  simp only [Nat.sub_zero, List.drop_zero]
  by_cases h1 : input.length < 17
  · simp [h1]
  · by_cases h2 : (input.getD 2 0).val &&& 0x80 ≠ 0
    · simp [h1, h2]
    · simp [h1, h2]

/-- When `execute` returns, it returned `false` exactly when fewer than 17 bytes were available or byte 2 has bit 0x80 set, and
then it pushed no segment. -/
theorem run_drop_iff (zone : Zone) (input : List Byte) (r : Returned)
    (h : run zone input = .ok r) :
    (r.ret = false ↔ input.length < 17 ∨ (input.getD 2 0).val &&& 0x80 ≠ 0) ∧
    (r.ret = false → r.out = []) := by
  cases hl : legal_header ⟨input, 0⟩ with
  | false =>
    rw [run_dropped zone input hl] at h
    cases h
    exact ⟨⟨fun _ => (legal_header_iff input).mp hl, fun _ => rfl⟩, fun _ => rfl⟩
  | true =>
    have hn : ¬ (input.length < 17 ∨ (input.getD 2 0).val &&& 0x80 ≠ 0) := by
      intro hc
      have := (legal_header_iff input).mpr hc
      rw [hl] at this
      cases this
    cases hr : r.ret with
    | false =>
      exfalso
      rw [run_legal zone input hl] at h
      have hlen : 12 ≤ input.length := by
        have := legal_header_length _ hl
        simp only at this
        omega
      split at h
      · cases h
      · next rx ctx ans hp =>
        have hinv := execute_parse_inv zone input rx ctx ans hlen hp
        have hq := execute_respond_ok rx ctx ans r hinv.2.1 h
        rw [execute_respond_eq rx ctx ans hinv.2.1 hinv.2.2.1 hq] at h
        cases h
        cases hr
    | true =>
      exact ⟨⟨fun h1 => (by cases h1), fun h1 => absurd h1 hn⟩, fun h1 => (by cases h1)⟩

/-- C1: a query that passes the legal-header gate (17 bytes, QR clear) and
whose first label announces more bytes than remain makes `execute` neither
return false nor return a response: the unguarded label read of `parse_name`
fails and the failure leaves `execute`. -/
theorem c1_label_overrun_escapes (zone : Zone) :
    overrun_input.length = 17 ∧ (overrun_input.getD 2 0).val &&& 0x80 = 0 ∧
    legal_header ⟨overrun_input, 0⟩ = true ∧
    run zone overrun_input = .error .out_of_range :=
  ⟨rfl, rfl, rfl, rfl⟩

theorem response_flags_eq (input : List Byte) (rcode : Nat) (ans : AnswerPtr) :
    response_flags (dnshdr.load (input.take 12)) rcode ans =
      ((be16 input 2 &&& 0x0110) ||| 0x8000 ||| (rcode &&& 0x0f)) |||
        (if ans.get.authoritative then 0x0400 else 0) := by
  unfold response_flags dnshdr.load
  simp only [u16_at_take _ 2 (by omega), ntohs_load16_getD]
  split
  · rfl
  · rw [Nat.or_zero]

theorem response_flags_lt (input : List Byte) (rcode : Nat) (ans : AnswerPtr) :
    response_flags (dnshdr.load (input.take 12)) rcode ans < 65536 := by
  unfold response_flags
  exact flags_lt _ _ _

theorem response_flags_testBit (input : List Byte) (rcode : Nat) (ans : AnswerPtr) (i : Nat) :
    (response_flags (dnshdr.load (input.take 12)) rcode ans).testBit i =
      ((decide (i = 4 ∨ i = 8) && (be16 input 2).testBit i) || decide (i = 15) ||
        (decide (i < 4) && rcode.testBit i) ||
        (decide (i = 10) && ans.get.authoritative)) := by
  rw [response_flags_eq]
  cases ans.get.authoritative <;>
    simp [Nat.testBit_or, Nat.testBit_and, testBit_0x8000, testBit_0x0110, testBit_0x0f,
      testBit_0x0400, Bool.and_comm]

/-- The first segment of every response: the header fields on the wire, then
the question bytes. -/
theorem first_segment_wire (zone : Zone) (input : List Byte) (r : Returned)
    (h : run zone input = .ok r) (hret : r.ret = true) :
    r.out ≠ [] ∧
    (first_segment r).getD 0 0 = input.getD 0 0 ∧
    (first_segment r).getD 1 0 = input.getD 1 0 ∧
    be16 (first_segment r) 2 =
      response_flags (dnshdr.load (input.take 12)) r.ctx.rcode r.answer ∧
    be16 (first_segment r) 4 = (if r.ctx.qdsize ≠ 0 then 1 else 0) ∧
    be16 (first_segment r) 6 = r.answer.get.ancount % 65536 ∧
    be16 (first_segment r) 8 = r.answer.get.nscount % 65536 ∧
    be16 (first_segment r) 10 =
      (r.answer.get.arcount + (if r.ctx.has_edns then 1 else 0)) % 65536 ∧
    (r.ctx.qdsize = 0 ∨ (12 + r.ctx.qdsize ≤ input.length ∧ 4 ≤ r.ctx.qdsize)) ∧
    (first_segment r).length = 12 + r.ctx.qdsize ∧
    (first_segment r).drop 12 = (input.drop 12).take r.ctx.qdsize := by
  obtain ⟨rx, ctx, ans, hl, hp, hq, rfl⟩ := run_responded zone input r h hret
  have hlen : 12 ≤ input.length := by
    have := legal_header_length _ hl
    simp only at this
    omega
  obtain ⟨hrx, _, _, hbase, hqd⟩ := execute_parse_inv zone input rx ctx ans hlen hp
  subst hrx
  have hw := response_header_wire input ctx ans ((ctx.inb.base.drop ctx.qdstart).take ctx.qdsize)
  simp only at hw
  obtain ⟨w0, w1, w2, w4, w6, w8, w10, wl⟩ := hw
  have hquestion : (ctx.inb.base.drop ctx.qdstart).take ctx.qdsize =
      (input.drop 12).take ctx.qdsize := by
    rcases hqd with h0 | ⟨h1, _⟩
    · rw [h0]; simp
    · rw [hbase, h1]
  have hqlen : ((ctx.inb.base.drop ctx.qdstart).take ctx.qdsize).length = ctx.qdsize := by
    rw [hquestion, List.length_take, List.length_drop]
    rcases hqd with h0 | ⟨_, h1, _⟩
    · rw [h0]; simp
    · omega
  have hfs : first_segment
      { ret := true,
        out := [(response_header (dnshdr.load (input.take 12)) ctx ans).store ++
                  (ctx.inb.base.drop ctx.qdstart).take ctx.qdsize,
                answer_segment ans ctx.qdsize] ++
               (if ctx.has_edns then [(response_opt ctx).store] else []),
        ctx := { ctx with
                 head := ⟨head_size, (response_header (dnshdr.load (input.take 12)) ctx ans).store ++
                   (ctx.inb.base.drop ctx.qdstart).take ctx.qdsize⟩,
                 edns := if ctx.has_edns then ⟨edns_size, (response_opt ctx).store⟩
                         else ⟨edns_size, []⟩ },
        answer := ans } =
      (response_header (dnshdr.load (input.take 12)) ctx ans).store ++
        (ctx.inb.base.drop ctx.qdstart).take ctx.qdsize := rfl
  rw [hfs]
  refine ⟨by simp, w0, w1, ?_, w4, w6, w8, w10, ?_, ?_, ?_⟩
  · rw [w2, Nat.mod_eq_of_lt (response_flags_lt _ _ _)]
  · rcases hqd with h0 | ⟨_, h1, h2⟩
    · exact Or.inl h0
    · exact Or.inr ⟨h1, h2⟩
  · rw [wl, hqlen]
  · rw [List.drop_append_of_le_length (by rw [dnshdr_store_length]),
      List.drop_of_length_le (by rw [dnshdr_store_length]), List.nil_append, hquestion]

/-- C2: every response starts with a 12-byte header that carries the request
id and the flags word `(request_flags & 0x0110) | 0x8000 | (rcode & 0x0f) |
(0x0400 if the answer is authoritative)`: QR is 1, RD and CD are the
request's, and TC, RA, Z and AD are 0. -/
theorem c2_response_header (zone : Zone) (input : List Byte) (r : Returned)
    (h : run zone input = .ok r) (hret : r.ret = true) :
    r.out ≠ [] ∧ 12 ≤ (first_segment r).length ∧
    (first_segment r).getD 0 0 = input.getD 0 0 ∧
    (first_segment r).getD 1 0 = input.getD 1 0 ∧
    be16 (first_segment r) 2 =
      ((be16 input 2 &&& 0x0110) ||| 0x8000 ||| (r.ctx.rcode &&& 0x0f)) |||
        (if r.answer.get.authoritative then 0x0400 else 0) ∧
    (be16 (first_segment r) 2).testBit 15 = true ∧
    (be16 (first_segment r) 2).testBit 8 = (be16 input 2).testBit 8 ∧
    (be16 (first_segment r) 2).testBit 4 = (be16 input 2).testBit 4 ∧
    (be16 (first_segment r) 2).testBit 9 = false ∧
    (be16 (first_segment r) 2).testBit 7 = false ∧
    (be16 (first_segment r) 2).testBit 6 = false ∧
    (be16 (first_segment r) 2).testBit 5 = false := by
  obtain ⟨hne, w0, w1, w2, _, _, _, _, _, wl, _⟩ := first_segment_wire zone input r h hret
  refine ⟨hne, by omega, w0, w1, by rw [w2, response_flags_eq], ?_, ?_, ?_, ?_, ?_, ?_, ?_⟩ <;>
    rw [w2, response_flags_testBit] <;> simp

/-- C2 at scenario S1 (root SOA against the demo zone): the response flags
word is 0x8400. -/
theorem c2_response_header_witness :
    run demo_zone s1_input = .ok (result_of demo_zone s1_input) ∧
    (result_of demo_zone s1_input).ret = true ∧
    be16 (first_segment (result_of demo_zone s1_input)) 2 = 0x8400 ∧
    (be16 (first_segment (result_of demo_zone s1_input)) 2).testBit 15 = true :=
  ⟨rfl, rfl, rfl, (c2_response_header demo_zone s1_input _ rfl rfl).2.2.2.2.2.1⟩

theorem parse_packet_shape (ctx c2 : Context) (h : parse_packet ctx = .ok c2) :
    (c2.qdsize = ctx.qdsize ∧ c2.rcode = LDNS_RCODE_FORMERR ∧ c2.has_edns = ctx.has_edns) ∨
    ∃ (ls : List (List Byte)) (a b c d : Byte) (tl : List Byte),
      ctx.inb.current = wire_name ls ++ 0 :: a :: b :: c :: d :: tl ∧
      (∀ l ∈ ls, 1 ≤ l.length ∧ l.length ≤ 63) ∧ (wire_name ls).length ≤ 255 ∧
      c2.qdsize = (wire_name ls).length + 5 := by
  unfold parse_packet at h
  simp only [bind, Except.bind, pure, Except.pure] at h
  split at h
  · cases h
  · next c1 hq =>
    have hsh := parse_question_shape _ _ hq
    have hinv := parse_question_inv _ _ hq
    simp only at hsh hinv
    rcases hsh with ⟨hs1, hs2⟩ | ⟨ls, a, b, c, d, tl, hcur, hwf, hlen⟩
    · rw [if_pos (by rw [hs2]; decide)] at h
      cases h
      exact Or.inl ⟨hs1, hs2, hinv.2.2.1⟩
    · right
      refine ⟨ls, a, b, c, d, tl, hcur, hwf, hlen, ?_⟩
      have hw := parse_question_wire { ctx with rcode := LDNS_RCODE_NOERROR } ls a b c d tl
        hcur hwf hlen
      have hc1 := Except.ok.inj (hq.symm.trans hw)
      have hqs : c1.qdsize = (wire_name ls).length + 5 := by rw [hc1]
      clear hw hc1
      split at h
      · cases h; exact hqs
      · split at h
        · cases h
        · next c3 he =>
          have he1 := parse_edns_inv _ _ he
          split at h
          · cases h; rw [he1.2.2.2.1, hqs]
          · split at h
            · cases h; exact he1.2.2.2.1.trans hqs
            · cases h; rw [he1.2.2.2.1, hqs]

/-- A response either echoes no question, or the request holds a well-formed,
zero-terminated name and four more bytes right after the header, and the
captured question size is their length. -/
theorem question_shape (zone : Zone) (input : List Byte) (r : Returned)
    (h : run zone input = .ok r) (hret : r.ret = true) :
    r.ctx.qdsize = 0 ∨
    ∃ (ls : List (List Byte)) (a b c d : Byte) (tl : List Byte),
      input.drop 12 = wire_name ls ++ 0 :: a :: b :: c :: d :: tl ∧
      (∀ l ∈ ls, 1 ≤ l.length ∧ l.length ≤ 63) ∧ (wire_name ls).length ≤ 255 ∧
      r.ctx.qdsize = (wire_name ls).length + 5 := by
  obtain ⟨rx, ctx, ans, hl, hp, hq, rfl⟩ := run_responded zone input r h hret
  have hlen : 12 ≤ input.length := by
    have := legal_header_length _ hl
    simp only at this
    omega
  show ctx.qdsize = 0 ∨ _
  unfold execute_parse at hp
  rw [read_dnshdr_ok _ (by simpa [Context.fresh] using hlen)] at hp
  simp only [bind, Except.bind, pure, Except.pure] at hp
  split at hp
  · cases hp; exact Or.inl rfl
  · split at hp
    · cases hp; exact Or.inl rfl
    · split at hp
      · cases hp
      · next c2 hpp =>
        have hsh := parse_packet_shape _ _ hpp
        have hfin : c2.qdsize = 0 ∨
            ∃ (ls : List (List Byte)) (a b c d : Byte) (tl : List Byte),
              input.drop 12 = wire_name ls ++ 0 :: a :: b :: c :: d :: tl ∧
              (∀ l ∈ ls, 1 ≤ l.length ∧ l.length ≤ 63) ∧ (wire_name ls).length ≤ 255 ∧
              c2.qdsize = (wire_name ls).length + 5 := by
          rcases hsh with ⟨hs, _, _⟩ | ⟨ls, a, b, c, d, tl, hcur, hrest⟩
          · exact Or.inl hs
          · exact Or.inr ⟨ls, a, b, c, d, tl, hcur, hrest⟩
        split at hp
        · cases hp; exact hfin
        · cases hp; exact hfin

/-- C3: the response qdcount is 0 or 1; it is 1 exactly when a question size
was captured, and then the bytes after the 12-byte header are the request
bytes `[12, 12 + qdsize)`, which are a whole encoded name of labels of at most
63 bytes, its root byte and the 4 bytes of qtype and qclass; when it is 0 the
first segment is exactly 12 bytes long. -/
theorem c3_question_echo (zone : Zone) (input : List Byte) (r : Returned)
    (h : run zone input = .ok r) (hret : r.ret = true) :
    (be16 (first_segment r) 4 = 0 ∨ be16 (first_segment r) 4 = 1) ∧
    (be16 (first_segment r) 4 = 1 ↔ 0 < r.ctx.qdsize) ∧
    (be16 (first_segment r) 4 = 1 →
      12 + r.ctx.qdsize ≤ input.length ∧
      (first_segment r).length = 12 + r.ctx.qdsize ∧
      (first_segment r).drop 12 = (input.drop 12).take r.ctx.qdsize ∧
      ∃ (ls : List (List Byte)) (a b c d : Byte),
        (∀ l ∈ ls, 1 ≤ l.length ∧ l.length ≤ 63) ∧ (wire_name ls).length ≤ 255 ∧
        r.ctx.qdsize = (wire_name ls).length + 5 ∧
        (input.drop 12).take r.ctx.qdsize = wire_name ls ++ [0, a, b, c, d]) ∧
    (be16 (first_segment r) 4 = 0 → (first_segment r).length = 12) := by
  obtain ⟨_, _, _, _, w4, _, _, _, hqd, wl, wq⟩ := first_segment_wire zone input r h hret
  have hshape := question_shape zone input r h hret
  rw [w4]
  by_cases h0 : r.ctx.qdsize = 0
  · rw [if_neg (by simp [h0])]
    refine ⟨Or.inl rfl, ⟨fun hc => ?_, fun hc => ?_⟩, fun hc => ?_, fun _ => ?_⟩
    · cases hc
    · omega
    · cases hc
    · rw [wl, h0]
  · rw [if_pos h0]
    have h1 : 12 + r.ctx.qdsize ≤ input.length := by
      rcases hqd with hz | ⟨h1, _⟩
      · exact absurd hz h0
      · exact h1
    refine ⟨Or.inr rfl, ⟨fun _ => ?_, fun _ => rfl⟩, fun _ => ⟨h1, wl, wq, ?_⟩, fun hc => ?_⟩
    · omega
    · rcases hshape with hz | ⟨ls, a, b, c, d, tl, hcur, hwf, hlen, hsz⟩
      · exact absurd hz h0
      · refine ⟨ls, a, b, c, d, hwf, hlen, hsz, ?_⟩
        rw [hcur, hsz, List.take_append]
        rfl
    · cases hc

/-- C3 at scenario S1: qdcount is 1 and the five question bytes are echoed. -/
theorem c3_question_echo_witness :
    run demo_zone s1_input = .ok (result_of demo_zone s1_input) ∧
    (result_of demo_zone s1_input).ret = true ∧
    be16 (first_segment (result_of demo_zone s1_input)) 4 = 1 ∧
    (first_segment (result_of demo_zone s1_input)).drop 12 = [0, 0, 6, 0, 1] ∧
    (be16 (first_segment (result_of demo_zone s1_input)) 4 = 1 ↔
      0 < (result_of demo_zone s1_input).ctx.qdsize) :=
  ⟨rfl, rfl, rfl, rfl, (c3_question_echo demo_zone s1_input _ rfl rfl).2.1⟩

/-! ## The header checks in wire terms -/

theorem legal_header_of_gate (input : List Byte) (h : gate_ok input) :
    legal_header ⟨input, 0⟩ = true := by
  cases hl : legal_header ⟨input, 0⟩ with
  | true => rfl
  | false =>
    rcases (legal_header_iff input).mp hl with h1 | h1
    · have := h.1; omega
    · exact absurd h.2 h1

theorem htons_load16 (c0 c1 : Byte) : htons (load16 c0 c1) = c0.val * 256 + c1.val :=
  ntohs_load16 c0 c1

theorem load16_eq_zero (c0 c1 : Byte) : load16 c0 c1 = 0 ↔ c0.val * 256 + c1.val = 0 := by
  unfold load16
  omega

theorem valid_header_iff (input : List Byte) :
    valid_header (dnshdr.load (input.take 12)) = true ↔ header_counts_ok input := by
  unfold valid_header dnshdr.load header_counts_ok
  simp only [u16_at_take _ 2 (by omega), u16_at_take _ 4 (by omega), u16_at_take _ 6 (by omega),
    u16_at_take _ 8 (by omega), u16_at_take _ 10 (by omega), ntohs_load16, htons_load16,
    load16_eq_zero]
  unfold be16
  constructor
  · intro h
    split at h
    · cases h
    · next h1 =>
      split at h
      · cases h
      · next h2 =>
        split at h
        · cases h
        · next h3 =>
          split at h
          · cases h
          · next h4 =>
            simp only [not_or, not_not, Nat.add_zero] at h1 h2 h3 h4
            exact ⟨h1, h2, (load16_eq_zero _ _).mp h3.1, (load16_eq_zero _ _).mp h3.2,
              by omega⟩
  · rintro ⟨h1, h2, h3, h4, h5⟩
    rw [if_neg (not_not.mpr h1), if_neg (not_not.mpr h2),
      if_neg (by
        simp only [not_or, not_not]
        exact ⟨(load16_eq_zero _ _).mpr h3, (load16_eq_zero _ _).mpr h4⟩),
      if_neg (by omega)]

theorem opcode_query_iff (input : List Byte) :
    ((ntohs (dnshdr.load (input.take 12)).flags >>> 11) &&& 0x0f) % 256 = LDNS_PACKET_QUERY ↔
      opcode_of input = 0 := by
  unfold opcode_of dnshdr.load LDNS_PACKET_QUERY
  simp only [u16_at_take _ 2 (by omega), ntohs_load16_getD]
  have : (be16 input 2 >>> 11) &&& 0x0f < 2 ^ 4 := Nat.and_lt_two_pow _ (by norm_num)
  rw [Nat.mod_eq_of_lt (by omega)]

/-- The first half of `execute` on a packet of at least 12 bytes. -/
theorem execute_parse_eq (zone : Zone) (input : List Byte) (hlen : 12 ≤ input.length) :
    execute_parse zone (Context.fresh ⟨input, 0⟩) =
      if valid_header (dnshdr.load (input.take 12)) = false then
        .ok (dnshdr.load (input.take 12),
          { after_header input with rcode := LDNS_RCODE_FORMERR }, AnswerPtr.empty)
      else if opcode_of input ≠ 0 then
        .ok (dnshdr.load (input.take 12),
          { after_header input with rcode := LDNS_RCODE_NOTIMPL }, AnswerPtr.empty)
      else
        match parse_packet (after_header input) with
        | .error e => .error e
        | .ok c2 =>
          if c2.rcode = LDNS_RCODE_NOERROR then
            .ok (dnshdr.load (input.take 12), (perform_lookup zone c2).1,
              (perform_lookup zone c2).2)
          else .ok (dnshdr.load (input.take 12), c2, AnswerPtr.empty) := by
  unfold execute_parse
  rw [read_dnshdr_ok _ (by simpa [Context.fresh] using hlen)]
  simp only [bind, Except.bind, pure, Except.pure, Context.fresh, List.drop_zero,
    Nat.zero_add, after_header]
  split
  · rfl
  · by_cases hop : opcode_of input = 0
    · rw [if_neg (not_not.mpr ((opcode_query_iff input).mpr hop)), if_neg (not_not.mpr hop)]
      generalize parse_packet _ = pp
      cases pp <;> rfl
    · rw [if_pos (fun hc => hop ((opcode_query_iff input).mp hc)), if_pos hop]

theorem response_flags_rcode (input : List Byte) (rcode : Nat) (ans : AnswerPtr) :
    response_flags (dnshdr.load (input.take 12)) rcode ans &&& 0x0f = rcode &&& 0x0f := by
  apply Nat.eq_of_testBit_eq
  intro i
  rw [Nat.testBit_and, Nat.testBit_and, response_flags_testBit, testBit_0x0f]
  by_cases hi : i < 4
  · have h1 : ¬ (i = 4 ∨ i = 8) := by omega
    have h2 : ¬ i = 15 := by omega
    have h3 : ¬ i = 10 := by omega
    simp [hi, h1, h2, h3]
  · simp [hi]

theorem response_flags_opcode (input : List Byte) (rcode : Nat) (ans : AnswerPtr) :
    (response_flags (dnshdr.load (input.take 12)) rcode ans >>> 11) &&& 0x0f = 0 := by
  apply Nat.eq_of_testBit_eq
  intro i
  rw [Nat.testBit_and, Nat.testBit_shiftRight, response_flags_testBit, testBit_0x0f]
  by_cases hi : i < 4
  · have h1 : ¬ (11 + i = 4 ∨ 11 + i = 8) := by omega
    have h2 : ¬ 11 + i = 15 := by omega
    have h3 : ¬ 11 + i = 10 := by omega
    have h4 : ¬ 11 + i < 4 := by omega
    simp [h1, h2, h3, h4]
  · simp [hi]

/-! ## Responses on the paths that skip the parse -/

theorem run_of_parse (zone : Zone) (input : List Byte) (rx : dnshdr) (ctx : Context)
    (ans : AnswerPtr) (hl : legal_header ⟨input, 0⟩ = true)
    (hp : execute_parse zone (Context.fresh ⟨input, 0⟩) = .ok (rx, ctx, ans))
    (hq : 12 + ctx.qdsize ≤ head_size) :
    run zone input = .ok (response_record rx ctx ans) := by
  have hlen : 12 ≤ input.length := by
    have := legal_header_length _ hl
    simp only at this
    omega
  have hinv := execute_parse_inv zone input rx ctx ans hlen hp
  rw [run_legal zone input hl, hp]
  simp only
  rw [execute_respond_eq rx ctx ans hinv.2.1 hinv.2.2.1 hq]
  rfl

theorem first_segment_record (rx : dnshdr) (ctx : Context) (ans : AnswerPtr) :
    first_segment (response_record rx ctx ans) =
      (response_header rx ctx ans).store ++ (ctx.inb.base.drop ctx.qdstart).take ctx.qdsize :=
  rfl

theorem gate_length (input : List Byte) (h : gate_ok input) : 12 ≤ input.length := by
  have := h.1
  omega

/-- An invalid header: FORMERR, nothing parsed, the empty answer. -/
theorem run_invalid_header (zone : Zone) (input : List Byte) (hgate : gate_ok input)
    (hbad : ¬ header_counts_ok input) :
    run zone input = .ok (response_record (dnshdr.load (input.take 12))
      { after_header input with rcode := LDNS_RCODE_FORMERR } AnswerPtr.empty) := by
  have hv : valid_header (dnshdr.load (input.take 12)) = false := by
    cases hc : valid_header (dnshdr.load (input.take 12)) with
    | false => rfl
    | true => exact absurd ((valid_header_iff input).mp hc) hbad
  apply run_of_parse zone input _ _ _ (legal_header_of_gate input hgate)
  · rw [execute_parse_eq zone input (gate_length input hgate), if_pos hv]
  · simp [after_header, Context.fresh, head_size]

/-- A valid header with an opcode other than QUERY: NOTIMPL, nothing parsed,
the empty answer. -/
theorem run_not_query (zone : Zone) (input : List Byte) (hgate : gate_ok input)
    (hok : header_counts_ok input) (hop : opcode_of input ≠ 0) :
    run zone input = .ok (response_record (dnshdr.load (input.take 12))
      { after_header input with rcode := LDNS_RCODE_NOTIMPL } AnswerPtr.empty) := by
  have hv : valid_header (dnshdr.load (input.take 12)) = true := (valid_header_iff input).mpr hok
  apply run_of_parse zone input _ _ _ (legal_header_of_gate input hgate)
  · rw [execute_parse_eq zone input (gate_length input hgate), if_neg (by simp [hv]), if_pos hop]
  · simp [after_header, Context.fresh, head_size]

/-- C7: a packet that passes the gate with a header that fails the
valid-header check still gets a response: rcode FORMERR, qdcount 0 and a first
segment of exactly 12 bytes, the empty answer, no OPT RR, and the context shows
no question, EDNS or lookup processing (the same for every zone). Conversely a
header with RCODE nibble 0, QDCOUNT 1, ANCOUNT 0, NSCOUNT 0 and ARCOUNT at most
1 passes the check. -/
theorem c7_invalid_header (zone : Zone) (input : List Byte) (hgate : gate_ok input) :
    (¬ header_counts_ok input →
      ∃ r, run zone input = .ok r ∧ r.ret = true ∧
        r.ctx.rcode = LDNS_RCODE_FORMERR ∧ be16 (first_segment r) 2 &&& 0x0f = 1 ∧
        be16 (first_segment r) 4 = 0 ∧ (first_segment r).length = 12 ∧
        r.answer = AnswerPtr.empty ∧ r.out = [first_segment r, []] ∧
        r.ctx.has_edns = false ∧ r.ctx.qdsize = 0 ∧ r.ctx.inb.position = 12 ∧
        r.ctx.qname = [] ∧ r.ctx.matched = false ∧
        (∀ zone1, run zone1 input = run zone input)) ∧
    (header_counts_ok input → valid_header (dnshdr.load (input.take 12)) = true) := by
  refine ⟨fun hbad => ?_, fun hok => (valid_header_iff input).mpr hok⟩
  have hrun := run_invalid_header zone input hgate hbad
  refine ⟨_, hrun, rfl, rfl, ?_, ?_, ?_, rfl, rfl, rfl, rfl, rfl, rfl, rfl, ?_⟩
  · rw [(first_segment_wire zone input _ hrun rfl).2.2.2.1, response_flags_rcode]
    exact (by decide : LDNS_RCODE_FORMERR &&& 0x0f = 1)
  · rw [(first_segment_wire zone input _ hrun rfl).2.2.2.2.1]
    rfl
  · rw [(first_segment_wire zone input _ hrun rfl).2.2.2.2.2.2.2.2.2.1]
    rfl
  · intro zone1
    rw [hrun, run_invalid_header zone1 input hgate hbad]

/-- C7 at a root query with QDCOUNT 2: the response is the bare 12-byte
header with rcode FORMERR. -/
theorem c7_invalid_header_witness :
    gate_ok qd2_input ∧ ¬ header_counts_ok qd2_input ∧
    (result_of demo_zone qd2_input).out = [[0, 9, 129, 1, 0, 0, 0, 0, 0, 0, 0, 0], []] ∧
    ∃ r, run demo_zone qd2_input = .ok r ∧ r.ret = true ∧
        r.ctx.rcode = LDNS_RCODE_FORMERR ∧ be16 (first_segment r) 2 &&& 0x0f = 1 ∧
        be16 (first_segment r) 4 = 0 ∧ (first_segment r).length = 12 ∧
        r.answer = AnswerPtr.empty ∧ r.out = [first_segment r, []] ∧
        r.ctx.has_edns = false ∧ r.ctx.qdsize = 0 ∧ r.ctx.inb.position = 12 ∧
        r.ctx.qname = [] ∧ r.ctx.matched = false ∧
        (∀ zone1, run zone1 qd2_input = run demo_zone qd2_input) :=
  ⟨by decide, by decide, rfl, (c7_invalid_header demo_zone qd2_input (by decide)).1 (by decide)⟩

/-- C8 (as stated) fails on scenario S5: the header is legal and valid, the
opcode is not QUERY, and the response has rcode NOTIMPL but qdcount 0, not 1. -/
theorem c8_counterexample :
    gate_ok s5_input ∧ header_counts_ok s5_input ∧ opcode_of s5_input ≠ 0 ∧
    run demo_zone s5_input = .ok (result_of demo_zone s5_input) ∧
    (result_of demo_zone s5_input).ret = true ∧
    (result_of demo_zone s5_input).ctx.rcode = LDNS_RCODE_NOTIMPL ∧
    be16 (first_segment (result_of demo_zone s5_input)) 4 = 0 ∧
    ¬ be16 (first_segment (result_of demo_zone s5_input)) 4 = 1 :=
  ⟨by decide, by decide, by decide, rfl, rfl, rfl, rfl, by decide⟩

/-- C8 (amended): a packet with a legal and valid header whose opcode nibble is
not QUERY gets rcode NOTIMPL and qdcount 0: the question is not parsed and not
echoed, the first segment is exactly 12 bytes, the answer is the empty one. -/
theorem c8_not_query (zone : Zone) (input : List Byte) (hgate : gate_ok input)
    (hok : header_counts_ok input) (hop : opcode_of input ≠ 0) :
    ∃ r, run zone input = .ok r ∧ r.ret = true ∧
      r.ctx.rcode = LDNS_RCODE_NOTIMPL ∧ be16 (first_segment r) 2 &&& 0x0f = 4 ∧
      be16 (first_segment r) 4 = 0 ∧ r.ctx.qdsize = 0 ∧ (first_segment r).length = 12 ∧
      r.answer = AnswerPtr.empty ∧ r.out = [first_segment r, []] := by
  have hrun := run_not_query zone input hgate hok hop
  refine ⟨_, hrun, rfl, rfl, ?_, ?_, rfl, ?_, rfl, rfl⟩
  · rw [(first_segment_wire zone input _ hrun rfl).2.2.2.1, response_flags_rcode]
    exact (by decide : LDNS_RCODE_NOTIMPL &&& 0x0f = 4)
  · rw [(first_segment_wire zone input _ hrun rfl).2.2.2.2.1]
    rfl
  · rw [(first_segment_wire zone input _ hrun rfl).2.2.2.2.2.2.2.2.2.1]
    rfl

/-- C8 (amended) at scenario S5. -/
theorem c8_not_query_witness :
    gate_ok s5_input ∧ header_counts_ok s5_input ∧ opcode_of s5_input ≠ 0 ∧
    (result_of demo_zone s5_input).out = [[0, 5, 128, 4, 0, 0, 0, 0, 0, 0, 0, 0], []] ∧
    ∃ r, run demo_zone s5_input = .ok r ∧ r.ret = true ∧
      r.ctx.rcode = LDNS_RCODE_NOTIMPL ∧ be16 (first_segment r) 2 &&& 0x0f = 4 ∧
      be16 (first_segment r) 4 = 0 ∧ r.ctx.qdsize = 0 ∧ (first_segment r).length = 12 ∧
      r.answer = AnswerPtr.empty ∧ r.out = [first_segment r, []] :=
  ⟨by decide, by decide, by decide, rfl,
    c8_not_query demo_zone s5_input (by decide) (by decide) (by decide)⟩

/-- C9 (as stated) fails on scenario S5: the request opcode nibble is 1 and
the response opcode nibble is 0. -/
theorem c9_counterexample :
    run demo_zone s5_input = .ok (result_of demo_zone s5_input) ∧
    (result_of demo_zone s5_input).ret = true ∧
    opcode_of s5_input = 1 ∧
    opcode_of (first_segment (result_of demo_zone s5_input)) = 0 ∧
    opcode_of (first_segment (result_of demo_zone s5_input)) ≠ opcode_of s5_input :=
  ⟨rfl, rfl, by decide, by decide, by decide⟩

/-- C9 (amended): the opcode bits (flags bits 11..14) of every response header
are 0, since only RD and CD are copied from the request flags; they equal the
request's opcode bits exactly when the request opcode is QUERY (0). -/
theorem c9_response_opcode (zone : Zone) (input : List Byte) (r : Returned)
    (h : run zone input = .ok r) (hret : r.ret = true) :
    opcode_of (first_segment r) = 0 ∧
    (opcode_of (first_segment r) = opcode_of input ↔ opcode_of input = 0) := by
  have h0 : opcode_of (first_segment r) = 0 := by
    unfold opcode_of
    rw [(first_segment_wire zone input r h hret).2.2.2.1, response_flags_opcode]
  refine ⟨h0, ?_⟩
  rw [h0]
  exact ⟨fun hc => hc.symm, fun hc => hc.symm⟩

/-- C9 (amended) at scenario S5. -/
theorem c9_response_opcode_witness :
    run demo_zone s5_input = .ok (result_of demo_zone s5_input) ∧
    (result_of demo_zone s5_input).ret = true ∧
    opcode_of (first_segment (result_of demo_zone s5_input)) = 0 ∧
    (opcode_of (first_segment (result_of demo_zone s5_input)) = opcode_of s5_input ↔
      opcode_of s5_input = 0) :=
  ⟨rfl, rfl, c9_response_opcode demo_zone s5_input _ rfl rfl⟩

/-- C6: `Context::type()` follows the classifier table for every qlabels,
qtype and match, and `perform_lookup` sets rcode to NXDOMAIN exactly when the
zone reports no match and to NOERROR otherwise, and asks the answer set for
exactly that category with the parsed `do_bit`. -/
theorem c6_classifier (zone : Zone) (ctx : Context) :
    ctx.type = classifier_table ctx.qlabels ctx.qtype ctx.matched ∧
    (perform_lookup zone ctx).1.matched = (zone.lookup ctx.qname).2 ∧
    ((perform_lookup zone ctx).1.rcode = LDNS_RCODE_NXDOMAIN ↔
      (zone.lookup ctx.qname).2 = false) ∧
    ((perform_lookup zone ctx).1.rcode = LDNS_RCODE_NOERROR ↔
      (zone.lookup ctx.qname).2 = true) ∧
    (perform_lookup zone ctx).2 =
      (zone.lookup ctx.qname).1.answer
        (classifier_table ctx.qlabels ctx.qtype (zone.lookup ctx.qname).2) ctx.do_bit ∧
    (perform_lookup zone ctx).1.do_bit = ctx.do_bit := by
  have htype : ∀ c : Context, c.type = classifier_table c.qlabels c.qtype c.matched := by
    intro c
    unfold Context.type classifier_table
    simp only [LDNS_RR_TYPE_DS, LDNS_RR_TYPE_SOA, LDNS_RR_TYPE_NS, LDNS_RR_TYPE_NSEC,
      LDNS_RR_TYPE_DNSKEY, LDNS_RR_TYPE_ANY]
    by_cases hm : c.matched = false
    · rw [if_pos hm, if_pos hm]
    · rw [if_neg hm, if_neg hm]
      by_cases h2 : c.qlabels > 1
      · rw [if_pos h2, if_pos (show 2 ≤ c.qlabels by omega)]
      · rw [if_neg h2, if_neg (show ¬ 2 ≤ c.qlabels by omega)]
        by_cases h1 : c.qlabels = 1
        · rw [if_pos h1]
          by_cases hds : c.qtype = 43
          · rw [if_pos hds, if_neg (show ¬ (c.qlabels = 1 ∧ c.qtype ≠ 43) from fun hc => hc.2 hds),
              if_pos (show c.qlabels = 1 ∧ c.qtype = 43 from ⟨h1, hds⟩)]
          · rw [if_neg hds, if_pos (show c.qlabels = 1 ∧ c.qtype ≠ 43 from ⟨h1, hds⟩)]
        · rw [if_neg h1, if_neg (show ¬ (c.qlabels = 1 ∧ c.qtype ≠ 43) from fun hc => h1 hc.1),
            if_neg (show ¬ (c.qlabels = 1 ∧ c.qtype = 43) from fun hc => h1 hc.1)]
  refine ⟨htype ctx, rfl, ?_, ?_, ?_, rfl⟩
  · unfold perform_lookup
    simp only [LDNS_RCODE_NXDOMAIN, LDNS_RCODE_NOERROR]
    cases (zone.lookup ctx.qname).2 <;> simp
  · unfold perform_lookup
    simp only [LDNS_RCODE_NXDOMAIN, LDNS_RCODE_NOERROR]
    cases (zone.lookup ctx.qname).2 <;> simp
  · unfold perform_lookup
    simp only [htype]

/-! ## Well-formed questions -/

theorem parse_question_after_header (input : List Byte) (ls : List (List Byte))
    (a b c d : Byte) (rest : List Byte)
    (hq : input.drop 12 = wire_name ls ++ 0 :: a :: b :: c :: d :: rest)
    (hwf : ∀ l ∈ ls, 1 ≤ l.length ∧ l.length ≤ 63) (hlen : (wire_name ls).length ≤ 255) :
    parse_question (after_header input) = .ok (question_ctx input ls a b
      (if question_rejected a b c d then LDNS_RCODE_NOTIMPL else LDNS_RCODE_NOERROR)) := by
  rw [parse_question_wire (after_header input) ls a b c d rest hq hwf hlen]
  unfold question_ctx question_rejected
  by_cases hr : (128 ≤ a.val * 256 + b.val ∧ a.val * 256 + b.val < 255) ∨
      c.val * 256 + d.val ≠ 1
  · rw [if_pos hr, if_pos hr]
    rfl
  · rw [if_neg hr, if_neg hr]
    rfl

theorem parse_packet_after_header (input : List Byte) (ls : List (List Byte))
    (a b c d : Byte) (rest : List Byte)
    (hq : input.drop 12 = wire_name ls ++ 0 :: a :: b :: c :: d :: rest)
    (hwf : ∀ l ∈ ls, 1 ≤ l.length ∧ l.length ≤ 63) (hlen : (wire_name ls).length ≤ 255) :
    (question_rejected a b c d →
      parse_packet (after_header input) =
        .ok (question_ctx input ls a b LDNS_RCODE_NOTIMPL)) ∧
    (¬ question_rejected a b c d →
      ∃ c2, parse_edns (question_ctx input ls a b LDNS_RCODE_NOERROR) = .ok c2 ∧
        parse_packet (after_header input) = .ok (trailing_rule c2)) := by
  have hpq := parse_question_after_header input ls a b c d rest hq hwf hlen
  have hpq1 : parse_question { after_header input with rcode := LDNS_RCODE_NOERROR } =
      .ok (question_ctx input ls a b
        (if question_rejected a b c d then LDNS_RCODE_NOTIMPL else LDNS_RCODE_NOERROR)) := hpq
  constructor
  · intro hr
    rw [if_pos hr] at hpq1
    unfold parse_packet
    simp only [bind, Except.bind, pure, Except.pure]
    rw [hpq1]
    simp only
    rw [if_pos (show (question_ctx input ls a b LDNS_RCODE_NOTIMPL).rcode ≠ LDNS_RCODE_NOERROR
      from (by show LDNS_RCODE_NOTIMPL ≠ LDNS_RCODE_NOERROR; decide))]
  · intro hr
    rw [if_neg hr] at hpq1
    obtain ⟨c2, hc2⟩ := parse_edns_total (question_ctx input ls a b LDNS_RCODE_NOERROR)
    refine ⟨c2, hc2, ?_⟩
    unfold parse_packet
    simp only [bind, Except.bind, pure, Except.pure]
    rw [hpq1]
    simp only
    rw [if_neg (show ¬ (question_ctx input ls a b LDNS_RCODE_NOERROR).rcode ≠ LDNS_RCODE_NOERROR
      from not_not.mpr rfl), hc2]
    simp only
    unfold trailing_rule
    split
    · rfl
    · split <;> rfl

theorem trailing_rule_frame (c2 : Context) :
    (trailing_rule c2).qdsize = c2.qdsize ∧ (trailing_rule c2).has_edns = c2.has_edns ∧
    (trailing_rule c2).do_bit = c2.do_bit ∧ (trailing_rule c2).qdstart = c2.qdstart ∧
    (trailing_rule c2).inb = c2.inb ∧
    ((trailing_rule c2).rcode = c2.rcode ∨ (trailing_rule c2).rcode = LDNS_RCODE_FORMERR) := by
  unfold trailing_rule
  split
  · simp
  · split <;> simp

theorem parse_edns_rcode (ctx c2 : Context) (h : parse_edns ctx = .ok c2) :
    c2.rcode = ctx.rcode ∨ c2.rcode = LDNS_RCODE_FORMERR ∨ c2.rcode = 16 := by
  rcases parse_edns_cases ctx with ⟨_, h1⟩ | ⟨_, _, h1⟩ | ⟨_, h1⟩
  · rw [h1] at h; cases h; exact Or.inl rfl
  · rw [h1] at h; cases h; exact Or.inr (Or.inl rfl)
  · rw [h1] at h; cases h
    unfold edns_result
    simp only
    split
    · exact Or.inr (Or.inl rfl)
    · split
      · exact Or.inr (Or.inl rfl)
      · split
        · exact Or.inr (Or.inl rfl)
        · simp only
          split
          · exact Or.inr (Or.inr rfl)
          · exact Or.inl rfl

theorem valid_of_counts (input : List Byte) (hok : header_counts_ok input) :
    ¬ valid_header (dnshdr.load (input.take 12)) = false := by
  rw [(valid_header_iff input).mpr hok]
  decide

/-- A well-formed question that `parse_question` rejects: NOTIMPL, the question
echoed, the empty answer, no EDNS parse. -/
theorem run_rejected (zone : Zone) (input : List Byte) (ls : List (List Byte))
    (a b c d : Byte) (rest : List Byte) (hgate : gate_ok input)
    (hok : header_counts_ok input) (hop : opcode_of input = 0)
    (hq : input.drop 12 = wire_name ls ++ 0 :: a :: b :: c :: d :: rest)
    (hwf : ∀ l ∈ ls, 1 ≤ l.length ∧ l.length ≤ 63) (hlen : (wire_name ls).length ≤ 255)
    (hrej : question_rejected a b c d) :
    run zone input = .ok (response_record (dnshdr.load (input.take 12))
      (question_ctx input ls a b LDNS_RCODE_NOTIMPL) AnswerPtr.empty) := by
  apply run_of_parse zone input _ _ _ (legal_header_of_gate input hgate)
  · rw [execute_parse_eq zone input (gate_length input hgate),
      if_neg (valid_of_counts input hok), if_neg (not_not.mpr hop),
      (parse_packet_after_header input ls a b c d rest hq hwf hlen).1 hrej]
    simp only
    rw [if_neg (show ¬ (question_ctx input ls a b LDNS_RCODE_NOTIMPL).rcode = LDNS_RCODE_NOERROR
      from (by show ¬ LDNS_RCODE_NOTIMPL = LDNS_RCODE_NOERROR; decide))]
  · show 12 + ((wire_name ls).length + 5) ≤ head_size
    unfold head_size
    omega

/-- A well-formed question that `parse_question` accepts: the EDNS parse and
the trailing-garbage rule run, and the zone is consulted only if the rcode is
still NOERROR. -/
theorem run_accepted (zone : Zone) (input : List Byte) (ls : List (List Byte))
    (a b c d : Byte) (rest : List Byte) (hgate : gate_ok input)
    (hok : header_counts_ok input) (hop : opcode_of input = 0)
    (hq : input.drop 12 = wire_name ls ++ 0 :: a :: b :: c :: d :: rest)
    (hwf : ∀ l ∈ ls, 1 ≤ l.length ∧ l.length ≤ 63) (hlen : (wire_name ls).length ≤ 255)
    (hacc : ¬ question_rejected a b c d) :
    ∃ c2, parse_edns (question_ctx input ls a b LDNS_RCODE_NOERROR) = .ok c2 ∧
      run zone input = .ok
        (if (trailing_rule c2).rcode = LDNS_RCODE_NOERROR then
          response_record (dnshdr.load (input.take 12))
            (perform_lookup zone (trailing_rule c2)).1 (perform_lookup zone (trailing_rule c2)).2
         else
          response_record (dnshdr.load (input.take 12)) (trailing_rule c2) AnswerPtr.empty) := by
  obtain ⟨c2, hc2, hpp⟩ := (parse_packet_after_header input ls a b c d rest hq hwf hlen).2 hacc
  refine ⟨c2, hc2, ?_⟩
  have hqd : (trailing_rule c2).qdsize = (wire_name ls).length + 5 := by
    rw [(trailing_rule_frame c2).1, (parse_edns_inv _ _ hc2).2.2.2.1]
    rfl
  have hep := execute_parse_eq zone input (gate_length input hgate)
  rw [if_neg (valid_of_counts input hok), if_neg (not_not.mpr hop), hpp] at hep
  simp only at hep
  by_cases hrc : (trailing_rule c2).rcode = LDNS_RCODE_NOERROR
  · rw [if_pos hrc] at hep
    rw [if_pos hrc]
    apply run_of_parse zone input _ _ _ (legal_header_of_gate input hgate) hep
    show 12 + (trailing_rule c2).qdsize ≤ head_size
    rw [hqd]
    unfold head_size
    omega
  · rw [if_neg hrc] at hep
    rw [if_neg hrc]
    apply run_of_parse zone input _ _ _ (legal_header_of_gate input hgate) hep
    rw [hqd]
    unfold head_size
    omega

theorem take_question (input : List Byte) (ls : List (List Byte)) (a b c d : Byte)
    (rest : List Byte)
    (hq : input.drop 12 = wire_name ls ++ 0 :: a :: b :: c :: d :: rest) :
    (input.drop 12).take ((wire_name ls).length + 5) = wire_name ls ++ [0, a, b, c, d] := by
  rw [hq, List.take_append]
  rfl

/-- C10: with a legal and valid header, opcode QUERY and a well-formed
question name followed by at least 4 bytes, a qtype in the meta range
[128, 255) or a class other than IN gives rcode NOTIMPL, the empty answer
without any zone lookup, and the question echoed with qdcount 1; qtype 255 and
qtypes below 128 with class IN pass this check (`parse_question` leaves
NOERROR, and the response rcode is not NOTIMPL). -/
theorem c10_question_rejects (zone : Zone) (input : List Byte) (ls : List (List Byte))
    (a b c d : Byte) (rest : List Byte) (hgate : gate_ok input)
    (hok : header_counts_ok input) (hop : opcode_of input = 0)
    (hq : input.drop 12 = wire_name ls ++ 0 :: a :: b :: c :: d :: rest)
    (hwf : ∀ l ∈ ls, 1 ≤ l.length ∧ l.length ≤ 63) (hlen : (wire_name ls).length ≤ 255) :
    (((128 ≤ a.val * 256 + b.val ∧ a.val * 256 + b.val < 255) ∨ c.val * 256 + d.val ≠ 1) →
      ∃ r, run zone input = .ok r ∧ r.ret = true ∧
        r.ctx.rcode = LDNS_RCODE_NOTIMPL ∧ be16 (first_segment r) 2 &&& 0x0f = 4 ∧
        r.answer = AnswerPtr.empty ∧ r.out = [first_segment r, []] ∧
        be16 (first_segment r) 4 = 1 ∧
        (first_segment r).drop 12 = wire_name ls ++ [0, a, b, c, d] ∧
        r.ctx.has_edns = false ∧ r.ctx.matched = false ∧
        (∀ zone1, run zone1 input = run zone input)) ∧
    (((a.val * 256 + b.val < 128 ∨ a.val * 256 + b.val = 255) ∧ c.val * 256 + d.val = 1) →
      (∃ c1, parse_question (after_header input) = .ok c1 ∧
        c1.rcode = LDNS_RCODE_NOERROR ∧ c1.qtype = a.val * 256 + b.val) ∧
      ∃ r, run zone input = .ok r ∧ r.ret = true ∧ r.ctx.rcode ≠ LDNS_RCODE_NOTIMPL ∧
        be16 (first_segment r) 4 = 1) := by
  constructor
  · intro hrej
    have hrun := run_rejected zone input ls a b c d rest hgate hok hop hq hwf hlen hrej
    have hw := first_segment_wire zone input _ hrun rfl
    refine ⟨_, hrun, rfl, rfl, ?_, rfl, rfl, ?_, ?_, rfl, rfl, ?_⟩
    · rw [hw.2.2.2.1, response_flags_rcode]
      exact (by decide : LDNS_RCODE_NOTIMPL &&& 0x0f = 4)
    · rw [hw.2.2.2.2.1]
      exact if_pos (by show (wire_name ls).length + 5 ≠ 0; omega)
    · rw [hw.2.2.2.2.2.2.2.2.2.2]
      exact take_question input ls a b c d rest hq
    · intro zone1
      rw [hrun, run_rejected zone1 input ls a b c d rest hgate hok hop hq hwf hlen hrej]
  · intro hacc
    have hnr : ¬ question_rejected a b c d := by
      unfold question_rejected
      omega
    constructor
    · refine ⟨_, parse_question_after_header input ls a b c d rest hq hwf hlen, ?_, rfl⟩
      rw [if_neg hnr]
      rfl
    · obtain ⟨c2, hc2, hrun⟩ := run_accepted zone input ls a b c d rest hgate hok hop hq hwf hlen hnr
      have hqd : (trailing_rule c2).qdsize = (wire_name ls).length + 5 := by
        rw [(trailing_rule_frame c2).1, (parse_edns_inv _ _ hc2).2.2.2.1]
        rfl
      have hrc2 := parse_edns_rcode _ _ hc2
      have hrc3 := (trailing_rule_frame c2).2.2.2.2.2
      by_cases hrc : (trailing_rule c2).rcode = LDNS_RCODE_NOERROR
      · rw [if_pos hrc] at hrun
        have hw := first_segment_wire zone input _ hrun rfl
        refine ⟨_, hrun, rfl, ?_, ?_⟩
        · show (if (zone.lookup (trailing_rule c2).qname).2 then LDNS_RCODE_NOERROR
            else LDNS_RCODE_NXDOMAIN) ≠ LDNS_RCODE_NOTIMPL
          split <;> decide
        · rw [hw.2.2.2.2.1]
          exact if_pos (by show (trailing_rule c2).qdsize ≠ 0; omega)
      · rw [if_neg hrc] at hrun
        have hw := first_segment_wire zone input _ hrun rfl
        refine ⟨_, hrun, rfl, ?_, ?_⟩
        · show (trailing_rule c2).rcode ≠ LDNS_RCODE_NOTIMPL
          have e0 : (question_ctx input ls a b LDNS_RCODE_NOERROR).rcode = 0 := rfl
          rw [e0] at hrc2
          unfold LDNS_RCODE_FORMERR at hrc2 hrc3
          unfold LDNS_RCODE_NOTIMPL
          omega
        · rw [hw.2.2.2.2.1]
          exact if_pos (by show (trailing_rule c2).qdsize ≠ 0; omega)

/-- C10 at a `com A CH` query: NOTIMPL with the question echoed. -/
theorem c10_question_rejects_witness :
    gate_ok ch_input ∧ header_counts_ok ch_input ∧ opcode_of ch_input = 0 ∧
    ch_input.drop 12 = wire_name [[99, 111, 109]] ++ 0 :: 0 :: 1 :: 0 :: 3 :: [] ∧
    (result_of demo_zone ch_input).out =
      [[0, 7, 129, 4, 0, 1, 0, 0, 0, 0, 0, 0, 3, 99, 111, 109, 0, 0, 1, 0, 3], []] ∧
    ∃ r, run demo_zone ch_input = .ok r ∧ r.ret = true ∧
        r.ctx.rcode = LDNS_RCODE_NOTIMPL ∧ be16 (first_segment r) 2 &&& 0x0f = 4 ∧
        r.answer = AnswerPtr.empty ∧ r.out = [first_segment r, []] ∧
        be16 (first_segment r) 4 = 1 ∧
        (first_segment r).drop 12 = wire_name [[99, 111, 109]] ++ [0, 0, 1, 0, 3] ∧
        r.ctx.has_edns = false ∧ r.ctx.matched = false ∧
        (∀ zone1, run zone1 ch_input = run demo_zone ch_input) :=
  ⟨by decide, by decide, by decide, rfl, rfl,
    (c10_question_rejects demo_zone ch_input [[99, 111, 109]] 0 1 0 3 [] (by decide) (by decide)
      (by decide) rfl (by decide) (by decide)).1 (by decide)⟩

/-! ## EDNS after a well-formed question -/

theorem input_getD_rest (input : List Byte) (ls : List (List Byte)) (a b c d : Byte)
    (rest : List Byte)
    (hq : input.drop 12 = wire_name ls ++ 0 :: a :: b :: c :: d :: rest) (k : Nat) :
    input.getD (12 + (wire_name ls).length + 5 + k) 0 = rest.getD k 0 := by
  have h1 : input.getD (12 + (wire_name ls).length + 5 + k) 0 =
      (input.drop 12).getD ((wire_name ls).length + 5 + k) 0 := by
    rw [getD_drop]
    congr 1
    omega
  have h2 : wire_name ls ++ 0 :: a :: b :: c :: d :: rest =
      (wire_name ls ++ [0, a, b, c, d]) ++ rest := by simp
  rw [h1, hq, h2, List.getD_append_right _ _ _ _ (by simp)]
  congr 1
  simp

theorem input_length_rest (input : List Byte) (ls : List (List Byte)) (a b c d : Byte)
    (rest : List Byte)
    (hq : input.drop 12 = wire_name ls ++ 0 :: a :: b :: c :: d :: rest) :
    input.length - (12 + (wire_name ls).length + 5) = rest.length := by
  have := congrArg List.length hq
  simp at this
  omega

theorem response_opt_store (ctx : Context) :
    (response_opt ctx).store =
      [0, 0, 41, 5, 200, Fin.ofNat ((ctx.rcode >>> 4) % 256), 0,
        if ctx.do_bit then 128 else 0, 0, 0, 0] := by
  unfold response_opt edns_opt_rr.store store16
  cases ctx.do_bit
  · simp only [List.cons_append, List.nil_append, List.cons.injEq, and_true]
    exact ⟨by decide, by decide, by decide, by decide, by decide, trivial, by decide,
      by decide, by decide, by decide, by decide⟩
  · simp only [List.cons_append, List.nil_append, List.cons.injEq, and_true]
    exact ⟨by decide, by decide, by decide, by decide, by decide, trivial, by decide,
      by decide, by decide, by decide, by decide⟩

theorem be16_input_rest (input : List Byte) (ls : List (List Byte)) (a b c d : Byte)
    (rest : List Byte)
    (hq : input.drop 12 = wire_name ls ++ 0 :: a :: b :: c :: d :: rest) (k : Nat) :
    be16 input (12 + (wire_name ls).length + 5 + k) = be16 rest k := by
  unfold be16
  rw [Nat.add_assoc _ k 1, input_getD_rest input ls a b c d rest hq k,
    input_getD_rest input ls a b c d rest hq (k + 1)]

/-- The EDNS parse on a valid OPT RR that follows a well-formed question. -/
theorem parse_edns_valid_opt (input : List Byte) (ls : List (List Byte))
    (a b c d s0 s1 e v f0 f1 r0 r1 : Byte) (more : List Byte)
    (hq : input.drop 12 = wire_name ls ++ 0 :: a :: b :: c :: d ::
      0 :: 0 :: 41 :: s0 :: s1 :: e :: v :: f0 :: f1 :: r0 :: r1 :: more)
    (hrd : r0.val * 256 + r1.val ≤ more.length) :
    parse_edns (question_ctx input ls a b LDNS_RCODE_NOERROR) = .ok
      { question_ctx input ls a b LDNS_RCODE_NOERROR with
        inb := ⟨input, 12 + (wire_name ls).length + 5 + 11 + (r0.val * 256 + r1.val)⟩,
        bufsize := s0.val * 256 + s1.val,
        has_edns := true,
        do_bit := decide ((f0.val * 256 + f1.val) &&& 0x8000 ≠ 0),
        rcode := if v.val > 0 then 16 else LDNS_RCODE_NOERROR } := by
  have hlenr := input_length_rest input ls a b c d _ hq
  simp only [List.length_cons] at hlenr
  have hav : 11 ≤ (question_ctx input ls a b LDNS_RCODE_NOERROR).inb.available := by
    show 11 ≤ input.length - (12 + (wire_name ls).length + 5)
    omega
  have g0 : (input.getD (12 + (wire_name ls).length + 5) 0).val = 0 := by
    rw [← Nat.add_zero (12 + (wire_name ls).length + 5), input_getD_rest input ls a b c d _ hq 0]
    simp
  have g6 : input.getD (12 + (wire_name ls).length + 5 + 6) 0 = v :=
    (input_getD_rest input ls a b c d _ hq 6).trans (by simp)
  have w1 : be16 input (12 + (wire_name ls).length + 5 + 1) = 41 :=
    (be16_input_rest input ls a b c d _ hq 1).trans (by simp [be16]; rfl)
  have w3 : be16 input (12 + (wire_name ls).length + 5 + 3) = s0.val * 256 + s1.val :=
    (be16_input_rest input ls a b c d _ hq 3).trans (by simp [be16])
  have w7 : be16 input (12 + (wire_name ls).length + 5 + 7) = f0.val * 256 + f1.val :=
    (be16_input_rest input ls a b c d _ hq 7).trans (by simp [be16])
  have w9 : be16 input (12 + (wire_name ls).length + 5 + 9) = r0.val * 256 + r1.val :=
    (be16_input_rest input ls a b c d _ hq 9).trans (by simp [be16])
  rw [parse_edns_eq _ hav]
  unfold edns_result
  simp only [question_ctx, after_header]
  rw [if_neg (not_not.mpr g0), if_neg (not_not.mpr w1), w9, w3,
    if_neg (show ¬ input.length - (12 + (wire_name ls).length + 5 + 11) <
      r0.val * 256 + r1.val by omega)]
  simp only [w7, g6]

theorem parse_edns_opt_ctx (input : List Byte) (ls : List (List Byte))
    (a b c d s0 s1 e v f0 f1 r0 r1 : Byte) (more : List Byte)
    (hq : input.drop 12 = wire_name ls ++ 0 :: a :: b :: c :: d ::
      0 :: 0 :: 41 :: s0 :: s1 :: e :: v :: f0 :: f1 :: r0 :: r1 :: more)
    (hrd : r0.val * 256 + r1.val ≤ more.length) :
    parse_edns (question_ctx input ls a b LDNS_RCODE_NOERROR) = .ok
      (opt_ctx input ls a b (s0.val * 256 + s1.val) (r0.val * 256 + r1.val)
        (decide ((f0.val * 256 + f1.val) &&& 0x8000 ≠ 0))
        (if v.val > 0 then 16 else LDNS_RCODE_NOERROR)) :=
  parse_edns_valid_opt input ls a b c d s0 s1 e v f0 f1 r0 r1 more hq hrd

/-- A valid query followed by an OPT RR with a version above 0: BADVERS, no
trailing-garbage check, no lookup. -/
theorem run_badvers (zone : Zone) (input : List Byte) (ls : List (List Byte))
    (a b c d s0 s1 e v f0 f1 r0 r1 : Byte) (more : List Byte) (hgate : gate_ok input)
    (hok : header_counts_ok input) (hop : opcode_of input = 0)
    (hq : input.drop 12 = wire_name ls ++ 0 :: a :: b :: c :: d ::
      0 :: 0 :: 41 :: s0 :: s1 :: e :: v :: f0 :: f1 :: r0 :: r1 :: more)
    (hwf : ∀ l ∈ ls, 1 ≤ l.length ∧ l.length ≤ 63) (hlen : (wire_name ls).length ≤ 255)
    (hacc : ¬ question_rejected a b c d)
    (hrd : r0.val * 256 + r1.val ≤ more.length) (hv : 0 < v.val) :
    run zone input = .ok (response_record (dnshdr.load (input.take 12))
      (opt_ctx input ls a b (s0.val * 256 + s1.val) (r0.val * 256 + r1.val)
        (decide ((f0.val * 256 + f1.val) &&& 0x8000 ≠ 0)) 16) AnswerPtr.empty) := by
  obtain ⟨c2, hc2, hrun⟩ := run_accepted zone input ls a b c d _ hgate hok hop hq hwf hlen hacc
  have he := parse_edns_opt_ctx input ls a b c d s0 s1 e v f0 f1 r0 r1 more hq hrd
  rw [if_pos hv] at he
  have hc : c2 = opt_ctx input ls a b (s0.val * 256 + s1.val) (r0.val * 256 + r1.val)
      (decide ((f0.val * 256 + f1.val) &&& 0x8000 ≠ 0)) 16 := Except.ok.inj (hc2.symm.trans he)
  subst hc
  have ht : trailing_rule (opt_ctx input ls a b (s0.val * 256 + s1.val) (r0.val * 256 + r1.val)
      (decide ((f0.val * 256 + f1.val) &&& 0x8000 ≠ 0)) 16) =
      opt_ctx input ls a b (s0.val * 256 + s1.val) (r0.val * 256 + r1.val)
        (decide ((f0.val * 256 + f1.val) &&& 0x8000 ≠ 0)) 16 := by
    unfold trailing_rule
    rw [if_pos (by show (16 : Nat) ≠ LDNS_RCODE_NOERROR; decide)]
  rw [ht, if_neg (by show ¬ (16 : Nat) = LDNS_RCODE_NOERROR; decide)] at hrun
  exact hrun

theorem record_out_edns (rx : dnshdr) (ctx : Context) (ans : AnswerPtr)
    (h : ctx.has_edns = true) :
    (response_record rx ctx ans).out =
      [first_segment (response_record rx ctx ans), answer_segment ans ctx.qdsize,
        opt_bytes ctx.rcode ctx.do_bit] := by
  unfold response_record first_segment opt_bytes
  simp only [h, if_true, response_opt_store]
  rfl

theorem record_out_plain (rx : dnshdr) (ctx : Context) (ans : AnswerPtr)
    (h : ctx.has_edns = false) :
    (response_record rx ctx ans).out =
      [first_segment (response_record rx ctx ans), answer_segment ans ctx.qdsize] := by
  unfold response_record first_segment
  simp only [h]
  rfl

theorem opt_bytes_badvers (p : Prop) [Decidable p] :
    opt_bytes 16 (decide p) = [0, 0, 41, 5, 200, 1, 0, if p then 128 else 0, 0, 0, 0] := by
  unfold opt_bytes
  by_cases hp : p
  · simp only [hp, decide_True, if_true]
    decide
  · simp only [hp, decide_False, if_false]
    decide

/-- C5: an otherwise valid query (legal and valid header, opcode QUERY,
well-formed question with a non-meta qtype and class IN) followed by a
well-formed OPT RR whose version byte is above 0 gets a response whose header
rcode nibble is 0, that carries the empty answer without any zone lookup, and
whose OPT RR has ext-rcode 1 and version 0 (and the DO bit of the request). -/
theorem c5_badvers (zone : Zone) (input : List Byte) (ls : List (List Byte))
    (a b c d s0 s1 e v f0 f1 r0 r1 : Byte) (more : List Byte) (hgate : gate_ok input)
    (hok : header_counts_ok input) (hop : opcode_of input = 0)
    (hq : input.drop 12 = wire_name ls ++ 0 :: a :: b :: c :: d ::
      0 :: 0 :: 41 :: s0 :: s1 :: e :: v :: f0 :: f1 :: r0 :: r1 :: more)
    (hwf : ∀ l ∈ ls, 1 ≤ l.length ∧ l.length ≤ 63) (hlen : (wire_name ls).length ≤ 255)
    (hqt : ¬ (128 ≤ a.val * 256 + b.val ∧ a.val * 256 + b.val < 255))
    (hqc : c.val * 256 + d.val = 1)
    (hrd : r0.val * 256 + r1.val ≤ more.length) (hv : 0 < v.val) :
    ∃ r, run zone input = .ok r ∧ r.ret = true ∧
      r.ctx.rcode = 16 ∧ be16 (first_segment r) 2 &&& 0x0f = 0 ∧
      r.answer = AnswerPtr.empty ∧ r.ctx.matched = false ∧
      be16 (first_segment r) 6 = 0 ∧ be16 (first_segment r) 8 = 0 ∧
      be16 (first_segment r) 10 = 1 ∧
      r.out = [first_segment r, [],
        [0, 0, 41, 5, 200, 1, 0,
          if (f0.val * 256 + f1.val) &&& 0x8000 ≠ 0 then 128 else 0, 0, 0, 0]] ∧
      (∀ zone1, run zone1 input = run zone input) := by
  have hacc : ¬ question_rejected a b c d := by
    unfold question_rejected
    omega
  have hrun := run_badvers zone input ls a b c d s0 s1 e v f0 f1 r0 r1 more hgate hok hop hq
    hwf hlen hacc hrd hv
  have hw := first_segment_wire zone input _ hrun rfl
  refine ⟨_, hrun, rfl, rfl, ?_, rfl, rfl, ?_, ?_, ?_, ?_, ?_⟩
  · rw [hw.2.2.2.1, response_flags_rcode]
    exact (by decide : (16 : Nat) &&& 0x0f = 0)
  · rw [hw.2.2.2.2.2.1]
    rfl
  · rw [hw.2.2.2.2.2.2.1]
    rfl
  · rw [hw.2.2.2.2.2.2.2.1]
    rfl
  · rw [record_out_edns _ _ _ rfl]
    show [first_segment _, [], opt_bytes 16 (decide ((f0.val * 256 + f1.val) &&& 0x8000 ≠ 0))] = _
    rw [opt_bytes_badvers]
  · intro zone1
    rw [hrun, run_badvers zone1 input ls a b c d s0 s1 e v f0 f1 r0 r1 more hgate hok hop hq
      hwf hlen hacc hrd hv]

/-- C5 at a root `A IN` query with an OPT RR of version 1 and DO set. -/
theorem c5_badvers_witness :
    gate_ok badvers_input ∧ header_counts_ok badvers_input ∧ opcode_of badvers_input = 0 ∧
    badvers_input.drop 12 = wire_name [] ++ 0 :: 0 :: 1 :: 0 :: 1 ::
      0 :: 0 :: 41 :: 16 :: 0 :: 0 :: 1 :: 128 :: 0 :: 0 :: 0 :: [] ∧
    (result_of demo_zone badvers_input).out =
      [[0, 5, 129, 16, 0, 1, 0, 0, 0, 0, 0, 1, 0, 0, 1, 0, 1], [],
       [0, 0, 41, 5, 200, 1, 0, 128, 0, 0, 0]] ∧
    ∃ r, run demo_zone badvers_input = .ok r ∧ r.ret = true ∧
      r.ctx.rcode = 16 ∧ be16 (first_segment r) 2 &&& 0x0f = 0 ∧
      r.answer = AnswerPtr.empty ∧ r.ctx.matched = false ∧
      be16 (first_segment r) 6 = 0 ∧ be16 (first_segment r) 8 = 0 ∧
      be16 (first_segment r) 10 = 1 ∧
      r.out = [first_segment r, [],
        [0, 0, 41, 5, 200, 1, 0,
          if ((128 : Byte).val * 256 + (0 : Byte).val) &&& 0x8000 ≠ 0 then 128 else 0,
          0, 0, 0]] ∧
      (∀ zone1, run zone1 badvers_input = run demo_zone badvers_input) :=
  ⟨by decide, by decide, by decide, rfl, rfl,
    c5_badvers demo_zone badvers_input [] 0 1 0 1 16 0 0 1 128 0 0 0 [] (by decide) (by decide)
      (by decide) rfl (by decide) (by decide) (by decide) (by decide) (by decide) (by decide)⟩

/-- After an accepted question the response is built from a context that has
the `has_edns` and `do_bit` the EDNS parse left. -/
theorem run_accepted_fields (zone : Zone) (input : List Byte) (ls : List (List Byte))
    (a b c d : Byte) (rest : List Byte) (hgate : gate_ok input)
    (hok : header_counts_ok input) (hop : opcode_of input = 0)
    (hq : input.drop 12 = wire_name ls ++ 0 :: a :: b :: c :: d :: rest)
    (hwf : ∀ l ∈ ls, 1 ≤ l.length ∧ l.length ≤ 63) (hlen : (wire_name ls).length ≤ 255)
    (hacc : ¬ question_rejected a b c d) :
    ∃ c2 cx ans, parse_edns (question_ctx input ls a b LDNS_RCODE_NOERROR) = .ok c2 ∧
      run zone input = .ok (response_record (dnshdr.load (input.take 12)) cx ans) ∧
      cx.has_edns = c2.has_edns ∧ cx.do_bit = c2.do_bit ∧
      cx.qdsize = (wire_name ls).length + 5 := by
  obtain ⟨c2, hc2, hrun⟩ := run_accepted zone input ls a b c d rest hgate hok hop hq hwf hlen hacc
  have hqd : (trailing_rule c2).qdsize = (wire_name ls).length + 5 := by
    rw [(trailing_rule_frame c2).1, (parse_edns_inv _ _ hc2).2.2.2.1]
    rfl
  by_cases hrc : (trailing_rule c2).rcode = LDNS_RCODE_NOERROR
  · rw [if_pos hrc] at hrun
    exact ⟨c2, _, _, hc2, hrun, (trailing_rule_frame c2).2.1, (trailing_rule_frame c2).2.2.1, hqd⟩
  · rw [if_neg hrc] at hrun
    exact ⟨c2, _, _, hc2, hrun, (trailing_rule_frame c2).2.1, (trailing_rule_frame c2).2.2.1, hqd⟩

theorem opt_bytes_do (rc : Nat) (p : Prop) [Decidable p] :
    opt_bytes rc (decide p) =
      [0, 0, 41, 5, 200, Fin.ofNat ((rc >>> 4) % 256), 0, if p then 128 else 0, 0, 0, 0] := by
  unfold opt_bytes
  by_cases hp : p
  · rw [if_pos hp, if_pos (decide_eq_true hp)]
  · rw [if_neg hp, if_neg (by simpa using hp)]

/-- C4 (as stated) fails on a root `A CH` query that carries a valid OPT RR
with DO set: the question is rejected with NOTIMPL before the EDNS parse, so
the response has two segments, no OPT RR, and arcount 0. -/
theorem c4_counterexample :
    gate_ok ch_edns_input ∧ header_counts_ok ch_edns_input ∧ opcode_of ch_edns_input = 0 ∧
    ch_edns_input.drop 12 = wire_name [] ++ 0 :: 0 :: 1 :: 0 :: 3 ::
      0 :: 0 :: 41 :: 16 :: 0 :: 0 :: 0 :: 128 :: 0 :: 0 :: 0 :: [] ∧
    run demo_zone ch_edns_input = .ok (result_of demo_zone ch_edns_input) ∧
    (result_of demo_zone ch_edns_input).ret = true ∧
    (result_of demo_zone ch_edns_input).out =
      [[0, 8, 128, 4, 0, 1, 0, 0, 0, 0, 0, 0, 0, 0, 1, 0, 3], []] ∧
    (result_of demo_zone ch_edns_input).out.length = 2 ∧
    be16 (first_segment (result_of demo_zone ch_edns_input)) 10 = 0 ∧
    (result_of demo_zone ch_edns_input).answer.get.arcount + 1 = 1 :=
  ⟨by decide, by decide, by decide, rfl, rfl, rfl, rfl, rfl, rfl, rfl⟩

/-! ## More on the loop of `parse_name` -/

/-- The loop walks over a prefix of well-formed labels that stays within the
length limit. -/
theorem parse_name_loop_prefix (ls : List (List Byte)) :
    ∀ (fuel : Nat) (b : ReadBuffer) (total last labels : Nat) (tl : List Byte),
      b.current = wire_name ls ++ tl →
      (∀ l ∈ ls, 1 ≤ l.length ∧ l.length ≤ 63) →
      total + (wire_name ls).length ≤ 255 →
      labels < 256 →
      parse_name_loop (fuel + ls.length) b total last labels =
        parse_name_loop fuel ⟨b.base, b.position + (wire_name ls).length⟩
          (total + (wire_name ls).length) (last_start ls b.position last)
          ((labels + ls.length) % 256) := by
  induction ls with
  | nil =>
    intro fuel b total last labels tl _ _ _ hlab
    simp only [wire_name, List.length_nil, Nat.add_zero, last_start, List.getLast?_nil]
    rw [Nat.mod_eq_of_lt hlab]
  | cons l ls ih =>
    intro fuel b total last labels tl hcur hwf htot hlab
    have hl := hwf l (List.mem_cons_self _ _)
    have hwf1 : ∀ l1 ∈ ls, 1 ≤ l1.length ∧ l1.length ≤ 63 :=
      fun l1 h1 => hwf l1 (List.mem_cons_of_mem _ h1)
    rw [wire_name_length_cons] at htot
    have hav : b.available > 0 := by
      rw [← current_length, hcur]; simp [wire_name]
    have hc : (Fin.ofNat l.length : Byte).val = l.length := by
      show l.length % 256 = l.length
      omega
    have hr := read_u8_cur b (Fin.ofNat l.length) (l ++ (wire_name ls ++ tl))
      (by simpa [wire_name] using hcur)
    have hfuel : fuel + (l :: ls).length = (fuel + ls.length) + 1 := by
      simp only [List.length_cons]
      omega
    rw [hfuel, parse_name_loop, if_pos hav, hr.1, hc]
    simp only
    rw [if_neg (by omega), if_neg (by rw [land_0xc0_of_le _ hl.2]; simp)]
    have htot1 : ((total + l.length) % 2 ^ 32 + 1) % 2 ^ 32 = total + l.length + 1 := by
      omega
    rw [htot1, if_neg (by omega)]
    have hr2 := read_cur ⟨b.base, b.position + 1⟩ l.length l (wire_name ls ++ tl) hr.2 rfl
    rw [hr2.1]
    simp only
    rw [ih fuel _ _ _ _ tl hr2.2 hwf1 (by omega) (Nat.mod_lt _ (by norm_num))]
    simp only [wire_name_length_cons, List.length_cons]
    have e1 : b.position + 1 + l.length + (wire_name ls).length =
        b.position + (1 + l.length + (wire_name ls).length) := by omega
    have e2 : ((labels + 1) % 256 + ls.length) % 256 = (labels + (ls.length + 1)) % 256 := by
      omega
    have e3 : total + l.length + 1 + (wire_name ls).length =
        total + (1 + l.length + (wire_name ls).length) := by omega
    rw [e1, e2, e3, ← last_start_cons]

set_option maxRecDepth 100000 in
theorem land_0xc0_of_ge (c : Byte) (h : 64 ≤ c.val) : c.val &&& 0xc0 ≠ 0 := by
  revert c
  decide

/-- A label whose length byte announces more bytes than remain makes the label
read of `parse_name` fail. -/
theorem parse_name_overrun (ls : List (List Byte)) (b : ReadBuffer) (name : List Byte)
    (c : Byte) (body : List Byte)
    (hcur : b.current = wire_name ls ++ c :: body)
    (hwf : ∀ l ∈ ls, 1 ≤ l.length ∧ l.length ≤ 63)
    (hc : 1 ≤ c.val ∧ c.val ≤ 63)
    (hlen : (wire_name ls).length + c.val + 1 ≤ 255)
    (hshort : body.length < c.val) :
    parse_name b name = .error .out_of_range := by
  have hll := length_le_wire_name ls
  have hav : (wire_name ls).length + 1 ≤ b.available := by
    rw [← current_length, hcur]; simp
  have hfuel : b.available + 1 = (b.available - ls.length) + 1 + ls.length := by omega
  have hcur2 := current_after b (wire_name ls) (c :: body) _ hcur rfl
  have hav2 : ReadBuffer.available ⟨b.base, b.position + (wire_name ls).length⟩ > 0 := by
    rw [← current_length, hcur2]; simp
  have hr := read_u8_cur _ c body hcur2
  have hav3 : ReadBuffer.available
      ⟨b.base, b.position + (wire_name ls).length + 1⟩ < c.val := by
    rw [← current_length, hr.2]
    exact hshort
  unfold parse_name
  rw [hfuel, parse_name_loop_prefix ls _ b 0 b.position 0 (c :: body) hcur hwf (by omega)
    (by omega), parse_name_loop, if_pos hav2, hr.1]
  simp only
  rw [if_neg (by omega), if_neg (by rw [land_0xc0_of_le _ hc.2]; simp)]
  have htot1 : ((0 + (wire_name ls).length + c.val) % 2 ^ 32 + 1) % 2 ^ 32 =
      (wire_name ls).length + c.val + 1 := by omega
  rw [htot1, if_neg (by omega)]
  unfold ReadBuffer.read
  rw [if_pos hav3]

/-- A name whose last label ends exactly at the end of the input: the loop is
left by its condition and `parse_name` returns true with nothing left. -/
theorem parse_name_at_end (ls : List (List Byte)) (b : ReadBuffer) (name : List Byte)
    (hcur : b.current = wire_name ls)
    (hwf : ∀ l ∈ ls, 1 ≤ l.length ∧ l.length ≤ 63)
    (hlen : (wire_name ls).length ≤ 255) :
    ∃ nm, parse_name b name =
      .ok (true, ⟨b.base, b.position + (wire_name ls).length⟩, nm, ls.length) := by
  have hll := length_le_wire_name ls
  have hav : (wire_name ls).length = b.available := by
    rw [← current_length, hcur]
  have hfuel : b.available + 1 = (b.available - ls.length) + 1 + ls.length := by omega
  have hcur2 := current_after b (wire_name ls) [] _ (by simpa using hcur) rfl
  have hav2 : ¬ ReadBuffer.available ⟨b.base, b.position + (wire_name ls).length⟩ > 0 := by
    rw [← current_length, hcur2]; simp
  unfold parse_name
  rw [hfuel, parse_name_loop_prefix ls _ b 0 b.position 0 [] (by simpa using hcur) hwf
    (by omega) (by omega), parse_name_loop, if_neg hav2]
  simp only [Nat.zero_add]
  rw [Nat.mod_eq_of_lt (show ls.length < 256 by omega)]
  exact ⟨_, rfl⟩

/-- `parse_name` returns false on a name in which a length byte has one of its
two top bits set, or whose labels and length bytes add up to more than 255. -/
theorem parse_name_loop_rejects (ls : List (List Byte)) :
    ∀ (fuel : Nat) (b : ReadBuffer) (total last labels : Nat) (tl : List Byte),
      b.current = wire_name ls ++ tl →
      (∀ l ∈ ls, 1 ≤ l.length ∧ l.length ≤ 255) →
      total ≤ 255 →
      ls.length < fuel →
      (255 < total + (wire_name ls).length ∨ ∃ c rest, tl = c :: rest ∧ 64 ≤ c.val) →
      ∃ b1 l1, parse_name_loop fuel b total last labels = .ok (.rejected b1 l1) := by
  induction ls with
  | nil =>
    intro fuel b total last labels tl hcur _ htotal hfuel hbad
    obtain ⟨fuel, rfl⟩ : ∃ f, fuel = f + 1 := ⟨fuel - 1, by simp at hfuel; omega⟩
    rcases hbad with hbad | ⟨c, rest, rfl, hc⟩
    · simp only [wire_name, List.length_nil] at hbad
      omega
    · have hav : b.available > 0 := by
        rw [← current_length, hcur]; simp [wire_name]
      have hr := read_u8_cur b c rest (by simpa [wire_name] using hcur)
      rw [parse_name_loop, if_pos hav, hr.1]
      simp only
      rw [if_neg (by omega), if_pos (land_0xc0_of_ge c hc)]
      exact ⟨_, _, rfl⟩
  | cons l ls ih =>
    intro fuel b total last labels tl hcur hwf htotal hfuel hbad
    obtain ⟨fuel, rfl⟩ : ∃ f, fuel = f + 1 := ⟨fuel - 1, by simp at hfuel; omega⟩
    have hl := hwf l (List.mem_cons_self _ _)
    have hwf1 : ∀ l1 ∈ ls, 1 ≤ l1.length ∧ l1.length ≤ 255 :=
      fun l1 h1 => hwf l1 (List.mem_cons_of_mem _ h1)
    rw [wire_name_length_cons] at hbad
    have hav : b.available > 0 := by
      rw [← current_length, hcur]; simp [wire_name]
    have hc : (Fin.ofNat l.length : Byte).val = l.length := by
      show l.length % 256 = l.length
      omega
    have hr := read_u8_cur b (Fin.ofNat l.length) (l ++ (wire_name ls ++ tl))
      (by simpa [wire_name] using hcur)
    rw [parse_name_loop, if_pos hav, hr.1]
    simp only
    rw [if_neg (by rw [hc]; omega)]
    by_cases h64 : 64 ≤ l.length
    · rw [if_pos (land_0xc0_of_ge _ (by rw [hc]; exact h64))]
      exact ⟨_, _, rfl⟩
    · rw [if_neg (by rw [hc, land_0xc0_of_le _ (by omega)]; simp), hc]
      have htot1 : ((total + l.length) % 2 ^ 32 + 1) % 2 ^ 32 = total + l.length + 1 := by
        omega
      rw [htot1]
      by_cases hover : total + l.length + 1 > 255
      · rw [if_pos hover]
        exact ⟨_, _, rfl⟩
      · rw [if_neg hover]
        have hr2 := read_cur ⟨b.base, b.position + 1⟩ l.length l (wire_name ls ++ tl) hr.2 rfl
        rw [hr2.1]
        simp only
        refine ih fuel _ _ _ _ tl hr2.2 hwf1 (by omega) (by simpa using hfuel) ?_
        rcases hbad with hbad | hbad
        · left; omega
        · right; exact hbad

/-- The only way the loop of `parse_name` fails: after labels that were
accepted, a length byte between 1 and 63, within the length limit, announces
more bytes than remain. -/
theorem parse_name_loop_error (fuel : Nat) :
    ∀ (b : ReadBuffer) (total last labels : Nat) (e : Fault),
      parse_name_loop fuel b total last labels = .error e →
      b.available < fuel → total ≤ 255 →
      e = .out_of_range ∧
      ∃ (ls : List (List Byte)) (c : Byte) (body : List Byte),
        (∀ l ∈ ls, 1 ≤ l.length ∧ l.length ≤ 63) ∧
        b.current = wire_name ls ++ c :: body ∧
        1 ≤ c.val ∧ c.val ≤ 63 ∧
        total + (wire_name ls).length + c.val + 1 ≤ 255 ∧
        body.length < c.val := by
  induction fuel with
  | zero =>
    intro b total last labels e _ hav
    omega
  | succ fuel ih =>
    intro b total last labels e h hav htotal
    rw [parse_name_loop] at h
    split at h
    · next hpos =>
      split at h
      · next e1 he =>
        have := read_u8_error b e1 he
        omega
      · next c in1 hr =>
        obtain ⟨c1, hcur, hc, hin1⟩ := read_u8_inv b c in1 hr
        have hb := read_u8_base b c in1 hr
        split at h
        · cases h
        · next hc0 =>
          simp only at h
          split at h
          · cases h
          · next hland =>
            split at h
            · cases h
            · next htot =>
              have hc63 : c ≤ 63 := by
                rw [hc]
                apply le_of_land_0xc0
                rw [← hc]
                simpa using hland
              have htot1 : ((total + c) % 2 ^ 32 + 1) % 2 ^ 32 = total + c + 1 := by omega
              rw [htot1] at h htot
              split at h
              · next e2 he2 =>
                have hre := read_error in1 c e2 he2
                cases h
                refine ⟨hre.2, [], c1, in1.current, by simp, by simpa [wire_name] using hcur,
                  by omega, by omega, ?_, ?_⟩
                · simp only [wire_name, List.length_nil]
                  omega
                · rw [current_length, ← hc]
                  exact hre.1
              · next xs in2 hr2 =>
                obtain ⟨hcur2, hxs, hin2⟩ := read_inv in1 c xs in2 hr2
                have hb2 := read_base in1 c xs in2 hr2
                have hav2 : in2.available < fuel := by
                  unfold ReadBuffer.available ReadBuffer.size at *
                  rw [hb2.1, hb2.2.1, hb.1, hb.2.1]
                  omega
                obtain ⟨he, ls, c2, body, hwf, hcur3, hc21, hc22, hlen, hshort⟩ :=
                  ih in2 _ _ _ e h hav2 (by omega)
                have hofnat : (Fin.ofNat xs.length : Byte) = c1 := by
                  rw [hxs, hc, ofNat_val]
                refine ⟨he, xs :: ls, c2, body, ?_, ?_, hc21, hc22, ?_, hshort⟩
                · intro l hl
                  rcases List.mem_cons.mp hl with rfl | hl
                  · omega
                  · exact hwf l hl
                · rw [hcur, hcur2, hcur3, wire_name, hofnat]
                  simp
                · rw [wire_name_length_cons]
                  omega
    · cases h

theorem parse_name_error_shape (b : ReadBuffer) (name : List Byte) (e : Fault)
    (h : parse_name b name = .error e) :
    e = .out_of_range ∧
    ∃ (ls : List (List Byte)) (c : Byte) (body : List Byte),
      (∀ l ∈ ls, 1 ≤ l.length ∧ l.length ≤ 63) ∧
      b.current = wire_name ls ++ c :: body ∧
      1 ≤ c.val ∧ c.val ≤ 63 ∧
      (wire_name ls).length + c.val + 1 ≤ 255 ∧
      body.length < c.val := by
  unfold parse_name at h
  split at h
  · next e1 he =>
    cases h
    have := parse_name_loop_error _ _ _ _ _ _ he (Nat.lt_succ_self _) (by norm_num)
    simpa using this
  · cases h
  · cases h

theorem parse_question_error_name (ctx : Context) (e : Fault)
    (h : parse_question ctx = .error e) : parse_name ctx.inb ctx.qname = .error e := by
  unfold parse_question at h
  simp only [bind, Except.bind, pure, Except.pure] at h
  split at h
  · next e1 he =>
    cases h
    exact he
  · next v hv =>
    obtain ⟨ok, in1, nm, labs⟩ := v
    simp only at h
    split at h
    · cases h
    · split at h
      · cases h
      · next hav =>
        split at h
        · next e2 he2 =>
          have := read_u16_error _ _ he2
          omega
        · next v2 hv2 =>
          obtain ⟨qt, in2⟩ := v2
          have h2 := read_u16_base in1 qt in2 hv2
          simp only at h
          split at h
          · next e3 he3 =>
            have := read_u16_error _ _ he3
            unfold ReadBuffer.available ReadBuffer.size at *
            rw [h2.1, h2.2.1] at this
            omega
          · split at h
            · cases h
            · split at h <;> cases h

theorem parse_packet_error_name (ctx : Context) (e : Fault)
    (h : parse_packet ctx = .error e) : parse_name ctx.inb ctx.qname = .error e := by
  unfold parse_packet at h
  simp only [bind, Except.bind, pure, Except.pure] at h
  split at h
  · next e1 he =>
    cases h
    exact parse_question_error_name { ctx with rcode := LDNS_RCODE_NOERROR } _ he
  · next c1 hq =>
    split at h
    · cases h
    · split at h
      · next e2 he2 =>
        obtain ⟨c2, hc2⟩ := parse_edns_total c1
        rw [hc2] at he2
        cases he2
      · split at h
        · cases h
        · split at h <;> cases h

/-! ## Questions whose name is refused -/

/-- The record `parse_question` leaves when it refuses the name, or when fewer
than four bytes follow it: FORMERR, no question size captured. -/
theorem parse_question_formerr (ctx : Context) (ok : Bool) (in1 : ReadBuffer)
    (nm : List Byte) (labs : Nat)
    (hn : parse_name ctx.inb ctx.qname = .ok (ok, in1, nm, labs))
    (hbad : ok = false ∨ in1.available < 4) :
    parse_question ctx = .ok { ctx with qdstart := ctx.inb.position, inb := in1, qname := nm,
                                        qlabels := labs, rcode := LDNS_RCODE_FORMERR } := by
  unfold parse_question
  simp only [bind, Except.bind, pure, Except.pure]
  rw [hn]
  simp only
  cases ok with
  | false => rfl
  | true =>
    rcases hbad with h | h
    · cases h
    · rw [if_neg (by simp), if_pos h]

theorem run_name_refused (zone : Zone) (input : List Byte) (ok : Bool) (in1 : ReadBuffer)
    (nm : List Byte) (labs : Nat) (hgate : gate_ok input)
    (hok : header_counts_ok input) (hop : opcode_of input = 0)
    (hn : parse_name ⟨input, 12⟩ [] = .ok (ok, in1, nm, labs))
    (hbad : ok = false ∨ in1.available < 4) :
    run zone input = .ok (response_record (dnshdr.load (input.take 12))
      { after_header input with qdstart := 12, inb := in1, qname := nm, qlabels := labs,
                                rcode := LDNS_RCODE_FORMERR } AnswerPtr.empty) := by
  have hpq := parse_question_formerr { after_header input with rcode := LDNS_RCODE_NOERROR }
    ok in1 nm labs hn hbad
  apply run_of_parse zone input _ _ _ (legal_header_of_gate input hgate)
  · rw [execute_parse_eq zone input (gate_length input hgate),
      if_neg (valid_of_counts input hok), if_neg (not_not.mpr hop)]
    unfold parse_packet
    simp only [bind, Except.bind, pure, Except.pure]
    rw [hpq]
    simp only
    rw [if_pos (show LDNS_RCODE_FORMERR ≠ LDNS_RCODE_NOERROR by decide)]
    simp only
    rw [if_neg (show ¬ LDNS_RCODE_FORMERR = LDNS_RCODE_NOERROR by decide)]
    rfl
  · show 12 + 0 ≤ head_size
    unfold head_size
    omega

theorem run_name_fault (zone : Zone) (input : List Byte) (e : Fault) (hgate : gate_ok input)
    (hok : header_counts_ok input) (hop : opcode_of input = 0)
    (hn : parse_name ⟨input, 12⟩ [] = .error e) :
    run zone input = .error e := by
  rw [run_legal zone input (legal_header_of_gate input hgate),
    execute_parse_eq zone input (gate_length input hgate),
    if_neg (valid_of_counts input hok), if_neg (not_not.mpr hop)]
  have hpp : parse_packet (after_header input) = .error e := by
    unfold parse_packet parse_question
    simp only [bind, Except.bind, pure, Except.pure]
    have hn1 : parse_name (after_header input).inb (after_header input).qname = .error e := hn
    rw [hn1]
  rw [hpp]

/-- The question size that `execute` hands to the response path is at most
260: a name of at most 255 bytes, its root byte and four more bytes. -/
theorem execute_parse_qdsize (zone : Zone) (input : List Byte) (rx : dnshdr) (ctx : Context)
    (ans : AnswerPtr) (hlen : 12 ≤ input.length)
    (hp : execute_parse zone (Context.fresh ⟨input, 0⟩) = .ok (rx, ctx, ans)) :
    ctx.qdsize ≤ 260 := by
  rw [execute_parse_eq zone input hlen] at hp
  split at hp
  · cases hp
    show 0 ≤ 260
    omega
  · split at hp
    · cases hp
      show 0 ≤ 260
      omega
    · split at hp
      · cases hp
      · next c2 hpp =>
        have hsh := parse_packet_shape _ _ hpp
        have hc2 : c2.qdsize ≤ 260 := by
          rcases hsh with ⟨hs, _, _⟩ | ⟨ls, a, b, c, d, tl, _, _, hlen1, hs⟩
          · rw [hs]
            show 0 ≤ 260
            omega
          · omega
        split at hp
        · cases hp
          exact hc2
        · cases hp
          exact hc2

/-- A fault leaves `run` only through the name parse of a gated, valid QUERY
packet. -/
theorem run_fault_name (zone : Zone) (input : List Byte) (e : Fault)
    (h : run zone input = .error e) :
    legal_header ⟨input, 0⟩ = true ∧ 12 ≤ input.length ∧
    parse_name ⟨input, 12⟩ [] = .error e := by
  cases hl : legal_header ⟨input, 0⟩ with
  | false =>
    rw [run_dropped zone input hl] at h
    cases h
  | true =>
    have hlen : 12 ≤ input.length := by
      have := legal_header_length _ hl
      simp only at this
      omega
    refine ⟨rfl, hlen, ?_⟩
    rw [run_legal zone input hl] at h
    split at h
    · next e1 he =>
      cases h
      rw [execute_parse_eq zone input hlen] at he
      split at he
      · cases he
      · split at he
        · cases he
        · split at he
          · next e2 hpp =>
            cases he
            exact parse_packet_error_name _ _ hpp
          · split at he <;> cases he
    · next rx ctx ans hp =>
      exfalso
      have hinv := execute_parse_inv zone input rx ctx ans hlen hp
      have hq : 12 + ctx.qdsize ≤ head_size := by
        have := execute_parse_qdsize zone input rx ctx ans hlen hp
        unfold head_size
        omega
      rw [execute_respond_eq rx ctx ans hinv.2.1 hinv.2.2.1 hq] at h
      cases h

/-! ## Compression pointers and over-long names -/

theorem parse_name_rejects (ls : List (List Byte)) (b : ReadBuffer) (name tl : List Byte)
    (hcur : b.current = wire_name ls ++ tl)
    (hwf : ∀ l ∈ ls, 1 ≤ l.length ∧ l.length ≤ 255)
    (hbad : 255 < (wire_name ls).length ∨ ∃ c rest, tl = c :: rest ∧ 64 ≤ c.val) :
    ∃ in1 labs, parse_name b name = .ok (false, in1, name, labs) := by
  have hll := length_le_wire_name ls
  have hav : (wire_name ls).length ≤ b.available := by
    rw [← current_length, hcur]
    simp
  obtain ⟨b1, l1, h⟩ := parse_name_loop_rejects ls (b.available + 1) b 0 b.position 0 tl hcur hwf
    (by omega) (by omega) (by simpa using hbad)
  refine ⟨b1, l1, ?_⟩
  unfold parse_name
  rw [h]

/-- The response to a gated, valid QUERY packet whose name `parse_name`
refuses, or whose name is followed by fewer than four bytes. -/
theorem run_name_refused_wire (zone : Zone) (input : List Byte) (ok : Bool) (in1 : ReadBuffer)
    (nm : List Byte) (labs : Nat) (hgate : gate_ok input)
    (hok : header_counts_ok input) (hop : opcode_of input = 0)
    (hn : parse_name ⟨input, 12⟩ [] = .ok (ok, in1, nm, labs))
    (hbad : ok = false ∨ in1.available < 4) :
    ∃ r, run zone input = .ok r ∧ r.ret = true ∧ r.ctx.rcode = LDNS_RCODE_FORMERR ∧
      be16 (first_segment r) 2 &&& 0x0f = 1 ∧ r.ctx.qdsize = 0 ∧
      be16 (first_segment r) 4 = 0 ∧ (first_segment r).length = 12 ∧
      r.answer = AnswerPtr.empty ∧ r.out = [first_segment r, []] ∧
      r.ctx.has_edns = false := by
  have hrun := run_name_refused zone input ok in1 nm labs hgate hok hop hn hbad
  have hw := first_segment_wire zone input _ hrun rfl
  refine ⟨_, hrun, rfl, rfl, ?_, rfl, ?_, ?_, rfl, rfl, rfl⟩
  · rw [hw.2.2.2.1, response_flags_rcode]
    exact (by decide : LDNS_RCODE_FORMERR &&& 0x0f = 1)
  · rw [hw.2.2.2.2.1]
    rfl
  · rw [hw.2.2.2.2.2.2.2.2.2.1]
    rfl

/-- C13: for a packet with a legal and valid header and opcode QUERY whose
question name reaches, after any labels and before a terminating zero, a length
byte of 0xC0 or more, `execute` answers FORMERR with an empty question (qdcount
0, a 12-byte first segment, the empty answer); and whenever `parse_name`
accepts, the bytes it consumed are labels of 1 to 63 bytes each, followed by
the root byte or by the end of the input. -/
theorem c13_no_compression (zone : Zone) (input : List Byte) (ls : List (List Byte))
    (c : Byte) (rest : List Byte) (hgate : gate_ok input) (hok : header_counts_ok input)
    (hop : opcode_of input = 0)
    (hq : input.drop 12 = wire_name ls ++ c :: rest)
    (hwf : ∀ l ∈ ls, 1 ≤ l.length ∧ l.length ≤ 255) (hc : 0xC0 ≤ c.val) :
    (∃ r, run zone input = .ok r ∧ r.ret = true ∧ r.ctx.rcode = LDNS_RCODE_FORMERR ∧
      be16 (first_segment r) 2 &&& 0x0f = 1 ∧ r.ctx.qdsize = 0 ∧
      be16 (first_segment r) 4 = 0 ∧ (first_segment r).length = 12 ∧
      r.answer = AnswerPtr.empty ∧ r.out = [first_segment r, []] ∧
      r.ctx.has_edns = false) ∧
    (∀ (b : ReadBuffer) (name : List Byte) (in1 : ReadBuffer) (nm : List Byte) (labs : Nat),
      parse_name b name = .ok (true, in1, nm, labs) →
      ∃ ls1 : List (List Byte), (∀ l ∈ ls1, 1 ≤ l.length ∧ l.length ≤ 63) ∧
        (b.current = wire_name ls1 ++ 0 :: in1.current ∨
          (b.current = wire_name ls1 ∧ in1.available = 0)) ∧
        labs = ls1.length) := by
  constructor
  · obtain ⟨in1, labs, hn⟩ := parse_name_rejects ls ⟨input, 12⟩ [] (c :: rest) hq hwf
      (Or.inr ⟨c, rest, rfl, by omega⟩)
    exact run_name_refused_wire zone input false in1 [] labs hgate hok hop hn (Or.inl rfl)
  · intro b name in1 nm labs h
    obtain ⟨last, hloop⟩ := parse_name_true b name in1 nm labs h
    obtain ⟨ls1, hwf1, hlen1, hlabs, _, _, hshape⟩ :=
      parse_name_loop_finished _ _ _ _ _ _ _ _ hloop (by norm_num) (by norm_num)
    have hll := length_le_wire_name ls1
    refine ⟨ls1, hwf1, ?_, ?_⟩
    · rcases hshape with ⟨h1, _⟩ | ⟨h1, h2, _⟩
      · exact Or.inl h1
      · exact Or.inr ⟨h1, h2⟩
    · rw [hlabs, Nat.zero_add]
      exact Nat.mod_eq_of_lt (by omega)

/-- C13 at `com` followed by the pointer 0xC0 0x0C: FORMERR, qdcount 0; and the
name of the `com A CH` query is accepted with its one 3-byte label. -/
theorem c13_no_compression_witness :
    gate_ok pointer_input ∧ header_counts_ok pointer_input ∧ opcode_of pointer_input = 0 ∧
    (result_of demo_zone pointer_input).out = [[0, 2, 128, 1, 0, 0, 0, 0, 0, 0, 0, 0], []] ∧
    (∃ r, run demo_zone pointer_input = .ok r ∧ r.ret = true ∧
      r.ctx.rcode = LDNS_RCODE_FORMERR ∧
      be16 (first_segment r) 2 &&& 0x0f = 1 ∧ r.ctx.qdsize = 0 ∧
      be16 (first_segment r) 4 = 0 ∧ (first_segment r).length = 12 ∧
      r.answer = AnswerPtr.empty ∧ r.out = [first_segment r, []] ∧
      r.ctx.has_edns = false) ∧
    ∃ ls1 : List (List Byte), (∀ l ∈ ls1, 1 ≤ l.length ∧ l.length ≤ 63) ∧
      ((⟨ch_input, 12⟩ : ReadBuffer).current =
          wire_name ls1 ++ 0 :: (⟨ch_input, 17⟩ : ReadBuffer).current ∨
        ((⟨ch_input, 12⟩ : ReadBuffer).current = wire_name ls1 ∧
          (⟨ch_input, 17⟩ : ReadBuffer).available = 0)) ∧
      1 = ls1.length :=
  ⟨by decide, by decide, by decide, rfl,
    (c13_no_compression demo_zone pointer_input [[99, 111, 109]] 192 [12, 0, 1, 0, 1]
      (by decide) (by decide) (by decide) rfl (by decide) (by decide)).1,
    (c13_no_compression demo_zone pointer_input [[99, 111, 109]] 192 [12, 0, 1, 0, 1]
      (by decide) (by decide) (by decide) rfl (by decide) (by decide)).2
      ⟨ch_input, 12⟩ [] ⟨ch_input, 17⟩ [99, 111, 109] 1 rfl⟩

/-! ## The name length limit -/

/-- A well-formed question is echoed whatever the rest of the parse decides. -/
theorem run_question_captured (zone : Zone) (input : List Byte) (ls : List (List Byte))
    (a b c d : Byte) (rest : List Byte) (hgate : gate_ok input)
    (hok : header_counts_ok input) (hop : opcode_of input = 0)
    (hq : input.drop 12 = wire_name ls ++ 0 :: a :: b :: c :: d :: rest)
    (hwf : ∀ l ∈ ls, 1 ≤ l.length ∧ l.length ≤ 63) (hlen : (wire_name ls).length ≤ 255) :
    ∃ r, run zone input = .ok r ∧ r.ret = true ∧
      r.ctx.qdsize = (wire_name ls).length + 5 ∧ be16 (first_segment r) 4 = 1 := by
  have key : ∀ r, run zone input = .ok r → r.ret = true →
      r.ctx.qdsize = (wire_name ls).length + 5 →
      ∃ r, run zone input = .ok r ∧ r.ret = true ∧
        r.ctx.qdsize = (wire_name ls).length + 5 ∧ be16 (first_segment r) 4 = 1 := by
    intro r hrun hret hqd
    have hw := first_segment_wire zone input r hrun hret
    refine ⟨r, hrun, hret, hqd, ?_⟩
    rw [hw.2.2.2.2.1]
    exact if_pos (by omega)
  by_cases hrej : question_rejected a b c d
  · exact key _ (run_rejected zone input ls a b c d rest hgate hok hop hq hwf hlen hrej) rfl rfl
  · obtain ⟨c2, hc2, hrun⟩ := run_accepted zone input ls a b c d rest hgate hok hop hq hwf hlen hrej
    have hqd : (trailing_rule c2).qdsize = (wire_name ls).length + 5 := by
      rw [(trailing_rule_frame c2).1, (parse_edns_inv _ _ hc2).2.2.2.1]
      rfl
    by_cases hrc : (trailing_rule c2).rcode = LDNS_RCODE_NOERROR
    · rw [if_pos hrc] at hrun
      exact key _ hrun rfl hqd
    · rw [if_neg hrc] at hrun
      exact key _ hrun rfl hqd

/-- C14: for a packet with a legal and valid header and opcode QUERY whose
question name is made of labels of 1 to 63 bytes: if the length bytes and
bodies of these labels add up to more than 255 bytes, `execute` answers FORMERR
with an empty question; if they add up to at most 255 bytes and the root byte
follows, `parse_name` accepts the name, and with four more bytes behind it the
question is captured and echoed (qdcount 1). The root byte is not counted. -/
theorem c14_name_length (zone : Zone) (input : List Byte) (ls : List (List Byte))
    (tl : List Byte) (hgate : gate_ok input) (hok : header_counts_ok input)
    (hop : opcode_of input = 0)
    (hq : input.drop 12 = wire_name ls ++ tl)
    (hwf : ∀ l ∈ ls, 1 ≤ l.length ∧ l.length ≤ 63) :
    (255 < (wire_name ls).length →
      ∃ r, run zone input = .ok r ∧ r.ret = true ∧ r.ctx.rcode = LDNS_RCODE_FORMERR ∧
        be16 (first_segment r) 2 &&& 0x0f = 1 ∧ r.ctx.qdsize = 0 ∧
        be16 (first_segment r) 4 = 0 ∧ (first_segment r).length = 12 ∧
        r.answer = AnswerPtr.empty ∧ r.out = [first_segment r, []] ∧
        r.ctx.has_edns = false) ∧
    ((wire_name ls).length ≤ 255 → ∀ tl1, tl = 0 :: tl1 →
      parse_name ⟨input, 12⟩ [] =
        .ok (true, ⟨input, 12 + (wire_name ls).length + 1⟩,
          strlower (ls.getLast?.getD []), ls.length) ∧
      (4 ≤ tl1.length →
        ∃ r, run zone input = .ok r ∧ r.ret = true ∧
          r.ctx.qdsize = (wire_name ls).length + 5 ∧ be16 (first_segment r) 4 = 1)) := by
  constructor
  · intro hlong
    obtain ⟨in1, labs, hn⟩ := parse_name_rejects ls ⟨input, 12⟩ [] tl hq
      (fun l hl => ⟨(hwf l hl).1, by have := (hwf l hl).2; omega⟩) (Or.inl hlong)
    exact run_name_refused_wire zone input false in1 [] labs hgate hok hop hn (Or.inl rfl)
  · intro hlen tl1 htl
    subst htl
    refine ⟨parse_name_wire ls ⟨input, 12⟩ [] tl1 hq hwf hlen, ?_⟩
    intro h4
    match tl1, h4 with
    | a :: b :: c :: d :: rest, _ =>
      exact run_question_captured zone input ls a b c d rest hgate hok hop hq hwf hlen

set_option maxRecDepth 100000 in
/-- C14 at a name of 256 bytes of labels (FORMERR, empty question) and at a
name of 255 bytes of labels followed by the root byte (accepted, echoed). -/
theorem c14_name_length_witness :
    (gate_ok long_input ∧ header_counts_ok long_input ∧ opcode_of long_input = 0 ∧
      (wire_name long_labels).length = 256 ∧
      ∃ r, run demo_zone long_input = .ok r ∧ r.ret = true ∧
        r.ctx.rcode = LDNS_RCODE_FORMERR ∧
        be16 (first_segment r) 2 &&& 0x0f = 1 ∧ r.ctx.qdsize = 0 ∧
        be16 (first_segment r) 4 = 0 ∧ (first_segment r).length = 12 ∧
        r.answer = AnswerPtr.empty ∧ r.out = [first_segment r, []] ∧
        r.ctx.has_edns = false) ∧
    (gate_ok edge_input ∧ header_counts_ok edge_input ∧ opcode_of edge_input = 0 ∧
      (wire_name edge_labels).length = 255 ∧
      ∃ r, run demo_zone edge_input = .ok r ∧ r.ret = true ∧
        r.ctx.qdsize = (wire_name edge_labels).length + 5 ∧ be16 (first_segment r) 4 = 1) :=
  ⟨⟨by decide, by decide, by decide, by decide,
     (c14_name_length demo_zone long_input long_labels [0, 0, 1, 0, 1]
       (by decide) (by decide) (by decide) rfl (by decide)).1 (by decide)⟩,
   ⟨by decide, by decide, by decide, by decide,
     ((c14_name_length demo_zone edge_input edge_labels [0, 0, 1, 0, 1]
       (by decide) (by decide) (by decide) rfl (by decide)).2 (by decide)
       [0, 1, 0, 1] rfl).2 (by decide)⟩⟩

/-! ## Names without a terminating zero -/

/-- A label that announces more bytes than remain: the read fault of
`parse_name` leaves `execute`. -/
theorem run_label_overrun (zone : Zone) (input : List Byte) (ls : List (List Byte))
    (c : Byte) (body : List Byte) (hgate : gate_ok input)
    (hok : header_counts_ok input) (hop : opcode_of input = 0)
    (hq : input.drop 12 = wire_name ls ++ c :: body)
    (hwf : ∀ l ∈ ls, 1 ≤ l.length ∧ l.length ≤ 63)
    (hc : 1 ≤ c.val ∧ c.val ≤ 63)
    (hlen : (wire_name ls).length + c.val + 1 ≤ 255)
    (hshort : body.length < c.val) :
    run zone input = .error .out_of_range :=
  run_name_fault zone input _ hgate hok hop
    (parse_name_overrun ls ⟨input, 12⟩ [] c body hq hwf hc hlen hshort)

/-- C15: for a packet with a legal and valid header and opcode QUERY whose
question name is made of labels of 1 to 63 bytes and has no terminating zero:
if the last label ends exactly at the end of the input, `execute` answers
FORMERR with an empty question; if instead a length byte between 1 and 63,
within the 255-byte limit, announces more bytes than remain, the read fault
leaves `execute` and no response is produced. -/
theorem c15_unterminated_name (zone : Zone) (input : List Byte) (ls : List (List Byte))
    (hgate : gate_ok input) (hok : header_counts_ok input) (hop : opcode_of input = 0)
    (hwf : ∀ l ∈ ls, 1 ≤ l.length ∧ l.length ≤ 63) :
    (input.drop 12 = wire_name ls →
      ∃ r, run zone input = .ok r ∧ r.ret = true ∧ r.ctx.rcode = LDNS_RCODE_FORMERR ∧
        be16 (first_segment r) 2 &&& 0x0f = 1 ∧ r.ctx.qdsize = 0 ∧
        be16 (first_segment r) 4 = 0 ∧ (first_segment r).length = 12 ∧
        r.answer = AnswerPtr.empty ∧ r.out = [first_segment r, []] ∧
        r.ctx.has_edns = false) ∧
    (∀ (c : Byte) (body : List Byte), input.drop 12 = wire_name ls ++ c :: body →
      1 ≤ c.val → c.val ≤ 63 → (wire_name ls).length + c.val + 1 ≤ 255 →
      body.length < c.val →
      run zone input = .error .out_of_range ∧ ¬ ∃ r, run zone input = .ok r) := by
  constructor
  · intro hq
    by_cases hlen : (wire_name ls).length ≤ 255
    · obtain ⟨nm, hn⟩ := parse_name_at_end ls ⟨input, 12⟩ [] hq hwf hlen
      refine run_name_refused_wire zone input true _ nm ls.length hgate hok hop hn (Or.inr ?_)
      have hav : (wire_name ls).length = ReadBuffer.available ⟨input, 12⟩ := by
        rw [← current_length]
        exact (congrArg List.length hq).symm
      show input.length - (12 + (wire_name ls).length) < 4
      unfold ReadBuffer.available ReadBuffer.size at hav
      simp only at hav
      omega
    · obtain ⟨in1, labs, hn⟩ := parse_name_rejects ls ⟨input, 12⟩ [] []
        (by simpa using hq)
        (fun l hl => ⟨(hwf l hl).1, by have := (hwf l hl).2; omega⟩) (Or.inl (by omega))
      exact run_name_refused_wire zone input false in1 [] labs hgate hok hop hn (Or.inl rfl)
  · intro c body hq hc1 hc2 hlen hshort
    have hrun := run_label_overrun zone input ls c body hgate hok hop hq hwf ⟨hc1, hc2⟩ hlen
      hshort
    refine ⟨hrun, ?_⟩
    rintro ⟨r, hr⟩
    rw [hrun] at hr
    cases hr

/-- C15 at `abcd` ending with the input (FORMERR, qdcount 0) and at `com`
followed by a length byte 7 with two bytes left (no response). -/
theorem c15_unterminated_name_witness :
    (gate_ok open_end_input ∧ header_counts_ok open_end_input ∧
      opcode_of open_end_input = 0 ∧
      (result_of demo_zone open_end_input).out = [[0, 2, 128, 1, 0, 0, 0, 0, 0, 0, 0, 0], []] ∧
      ∃ r, run demo_zone open_end_input = .ok r ∧ r.ret = true ∧
        r.ctx.rcode = LDNS_RCODE_FORMERR ∧
        be16 (first_segment r) 2 &&& 0x0f = 1 ∧ r.ctx.qdsize = 0 ∧
        be16 (first_segment r) 4 = 0 ∧ (first_segment r).length = 12 ∧
        r.answer = AnswerPtr.empty ∧ r.out = [first_segment r, []] ∧
        r.ctx.has_edns = false) ∧
    (gate_ok short_label_input ∧ header_counts_ok short_label_input ∧
      opcode_of short_label_input = 0 ∧
      run demo_zone short_label_input = .error .out_of_range ∧
      ¬ ∃ r, run demo_zone short_label_input = .ok r) :=
  ⟨⟨by decide, by decide, by decide, rfl,
     (c15_unterminated_name demo_zone open_end_input [[97, 98, 99, 100]]
       (by decide) (by decide) (by decide) (by decide)).1 rfl⟩,
   ⟨by decide, by decide, by decide,
     (c15_unterminated_name demo_zone short_label_input [[99, 111, 109]]
       (by decide) (by decide) (by decide) (by decide)).2 7 [97, 98] rfl
       (by decide) (by decide) (by decide) (by decide)⟩⟩

/-! ## The lookup key -/

theorem tolower_val (c : Byte) :
    (tolower c).val = if 65 ≤ c.val ∧ c.val ≤ 90 then c.val + 32 else c.val := by
  unfold tolower
  split
  · next h =>
    rw [ofNat_val_mod]
    omega
  · rfl

theorem tolower_not_upper (c : Byte) : ¬ (65 ≤ (tolower c).val ∧ (tolower c).val ≤ 90) := by
  rw [tolower_val]
  split <;> omega

theorem two_mul_length_le_wire_name (ls : List (List Byte))
    (hwf : ∀ l ∈ ls, 1 ≤ l.length ∧ l.length ≤ 63) :
    2 * ls.length ≤ (wire_name ls).length := by
  induction ls with
  | nil => simp [wire_name]
  | cons l ls ih =>
    have h1 := (hwf l (List.mem_cons_self l ls)).1
    have h2 := ih (fun x hx => hwf x (List.mem_cons_of_mem l hx))
    rw [wire_name_length_cons, List.length_cons]
    omega

/-- C16: for a well-formed, zero-terminated name (labels of 1 to 63 bytes,
at most 255 bytes of labels, then the root byte) `parse_name` returns true,
reports as label count the number of labels before the root (at most 127, so
the 8-bit counter has not wrapped; 0 for the root), and reports as name the last
label with each byte in 'A'..'Z' raised by 32 and every other byte unchanged
(the empty string for the root), so no byte of the key lies in 'A'..'Z';
`parse_question` stores these two values in `qlabels` and `qname`. -/
theorem c16_lookup_key (ls : List (List Byte)) (b : ReadBuffer) (name tl : List Byte)
    (hcur : b.current = wire_name ls ++ 0 :: tl)
    (hwf : ∀ l ∈ ls, 1 ≤ l.length ∧ l.length ≤ 63)
    (hlen : (wire_name ls).length ≤ 255) :
    ∃ in1 nm labs, parse_name b name = .ok (true, in1, nm, labs) ∧
      labs = ls.length ∧ ls.length ≤ 127 ∧
      nm.length = (ls.getLast?.getD []).length ∧
      (∀ i, i < nm.length →
        (nm.getD i 0).val =
          if 65 ≤ ((ls.getLast?.getD []).getD i 0).val ∧
              ((ls.getLast?.getD []).getD i 0).val ≤ 90
          then ((ls.getLast?.getD []).getD i 0).val + 32
          else ((ls.getLast?.getD []).getD i 0).val) ∧
      (∀ c ∈ nm, ¬ (65 ≤ c.val ∧ c.val ≤ 90)) ∧
      (ls = [] → labs = 0 ∧ nm = []) ∧
      (∀ (ctx : Context) (q0 q1 q2 q3 : Byte) (rest : List Byte),
        ctx.inb = b → tl = q0 :: q1 :: q2 :: q3 :: rest →
        ∃ ctx1, parse_question ctx = .ok ctx1 ∧ ctx1.qlabels = labs ∧ ctx1.qname = nm) := by
  refine ⟨_, _, _, parse_name_wire ls b name tl hcur hwf hlen, rfl, ?_, ?_, ?_, ?_, ?_, ?_⟩
  · have := two_mul_length_le_wire_name ls hwf
    omega
  · simp [strlower]
  · intro i hi
    have hi1 : i < (ls.getLast?.getD []).length := by simpa [strlower] using hi
    unfold strlower
    rw [List.getD_eq_getElem _ _ (by simpa using hi1), List.getD_eq_getElem _ _ hi1,
      List.getElem_map, tolower_val]
  · intro c hc
    unfold strlower at hc
    obtain ⟨x, _, rfl⟩ := List.mem_map.mp hc
    exact tolower_not_upper x
  · rintro rfl
    exact ⟨rfl, rfl⟩
  · intro ctx q0 q1 q2 q3 rest hb htl
    subst hb htl
    exact ⟨_, parse_question_wire ctx ls q0 q1 q2 q3 rest hcur hwf hlen, rfl, rfl⟩

/-- C16 at the name `www.ExAMple` followed by type A, class IN: two labels,
key `example`. -/
theorem c16_lookup_key_witness :
    mixed_case_buffer.current = wire_name mixed_case_labels ++ 0 :: [0, 1, 0, 1] ∧
    parse_name mixed_case_buffer [] =
      .ok (true, ⟨mixed_case_buffer.base, 13⟩, [101, 120, 97, 109, 112, 108, 101], 2) ∧
    ∃ in1 nm labs, parse_name mixed_case_buffer [] = .ok (true, in1, nm, labs) ∧
      labs = mixed_case_labels.length ∧ mixed_case_labels.length ≤ 127 ∧
      nm.length = (mixed_case_labels.getLast?.getD []).length ∧
      (∀ i, i < nm.length →
        (nm.getD i 0).val =
          if 65 ≤ ((mixed_case_labels.getLast?.getD []).getD i 0).val ∧
              ((mixed_case_labels.getLast?.getD []).getD i 0).val ≤ 90
          then ((mixed_case_labels.getLast?.getD []).getD i 0).val + 32
          else ((mixed_case_labels.getLast?.getD []).getD i 0).val) ∧
      (∀ c ∈ nm, ¬ (65 ≤ c.val ∧ c.val ≤ 90)) ∧
      (mixed_case_labels = [] → labs = 0 ∧ nm = []) ∧
      (∀ (ctx : Context) (q0 q1 q2 q3 : Byte) (rest : List Byte),
        ctx.inb = mixed_case_buffer → ([0, 1, 0, 1] : List Byte) = q0 :: q1 :: q2 :: q3 :: rest →
        ∃ ctx1, parse_question ctx = .ok ctx1 ∧ ctx1.qlabels = labs ∧ ctx1.qname = nm) :=
  ⟨rfl, rfl, c16_lookup_key mixed_case_labels mixed_case_buffer [] [0, 1, 0, 1]
    rfl (by decide) (by decide)⟩

/-! ## Trailing bytes -/

/-- The three steps of `parse_packet` when the question and the EDNS parse run. -/
theorem parse_packet_eq (ctx c1 c2 : Context)
    (hq : parse_question { ctx with rcode := LDNS_RCODE_NOERROR } = .ok c1)
    (hrc : c1.rcode = LDNS_RCODE_NOERROR) (he : parse_edns c1 = .ok c2) :
    parse_packet ctx = .ok (trailing_rule c2) := by
  unfold parse_packet
  simp only [bind, Except.bind, pure, Except.pure]
  rw [hq]
  simp only
  rw [if_neg (not_not.mpr hrc), he]
  simp only
  unfold trailing_rule
  split
  · rfl
  · split <;> rfl

/-- The response to a gated, valid QUERY packet in terms of what `parse_packet`
leaves. -/
theorem run_parsed (zone : Zone) (input : List Byte) (c : Context) (hgate : gate_ok input)
    (hok : header_counts_ok input) (hop : opcode_of input = 0)
    (hp : parse_packet (after_header input) = .ok c) :
    run zone input = .ok
      (if c.rcode = LDNS_RCODE_NOERROR then
        response_record (dnshdr.load (input.take 12))
          (perform_lookup zone c).1 (perform_lookup zone c).2
       else response_record (dnshdr.load (input.take 12)) c AnswerPtr.empty) := by
  have hep := execute_parse_eq zone input (gate_length input hgate)
  rw [if_neg (valid_of_counts input hok), if_neg (not_not.mpr hop), hp] at hep
  simp only at hep
  by_cases hrc : c.rcode = LDNS_RCODE_NOERROR
  · rw [if_pos hrc] at hep
    rw [if_pos hrc]
    have hqd := execute_parse_qdsize zone input _ _ _ (gate_length input hgate) hep
    apply run_of_parse zone input _ _ _ (legal_header_of_gate input hgate) hep
    unfold head_size
    omega
  · rw [if_neg hrc] at hep
    rw [if_neg hrc]
    have hqd := execute_parse_qdsize zone input _ _ _ (gate_length input hgate) hep
    apply run_of_parse zone input _ _ _ (legal_header_of_gate input hgate) hep
    unfold head_size
    omega

/-- C12: for a packet with a legal and valid header and opcode QUERY whose
question parse and EDNS parse both end with rcode NOERROR: if bytes remain
after the EDNS parse and the packet is longer than 46 bytes, the response has
rcode FORMERR, carries the empty answer and is the same for every zone (no
lookup); if no bytes remain or the packet is at most 46 bytes long, the rule
leaves NOERROR and the lookup decides between NOERROR and NXDOMAIN. -/
theorem c12_trailing_garbage (zone : Zone) (input : List Byte) (c1 c2 : Context)
    (hgate : gate_ok input) (hok : header_counts_ok input) (hop : opcode_of input = 0)
    (hq : parse_question (after_header input) = .ok c1)
    (hrc1 : c1.rcode = LDNS_RCODE_NOERROR)
    (he : parse_edns c1 = .ok c2) (hrc2 : c2.rcode = LDNS_RCODE_NOERROR) :
    (0 < c2.inb.available ∧ 46 < input.length →
      ∃ r, run zone input = .ok r ∧ r.ret = true ∧ r.ctx.rcode = LDNS_RCODE_FORMERR ∧
        be16 (first_segment r) 2 &&& 0x0f = 1 ∧ r.answer = AnswerPtr.empty ∧
        r.out = [first_segment r, []] ++
          (if c2.has_edns then [opt_bytes LDNS_RCODE_FORMERR c2.do_bit] else []) ∧
        ∀ zone1, run zone1 input = run zone input) ∧
    (c2.inb.available = 0 ∨ input.length ≤ 46 →
      (trailing_rule c2).rcode = LDNS_RCODE_NOERROR ∧
      ∃ r, run zone input = .ok r ∧ r.ret = true ∧
        r.ctx.rcode = (if (zone.lookup c2.qname).2 then LDNS_RCODE_NOERROR
                       else LDNS_RCODE_NXDOMAIN) ∧
        r.ctx.rcode ≠ LDNS_RCODE_FORMERR ∧
        r.answer = (perform_lookup zone c2).2) := by
  have hbase : c2.inb.size = input.length := by
    unfold ReadBuffer.size
    rw [(parse_edns_inv _ _ he).2.2.1, (parse_question_inv _ _ hq).2.2.2.2.1]
    rfl
  have hpp : parse_packet (after_header input) = .ok (trailing_rule c2) :=
    parse_packet_eq (after_header input) c1 c2 hq hrc1 he
  constructor
  · rintro ⟨hav, hsz⟩
    have htr : trailing_rule c2 = { c2 with rcode := LDNS_RCODE_FORMERR } := by
      unfold trailing_rule
      rw [if_neg (not_not.mpr hrc2), if_pos ⟨hav, by omega⟩]
    have hrun : ∀ z, run z input = .ok (response_record (dnshdr.load (input.take 12))
        { c2 with rcode := LDNS_RCODE_FORMERR } AnswerPtr.empty) := by
      intro z
      rw [run_parsed z input _ hgate hok hop hpp, htr]
      rfl
    have hw := first_segment_wire zone input _ (hrun zone) rfl
    refine ⟨_, hrun zone, rfl, rfl, ?_, rfl, ?_, ?_⟩
    · rw [hw.2.2.2.1, response_flags_rcode]
      exact (by decide : LDNS_RCODE_FORMERR &&& 0x0f = 1)
    · by_cases hed : c2.has_edns = true
      · rw [record_out_edns _ _ _ (show ({ c2 with rcode := LDNS_RCODE_FORMERR } :
          Context).has_edns = true from hed), if_pos hed]
        rfl
      · rw [record_out_plain _ _ _ (show ({ c2 with rcode := LDNS_RCODE_FORMERR } :
          Context).has_edns = false from by simpa using hed), if_neg hed]
        rfl
    · intro zone1
      rw [hrun zone1, hrun zone]
  · intro hor
    have htr : trailing_rule c2 = c2 := by
      unfold trailing_rule
      rw [if_neg (not_not.mpr hrc2), if_neg (by omega)]
    refine ⟨by rw [htr]; exact hrc2, ?_⟩
    have hrun := run_parsed zone input _ hgate hok hop hpp
    rw [htr, if_pos hrc2] at hrun
    refine ⟨_, hrun, rfl, rfl, ?_, rfl⟩
    show (if (zone.lookup c2.qname).2 then LDNS_RCODE_NOERROR
      else LDNS_RCODE_NXDOMAIN) ≠ LDNS_RCODE_FORMERR
    split <;> decide

/-- C12 at a 47-byte root query with an OPT RR and 19 trailing bytes (FORMERR,
the OPT RR still answered) and at the same query cut to 46 bytes (NOERROR, the
root SOA answer). -/
theorem c12_trailing_garbage_witness :
    (gate_ok garbage_input ∧ header_counts_ok garbage_input ∧ opcode_of garbage_input = 0 ∧
      garbage_input.length = 47 ∧
      (result_of demo_zone garbage_input).out =
        [[0, 6, 128, 1, 0, 1, 0, 0, 0, 0, 0, 1, 0, 0, 6, 0, 1], [],
          [0, 0, 41, 5, 200, 0, 0, 128, 0, 0, 0]] ∧
      ∃ r, run demo_zone garbage_input = .ok r ∧ r.ret = true ∧
        r.ctx.rcode = LDNS_RCODE_FORMERR ∧
        be16 (first_segment r) 2 &&& 0x0f = 1 ∧ r.answer = AnswerPtr.empty ∧
        r.out = [first_segment r, []] ++
          (if (opt_ctx garbage_input [] 0 6 4096 0 true LDNS_RCODE_NOERROR).has_edns
            then [opt_bytes LDNS_RCODE_FORMERR
              (opt_ctx garbage_input [] 0 6 4096 0 true LDNS_RCODE_NOERROR).do_bit]
            else []) ∧
        ∀ zone1, run zone1 garbage_input = run demo_zone garbage_input) ∧
    (gate_ok padded_opt_input ∧ header_counts_ok padded_opt_input ∧
      opcode_of padded_opt_input = 0 ∧ padded_opt_input.length = 46 ∧
      (result_of demo_zone padded_opt_input).out =
        [[0, 6, 132, 0, 0, 1, 0, 1, 0, 0, 0, 1, 0, 0, 6, 0, 1], [7],
          [0, 0, 41, 5, 200, 0, 0, 128, 0, 0, 0]] ∧
      (trailing_rule (opt_ctx padded_opt_input [] 0 6 4096 0 true LDNS_RCODE_NOERROR)).rcode =
        LDNS_RCODE_NOERROR ∧
      ∃ r, run demo_zone padded_opt_input = .ok r ∧ r.ret = true ∧
        r.ctx.rcode = (if (demo_zone.lookup
            (opt_ctx padded_opt_input [] 0 6 4096 0 true LDNS_RCODE_NOERROR).qname).2
          then LDNS_RCODE_NOERROR else LDNS_RCODE_NXDOMAIN) ∧
        r.ctx.rcode ≠ LDNS_RCODE_FORMERR ∧
        r.answer = (perform_lookup demo_zone
          (opt_ctx padded_opt_input [] 0 6 4096 0 true LDNS_RCODE_NOERROR)).2) :=
  ⟨⟨by decide, by decide, by decide, rfl, rfl,
     (c12_trailing_garbage demo_zone garbage_input
       (question_ctx garbage_input [] 0 6 LDNS_RCODE_NOERROR)
       (opt_ctx garbage_input [] 0 6 4096 0 true LDNS_RCODE_NOERROR)
       (by decide) (by decide) (by decide) rfl rfl rfl rfl).1 ⟨by decide, by decide⟩⟩,
   ⟨by decide, by decide, by decide, rfl, rfl,
     (c12_trailing_garbage demo_zone padded_opt_input
       (question_ctx padded_opt_input [] 0 6 LDNS_RCODE_NOERROR)
       (opt_ctx padded_opt_input [] 0 6 4096 0 true LDNS_RCODE_NOERROR)
       (by decide) (by decide) (by decide) rfl rfl rfl rfl).2 (Or.inr (by decide))⟩⟩

theorem getD_replicate_zero (n i : Nat) : (List.replicate n (0 : Byte)).getD i 0 = 0 := by
  rw [List.getD_eq_getElem?_getD, List.getElem?_replicate]
  split <;> rfl

/-- The EDNS parse on zero bytes behind a well-formed question: FORMERR. -/
theorem parse_edns_zero_padding (input : List Byte) (ls : List (List Byte))
    (a b c d : Byte) (n : Nat)
    (hq : input.drop 12 = wire_name ls ++ 0 :: a :: b :: c :: d :: List.replicate n 0)
    (hn : 1 ≤ n) :
    ∃ c2, parse_edns (question_ctx input ls a b LDNS_RCODE_NOERROR) = .ok c2 ∧
      c2.rcode = LDNS_RCODE_FORMERR ∧ c2.has_edns = false := by
  have hlenr := input_length_rest input ls a b c d _ hq
  rw [List.length_replicate] at hlenr
  have hav : (question_ctx input ls a b LDNS_RCODE_NOERROR).inb.available = n := hlenr
  rcases parse_edns_cases (question_ctx input ls a b LDNS_RCODE_NOERROR) with
    ⟨h0, _⟩ | ⟨_, _, h1⟩ | ⟨h11, h1⟩
  · omega
  · exact ⟨_, h1, rfl, rfl⟩
  · refine ⟨_, h1, ?_⟩
    have g0 : (input.getD (12 + (wire_name ls).length + 5) 0).val = 0 := by
      rw [← Nat.add_zero (12 + (wire_name ls).length + 5),
        input_getD_rest input ls a b c d _ hq 0]
      rw [getD_replicate_zero]
      rfl
    have w1 : be16 input (12 + (wire_name ls).length + 5 + 1) ≠ 41 := by
      rw [be16_input_rest input ls a b c d _ hq 1]
      unfold be16
      rw [getD_replicate_zero, getD_replicate_zero]
      decide
    unfold edns_result
    simp only [question_ctx, after_header]
    rw [if_neg (not_not.mpr g0), if_pos w1]
    exact ⟨rfl, rfl⟩

/-- C11: for a packet with a legal and valid header, opcode QUERY and a
well-formed question that `parse_question` accepts, followed by one or more
zero bytes of padding and nothing else, `execute` answers FORMERR with the
question echoed, the empty answer and no OPT RR, for every zone and whatever
the size of the packet. -/
theorem c11_padding_after_question (zone : Zone) (input : List Byte)
    (ls : List (List Byte)) (a b c d : Byte) (n : Nat) (hgate : gate_ok input)
    (hok : header_counts_ok input) (hop : opcode_of input = 0)
    (hq : input.drop 12 = wire_name ls ++ 0 :: a :: b :: c :: d :: List.replicate n 0)
    (hwf : ∀ l ∈ ls, 1 ≤ l.length ∧ l.length ≤ 63) (hlen : (wire_name ls).length ≤ 255)
    (hacc : ¬ question_rejected a b c d) (hn : 1 ≤ n) :
    ∃ r, run zone input = .ok r ∧ r.ret = true ∧ r.ctx.rcode = LDNS_RCODE_FORMERR ∧
      be16 (first_segment r) 2 &&& 0x0f = 1 ∧ be16 (first_segment r) 4 = 1 ∧
      r.answer = AnswerPtr.empty ∧ r.out = [first_segment r, []] := by
  obtain ⟨c2, hc2, hrc, hed⟩ := parse_edns_zero_padding input ls a b c d n hq hn
  obtain ⟨c3, hc3, hrun⟩ := run_accepted zone input ls a b c d _ hgate hok hop hq hwf hlen hacc
  have h23 : c3 = c2 := Except.ok.inj (hc3.symm.trans hc2)
  subst h23
  have htr : trailing_rule c3 = c3 := by
    unfold trailing_rule
    rw [if_pos (show c3.rcode ≠ LDNS_RCODE_NOERROR by rw [hrc]; decide)]
  rw [htr, if_neg (show ¬ c3.rcode = LDNS_RCODE_NOERROR by rw [hrc]; decide)] at hrun
  have hw := first_segment_wire zone input _ hrun rfl
  have hqd : c3.qdsize = (wire_name ls).length + 5 := by
    rw [(parse_edns_inv _ _ hc2).2.2.2.1]
    rfl
  refine ⟨_, hrun, rfl, hrc, ?_, ?_, rfl, ?_⟩
  · rw [hw.2.2.2.1, response_flags_rcode]
    show c3.rcode &&& 0x0f = 1
    rw [hrc]
    exact (by decide : LDNS_RCODE_FORMERR &&& 0x0f = 1)
  · rw [hw.2.2.2.2.1]
    exact if_pos (by show c3.qdsize ≠ 0; omega)
  · rw [record_out_plain _ _ _ hed]
    rfl

/-- C11 at the root `SOA IN` query: the 17-byte query is answered NOERROR with
the root SOA answer, the same query padded with zero bytes to 46 bytes is
answered FORMERR. -/
theorem c11_padding_after_question_witness :
    s1_input.length = 17 ∧ padded_input = s1_input ++ List.replicate 29 0 ∧
    padded_input.length = 46 ∧
    (result_of demo_zone s1_input).ctx.rcode = LDNS_RCODE_NOERROR ∧
    (result_of demo_zone s1_input).out =
      [[0, 1, 132, 0, 0, 1, 0, 1, 0, 0, 0, 0, 0, 0, 6, 0, 1], [7]] ∧
    (result_of demo_zone padded_input).out =
      [[0, 1, 128, 1, 0, 1, 0, 0, 0, 0, 0, 0, 0, 0, 6, 0, 1], []] ∧
    gate_ok padded_input ∧ header_counts_ok padded_input ∧ opcode_of padded_input = 0 ∧
    ∃ r, run demo_zone padded_input = .ok r ∧ r.ret = true ∧
      r.ctx.rcode = LDNS_RCODE_FORMERR ∧
      be16 (first_segment r) 2 &&& 0x0f = 1 ∧ be16 (first_segment r) 4 = 1 ∧
      r.answer = AnswerPtr.empty ∧ r.out = [first_segment r, []] :=
  ⟨rfl, rfl, rfl, rfl, rfl, rfl, by decide, by decide, by decide,
    c11_padding_after_question demo_zone padded_input [] 0 6 0 1 29
      (by decide) (by decide) (by decide) rfl (by decide) (by decide) (by decide) (by decide)⟩

/-! ## The EDNS parse rule -/

/-- The four outcomes of `parse_edns` on at least 11 bytes behind a well-formed
question, in terms of these bytes. -/
theorem edns_result_question (input : List Byte) (ls : List (List Byte))
    (a b c d : Byte) (rest : List Byte)
    (hq : input.drop 12 = wire_name ls ++ 0 :: a :: b :: c :: d :: rest) :
    ((rest.getD 0 0).val ≠ 0 →
      edns_result (question_ctx input ls a b LDNS_RCODE_NOERROR) =
        { question_ctx input ls a b LDNS_RCODE_NOERROR with
          inb := ⟨input, 12 + (wire_name ls).length + 5 + 1⟩,
          rcode := LDNS_RCODE_FORMERR }) ∧
    ((rest.getD 0 0).val = 0 → be16 rest 1 ≠ 41 →
      edns_result (question_ctx input ls a b LDNS_RCODE_NOERROR) =
        { question_ctx input ls a b LDNS_RCODE_NOERROR with
          inb := ⟨input, 12 + (wire_name ls).length + 5 + 3⟩,
          rcode := LDNS_RCODE_FORMERR }) ∧
    ((rest.getD 0 0).val = 0 → be16 rest 1 = 41 → rest.length - 11 < be16 rest 9 →
      edns_result (question_ctx input ls a b LDNS_RCODE_NOERROR) =
        { question_ctx input ls a b LDNS_RCODE_NOERROR with
          inb := ⟨input, 12 + (wire_name ls).length + 5 + 11⟩,
          bufsize := be16 rest 3,
          rcode := LDNS_RCODE_FORMERR }) ∧
    ((rest.getD 0 0).val = 0 → be16 rest 1 = 41 → ¬ rest.length - 11 < be16 rest 9 →
      edns_result (question_ctx input ls a b LDNS_RCODE_NOERROR) =
        opt_ctx input ls a b (be16 rest 3) (be16 rest 9)
          (decide (be16 rest 7 &&& 0x8000 ≠ 0))
          (if (rest.getD 6 0).val > 0 then 16 else LDNS_RCODE_NOERROR)) := by
  have hlenr := input_length_rest input ls a b c d _ hq
  have hl11 : input.length - (12 + (wire_name ls).length + 5 + 11) = rest.length - 11 := by
    omega
  have g0 : input.getD (12 + (wire_name ls).length + 5) 0 = rest.getD 0 0 := by
    rw [← Nat.add_zero (12 + (wire_name ls).length + 5)]
    exact input_getD_rest input ls a b c d _ hq 0
  have g6 := input_getD_rest input ls a b c d _ hq 6
  have w1 := be16_input_rest input ls a b c d _ hq 1
  have w3 := be16_input_rest input ls a b c d _ hq 3
  have w7 := be16_input_rest input ls a b c d _ hq 7
  have w9 := be16_input_rest input ls a b c d _ hq 9
  unfold edns_result opt_ctx
  simp only [question_ctx, after_header]
  rw [g0, w1, w9, hl11]
  refine ⟨?_, ?_, ?_, ?_⟩
  · intro h0
    rw [if_pos h0]
  · intro h0 h1
    rw [if_neg (not_not.mpr h0), if_pos h1]
  · intro h0 h1 h9
    rw [if_neg (not_not.mpr h0), if_neg (not_not.mpr h1), if_pos h9, w3]
  · intro h0 h1 h9
    rw [if_neg (not_not.mpr h0), if_neg (not_not.mpr h1), if_neg h9]
    simp only [w3, w7, g6]

/-- C18: for a packet with a legal and valid header, opcode QUERY and a
well-formed question that `parse_question` leaves at NOERROR, with the bytes
`rest` behind the question: `parse_edns` returns; if `rest` is empty nothing
changes (no OPT seen, rcode NOERROR); if it is not empty, the rcode becomes
FORMERR exactly when `rest` has fewer than 11 bytes, or its first byte is not
0, or its type field is not 41, or its rdlen exceeds the bytes behind the 11
fixed ones, and then no OPT is recorded, the response has no OPT segment and
its arcount is 0; otherwise an OPT is recorded, `do_bit` is bit 0x8000 of the
flags field, and exactly 11 + rdlen bytes are consumed. -/
theorem c18_edns_parse (zone : Zone) (input : List Byte) (ls : List (List Byte))
    (a b c d : Byte) (rest : List Byte) (hgate : gate_ok input)
    (hok : header_counts_ok input) (hop : opcode_of input = 0)
    (hq : input.drop 12 = wire_name ls ++ 0 :: a :: b :: c :: d :: rest)
    (hwf : ∀ l ∈ ls, 1 ≤ l.length ∧ l.length ≤ 63) (hlen : (wire_name ls).length ≤ 255)
    (hacc : ¬ question_rejected a b c d) :
    parse_question (after_header input) =
      .ok (question_ctx input ls a b LDNS_RCODE_NOERROR) ∧
    (question_ctx input ls a b LDNS_RCODE_NOERROR).inb.available = rest.length ∧
    (∃ c2, parse_edns (question_ctx input ls a b LDNS_RCODE_NOERROR) = .ok c2) ∧
    ∀ c2, parse_edns (question_ctx input ls a b LDNS_RCODE_NOERROR) = .ok c2 →
      (rest.length = 0 →
        c2 = question_ctx input ls a b LDNS_RCODE_NOERROR ∧ c2.has_edns = false ∧
        c2.rcode = LDNS_RCODE_NOERROR) ∧
      (0 < rest.length → (c2.rcode = LDNS_RCODE_FORMERR ↔ opt_malformed rest)) ∧
      (0 < rest.length → opt_malformed rest →
        c2.has_edns = false ∧
        ∃ r, run zone input = .ok r ∧ r.ret = true ∧ r.ctx.rcode = LDNS_RCODE_FORMERR ∧
          r.ctx.has_edns = false ∧ r.out = [first_segment r, []] ∧
          be16 (first_segment r) 10 = 0) ∧
      (¬ opt_malformed rest →
        c2.has_edns = true ∧ c2.do_bit = decide (be16 rest 7 &&& 0x8000 ≠ 0) ∧
        c2.inb = ⟨input, 12 + (wire_name ls).length + 5 + (11 + be16 rest 9)⟩ ∧
        11 + be16 rest 9 ≤ rest.length ∧ c2.rcode ≠ LDNS_RCODE_FORMERR) := by
  have hpq := parse_question_after_header input ls a b c d rest hq hwf hlen
  rw [if_neg hacc] at hpq
  have hav : (question_ctx input ls a b LDNS_RCODE_NOERROR).inb.available = rest.length :=
    input_length_rest input ls a b c d _ hq
  refine ⟨hpq, hav, parse_edns_total _, ?_⟩
  intro c2 hc2
  obtain ⟨e1, e2, e3, e4⟩ := edns_result_question input ls a b c d rest hq
  -- the record and what it implies for the response
  have hresp : c2.rcode = LDNS_RCODE_FORMERR → c2.has_edns = false →
      ∃ r, run zone input = .ok r ∧ r.ret = true ∧ r.ctx.rcode = LDNS_RCODE_FORMERR ∧
        r.ctx.has_edns = false ∧ r.out = [first_segment r, []] ∧
        be16 (first_segment r) 10 = 0 := by
    intro hrc hed
    obtain ⟨c3, hc3, hrun⟩ :=
      run_accepted zone input ls a b c d _ hgate hok hop hq hwf hlen hacc
    have h23 : c3 = c2 := Except.ok.inj (hc3.symm.trans hc2)
    subst h23
    have htr : trailing_rule c3 = c3 := by
      unfold trailing_rule
      rw [if_pos (show c3.rcode ≠ LDNS_RCODE_NOERROR by rw [hrc]; decide)]
    rw [htr, if_neg (show ¬ c3.rcode = LDNS_RCODE_NOERROR by rw [hrc]; decide)] at hrun
    have hw := first_segment_wire zone input _ hrun rfl
    refine ⟨_, hrun, rfl, hrc, hed, ?_, ?_⟩
    · rw [record_out_plain _ _ _ hed]
      rfl
    · rw [hw.2.2.2.2.2.2.2.1]
      show (0 + if c3.has_edns = true then 1 else 0) % 65536 = 0
      rw [hed]
      rfl
  rcases parse_edns_cases (question_ctx input ls a b LDNS_RCODE_NOERROR) with
    ⟨h0, h1⟩ | ⟨hpos, h11, h1⟩ | ⟨h11, h1⟩
  · have hc := Except.ok.inj (hc2.symm.trans h1)
    subst hc
    refine ⟨fun _ => ⟨rfl, rfl, rfl⟩, fun h => ?_, fun h => ?_, fun h => ?_⟩
    · omega
    · omega
    · exfalso
      exact h (Or.inl (by omega))
  · have hc := Except.ok.inj (hc2.symm.trans h1)
    subst hc
    have hm : opt_malformed rest := Or.inl (by omega)
    refine ⟨fun h => ?_, fun _ => ⟨fun _ => hm, fun _ => rfl⟩,
      fun _ _ => ⟨rfl, hresp rfl rfl⟩, fun h => absurd hm h⟩
    omega
  · have hc := Except.ok.inj (hc2.symm.trans h1)
    subst hc
    have hr11 : 11 ≤ rest.length := by omega
    by_cases g0 : (rest.getD 0 0).val = 0
    · by_cases g1 : be16 rest 1 = 41
      · by_cases g9 : rest.length - 11 < be16 rest 9
        · have hm : opt_malformed rest := Or.inr (Or.inr (Or.inr g9))
          rw [e3 g0 g1 g9] at hresp ⊢
          refine ⟨fun h => ?_, fun _ => ⟨fun _ => hm, fun _ => rfl⟩,
            fun _ _ => ⟨rfl, hresp rfl rfl⟩, fun h => absurd hm h⟩
          omega
        · have hm : ¬ opt_malformed rest := by
            unfold opt_malformed
            rintro (h | h | h | h)
            · omega
            · exact h g0
            · exact h g1
            · exact g9 h
          have hnf : (if (rest.getD 6 0).val > 0 then 16 else LDNS_RCODE_NOERROR) ≠
              LDNS_RCODE_FORMERR := by
            split <;> decide
          rw [e4 g0 g1 g9]
          refine ⟨fun h => ?_, fun _ => ⟨fun h => absurd h hnf, fun h => absurd h hm⟩,
            fun _ h => absurd h hm, fun _ => ⟨rfl, rfl, ?_, by omega, hnf⟩⟩
          · omega
          · show (⟨input, 12 + (wire_name ls).length + 5 + 11 + be16 rest 9⟩ : ReadBuffer) = _
            rw [Nat.add_assoc _ 11]
      · have hm : opt_malformed rest := Or.inr (Or.inr (Or.inl g1))
        rw [e2 g0 g1] at hresp ⊢
        refine ⟨fun h => ?_, fun _ => ⟨fun _ => hm, fun _ => rfl⟩,
          fun _ _ => ⟨rfl, hresp rfl rfl⟩, fun h => absurd hm h⟩
        omega
    · have hm : opt_malformed rest := Or.inr (Or.inl g0)
      rw [e1 g0] at hresp ⊢
      refine ⟨fun h => ?_, fun _ => ⟨fun _ => hm, fun _ => rfl⟩,
        fun _ _ => ⟨rfl, hresp rfl rfl⟩, fun h => absurd hm h⟩
      omega

/-- C18 at a root query followed by a valid OPT RR with DO set (recorded, 11
bytes consumed) and at the same query with type 42 in place of 41 (FORMERR, no
OPT segment, arcount 0). -/
theorem c18_edns_parse_witness :
    (gate_ok edns_input ∧ header_counts_ok edns_input ∧ opcode_of edns_input = 0 ∧
      ¬ opt_malformed [0, 0, 41, 16, 0, 0, 0, 128, 0, 0, 0] ∧
      parse_edns (question_ctx edns_input [] 0 6 LDNS_RCODE_NOERROR) =
        .ok (opt_ctx edns_input [] 0 6 4096 0 true LDNS_RCODE_NOERROR) ∧
      ((opt_ctx edns_input [] 0 6 4096 0 true LDNS_RCODE_NOERROR).has_edns = true ∧
        (opt_ctx edns_input [] 0 6 4096 0 true LDNS_RCODE_NOERROR).do_bit =
          decide (be16 [0, 0, 41, 16, 0, 0, 0, 128, 0, 0, 0] 7 &&& 0x8000 ≠ 0) ∧
        (opt_ctx edns_input [] 0 6 4096 0 true LDNS_RCODE_NOERROR).inb =
          ⟨edns_input, 12 + (wire_name []).length + 5 +
            (11 + be16 [0, 0, 41, 16, 0, 0, 0, 128, 0, 0, 0] 9)⟩ ∧
        11 + be16 [0, 0, 41, 16, 0, 0, 0, 128, 0, 0, 0] 9 ≤
          ([0, 0, 41, 16, 0, 0, 0, 128, 0, 0, 0] : List Byte).length ∧
        (opt_ctx edns_input [] 0 6 4096 0 true LDNS_RCODE_NOERROR).rcode ≠
          LDNS_RCODE_FORMERR)) ∧
    (gate_ok bad_opt_input ∧ header_counts_ok bad_opt_input ∧ opcode_of bad_opt_input = 0 ∧
      opt_malformed [0, 0, 42, 16, 0, 0, 0, 128, 0, 0, 0] ∧
      (result_of demo_zone bad_opt_input).out =
        [[0, 6, 128, 1, 0, 1, 0, 0, 0, 0, 0, 0, 0, 0, 6, 0, 1], []] ∧
      (({ question_ctx bad_opt_input [] 0 6 LDNS_RCODE_NOERROR with
          inb := ⟨bad_opt_input, 20⟩, rcode := LDNS_RCODE_FORMERR } : Context).has_edns =
          false ∧
        ∃ r, run demo_zone bad_opt_input = .ok r ∧ r.ret = true ∧
          r.ctx.rcode = LDNS_RCODE_FORMERR ∧
          r.ctx.has_edns = false ∧ r.out = [first_segment r, []] ∧
          be16 (first_segment r) 10 = 0)) :=
  ⟨⟨by decide, by decide, by decide, by decide, rfl,
     ((c18_edns_parse demo_zone edns_input [] 0 6 0 1 [0, 0, 41, 16, 0, 0, 0, 128, 0, 0, 0]
       (by decide) (by decide) (by decide) rfl (by decide) (by decide) (by decide)).2.2.2
       (opt_ctx edns_input [] 0 6 4096 0 true LDNS_RCODE_NOERROR) rfl).2.2.2 (by decide)⟩,
   ⟨by decide, by decide, by decide, by decide, rfl,
     ((c18_edns_parse demo_zone bad_opt_input [] 0 6 0 1 [0, 0, 42, 16, 0, 0, 0, 128, 0, 0, 0]
       (by decide) (by decide) (by decide) rfl (by decide) (by decide) (by decide)).2.2.2
       { question_ctx bad_opt_input [] 0 6 LDNS_RCODE_NOERROR with
         inb := ⟨bad_opt_input, 20⟩, rcode := LDNS_RCODE_FORMERR } rfl).2.2.1
       (by decide) (by decide)⟩⟩

/-! ## Output reservations -/

/-- The response path on scratch buffers of any capacity that holds 12 bytes
and the question, and 11 bytes for the OPT RR. -/
theorem execute_respond_sized (rx : dnshdr) (ctx : Context) (ans : AnswerPtr) (hs es : Nat)
    (hh : ctx.head = ⟨hs, []⟩) (he : ctx.edns = ⟨es, []⟩)
    (hq : 12 + ctx.qdsize ≤ hs) (h11 : 11 ≤ es) :
    ∃ r, execute_respond [] rx ctx ans = .ok r ∧ r.ret = true ∧
      r.ctx.head = ⟨hs, (response_header rx ctx ans).store ++
        (ctx.inb.base.drop ctx.qdstart).take ctx.qdsize⟩ ∧
      r.ctx.edns.size = es ∧
      r.ctx.edns.data.length = (if ctx.has_edns then 11 else 0) ∧
      r.out.length = (if ctx.has_edns then 3 else 2) := by
  have h12 : (WriteBuffer.mk hs []).data.length + 12 ≤ (WriteBuffer.mk hs []).size := by
    simp only [List.length_nil]
    omega
  have hqd : (([] : List Byte) ++ (response_header rx ctx ans).store).length + ctx.qdsize ≤
      hs := by
    rw [List.nil_append, dnshdr_store_length]
    exact hq
  have he11 : ∀ fill, (WriteBuffer.mk es []).reserve 11 fill = .ok ⟨es, fill⟩ := by
    intro fill
    rw [reserve_ok _ 11 _ (by simp only [List.length_nil]; omega)]
    rfl
  unfold execute_respond
  rw [hh, he, reserve_ok _ 12 _ h12]
  simp only [bind, Except.bind, pure, Except.pure]
  rw [reserve_ok _ _ _ hqd]
  simp only [List.nil_append]
  by_cases hed : ctx.has_edns = true
  · rw [if_pos hed, he11, if_pos hed, if_pos hed]
    refine ⟨_, rfl, rfl, rfl, rfl, ?_, ?_⟩
    · exact edns_opt_rr_store_length _
    · cases ans <;> rfl
  · rw [if_neg hed, if_neg hed, if_neg hed]
    refine ⟨_, rfl, rfl, rfl, rfl, rfl, ?_⟩
    cases ans <;> rfl

/-- The question copy range of a parsed packet lies inside the input. -/
theorem question_take_length (zone : Zone) (input : List Byte) (rx : dnshdr) (ctx : Context)
    (ans : AnswerPtr) (hlen : 12 ≤ input.length)
    (hp : execute_parse zone (Context.fresh ⟨input, 0⟩) = .ok (rx, ctx, ans)) :
    ((ctx.inb.base.drop ctx.qdstart).take ctx.qdsize).length = ctx.qdsize := by
  obtain ⟨_, _, _, hbase, hqd⟩ := execute_parse_inv zone input rx ctx ans hlen hp
  rw [List.length_take, List.length_drop, hbase]
  rcases hqd with h0 | ⟨h1, h2, _⟩
  · rw [h0]
    exact Nat.zero_min _
  · rw [h1]
    omega

/-- C17: for every input, the question size that `execute` copies is at most
260, so on a header scratch buffer of any capacity from 272 bytes up (532 as
the spec sizes it, 512 in the benchmark harness) and an OPT scratch buffer of
at least 11 bytes both reservations of the response path succeed; the first
segment is 12 + qdsize bytes, at most 272; the OPT scratch buffer ends up
holding exactly 11 bytes when an OPT was seen and nothing otherwise, and the
output has one OPT segment at most. A fault can only come from the name
parse, never from a reservation. -/
theorem c17_reservations (zone : Zone) (input : List Byte) :
    (∀ rx ctx ans, 12 ≤ input.length →
      execute_parse zone (Context.fresh ⟨input, 0⟩) = .ok (rx, ctx, ans) →
      ctx.qdsize ≤ 260 ∧ ctx.head = ⟨head_size, []⟩ ∧ ctx.edns = ⟨edns_size, []⟩ ∧
      ∀ hs es, 272 ≤ hs → 11 ≤ es →
        ∃ r, execute_respond [] rx { ctx with head := ⟨hs, []⟩, edns := ⟨es, []⟩ } ans =
            .ok r ∧ r.ret = true ∧
          r.ctx.head.size = hs ∧ r.ctx.head.data.length = 12 + ctx.qdsize ∧
          r.ctx.head.data.length ≤ 272 ∧
          r.ctx.edns.size = es ∧
          r.ctx.edns.data.length = (if ctx.has_edns then 11 else 0) ∧
          r.out.length = (if ctx.has_edns then 3 else 2)) ∧
    (∀ r, run zone input = .ok r → r.ret = true →
      r.ctx.qdsize ≤ 260 ∧ (first_segment r).length = 12 + r.ctx.qdsize ∧
      (first_segment r).length ≤ 272 ∧ r.ctx.head = ⟨head_size, first_segment r⟩ ∧
      r.ctx.edns.size = edns_size ∧
      r.ctx.edns.data.length = (if r.ctx.has_edns then 11 else 0) ∧
      r.out.length = (if r.ctx.has_edns then 3 else 2)) ∧
    (∀ e, run zone input = .error e → parse_name ⟨input, 12⟩ [] = .error e) ∧
    272 ≤ 512 ∧ 512 ≤ head_size ∧ 11 ≤ edns_size := by
  refine ⟨?_, ?_, ?_, by omega, by unfold head_size; omega, by unfold edns_size; omega⟩
  · intro rx ctx ans hlen hp
    have hqd := execute_parse_qdsize zone input rx ctx ans hlen hp
    have hinv := execute_parse_inv zone input rx ctx ans hlen hp
    have htl := question_take_length zone input rx ctx ans hlen hp
    refine ⟨hqd, hinv.2.1, hinv.2.2.1, ?_⟩
    intro hs es hhs hes
    obtain ⟨r, hr, hret, hhead, hes1, hed, hout⟩ := execute_respond_sized rx
      { ctx with head := ⟨hs, []⟩, edns := ⟨es, []⟩ } ans hs es rfl rfl
      (by show 12 + ctx.qdsize ≤ hs; omega) hes
    have hlen1 : r.ctx.head.data.length = 12 + ctx.qdsize := by
      rw [hhead]
      show ((response_header rx _ ans).store ++
        (ctx.inb.base.drop ctx.qdstart).take ctx.qdsize).length = _
      rw [List.length_append, dnshdr_store_length, htl]
    refine ⟨r, hr, hret, by rw [hhead], hlen1, by omega, hes1, hed, hout⟩
  · intro r hrun hret
    obtain ⟨rx, ctx, ans, hl, hp, hq, rfl⟩ := run_responded zone input r hrun hret
    have hlen : 12 ≤ input.length := by
      have := legal_header_length _ hl
      simp only at this
      omega
    have hqd := execute_parse_qdsize zone input rx ctx ans hlen hp
    have htl := question_take_length zone input rx ctx ans hlen hp
    have hseg : (first_segment (response_record rx ctx ans)).length = 12 + ctx.qdsize := by
      rw [first_segment_record, List.length_append, dnshdr_store_length, htl]
    refine ⟨hqd, hseg, ?_, rfl, ?_, ?_, ?_⟩
    · have := hseg
      change (first_segment (response_record rx ctx ans)).length ≤ 272
      omega
    · show (if ctx.has_edns = true then (⟨edns_size, (response_opt ctx).store⟩ : WriteBuffer)
        else ⟨edns_size, []⟩).size = edns_size
      split <;> rfl
    · show (if ctx.has_edns = true then (⟨edns_size, (response_opt ctx).store⟩ : WriteBuffer)
        else ⟨edns_size, []⟩).data.length = if ctx.has_edns = true then 11 else 0
      split <;> rfl
    · show ([_, _] ++ (if ctx.has_edns = true then [(response_opt ctx).store] else [])).length =
        if ctx.has_edns = true then 3 else 2
      split <;> rfl
  · intro e he
    exact (run_fault_name zone input e he).2.2

set_option maxRecDepth 100000 in
/-- C17 at the query whose name has 255 bytes of labels (question size 260,
first segment 272 bytes) and at the root query with an OPT RR (three segments,
11 bytes in the OPT scratch buffer). -/
theorem c17_reservations_witness :
    ((result_of demo_zone edge_input).ctx.qdsize = 260 ∧
      (first_segment (result_of demo_zone edge_input)).length = 272 ∧
      (result_of demo_zone edge_input).ctx.qdsize ≤ 260 ∧
      (first_segment (result_of demo_zone edge_input)).length =
        12 + (result_of demo_zone edge_input).ctx.qdsize ∧
      (first_segment (result_of demo_zone edge_input)).length ≤ 272 ∧
      (result_of demo_zone edge_input).ctx.head =
        ⟨head_size, first_segment (result_of demo_zone edge_input)⟩ ∧
      (result_of demo_zone edge_input).ctx.edns.size = edns_size ∧
      (result_of demo_zone edge_input).ctx.edns.data.length =
        (if (result_of demo_zone edge_input).ctx.has_edns then 11 else 0) ∧
      (result_of demo_zone edge_input).out.length =
        (if (result_of demo_zone edge_input).ctx.has_edns then 3 else 2)) ∧
    ((result_of demo_zone edns_input).ctx.has_edns = true ∧
      (result_of demo_zone edns_input).ctx.qdsize ≤ 260 ∧
      (first_segment (result_of demo_zone edns_input)).length =
        12 + (result_of demo_zone edns_input).ctx.qdsize ∧
      (first_segment (result_of demo_zone edns_input)).length ≤ 272 ∧
      (result_of demo_zone edns_input).ctx.head =
        ⟨head_size, first_segment (result_of demo_zone edns_input)⟩ ∧
      (result_of demo_zone edns_input).ctx.edns.size = edns_size ∧
      (result_of demo_zone edns_input).ctx.edns.data.length =
        (if (result_of demo_zone edns_input).ctx.has_edns then 11 else 0) ∧
      (result_of demo_zone edns_input).out.length =
        (if (result_of demo_zone edns_input).ctx.has_edns then 3 else 2)) :=
  ⟨⟨by decide, by decide,
     (c17_reservations demo_zone edge_input).2.1 (result_of demo_zone edge_input) rfl rfl⟩,
   ⟨rfl, (c17_reservations demo_zone edns_input).2.1 (result_of demo_zone edns_input) rfl rfl⟩⟩

/-! ## Bounds of the buffer accesses -/

theorem getLast_length_lt_wire_name (ls : List (List Byte)) (l : List Byte)
    (h : ls.getLast? = some l) : l.length + 1 ≤ (wire_name ls).length := by
  induction ls with
  | nil => simp at h
  | cons l1 ls ih =>
    cases ls with
    | nil =>
      simp at h
      subst h
      simp [wire_name]
    | cons l2 ls2 =>
      rw [List.getLast?_cons_cons] at h
      have := ih h
      rw [wire_name_length_cons]
      omega

/-- The slice that `parse_name` hands to `strlower`: with at least one byte to
read, `position - last - 1` does not underflow, is at most 63, and the slice
ends inside the buffer. -/
theorem parse_name_slice (b in1 : ReadBuffer) (last labs : Nat)
    (hav : 0 < b.available)
    (h : parse_name_loop (b.available + 1) b 0 b.position 0 = .ok (.finished in1 last labs)) :
    b.position ≤ last ∧ last + 1 ≤ in1.position ∧ in1.position - last - 1 ≤ 63 ∧
    in1.position ≤ in1.base.length ∧ in1.base = b.base ∧
    (in1.position + 2 ^ 64 - last - 1) % 2 ^ 64 = in1.position - last - 1 ∧
    last + (in1.position - last - 1) ≤ in1.base.length := by
  obtain ⟨ls, hwf, hlen, _, hlast, hbase, hshape⟩ :=
    parse_name_loop_finished _ _ _ _ _ _ _ _ h (by norm_num) (by norm_num)
  have hcl := current_length b
  have hpos : b.position < b.base.length := by
    unfold ReadBuffer.available ReadBuffer.size at hav
    omega
  have hsz : b.available = b.base.length - b.position := rfl
  have key : b.position ≤ last ∧ last + 1 ≤ in1.position ∧ in1.position - last - 1 ≤ 63 ∧
      in1.position ≤ in1.base.length := by
    rw [hbase]
    unfold last_start at hlast
    cases hg : ls.getLast? with
    | none =>
      rw [hg] at hlast
      simp only at hlast
      have hnil : ls = [] := List.getLast?_eq_none_iff.mp hg
      subst hnil
      simp only [wire_name, List.length_nil, List.nil_append, Nat.add_zero] at hshape
      rcases hshape with ⟨h1, h2⟩ | ⟨h1, _, _⟩
      · omega
      · rw [h1] at hcl
        simp at hcl
        omega
    | some l =>
      rw [hg] at hlast
      simp only at hlast
      have hl := hwf l (List.mem_of_getLast?_eq_some hg)
      have hw := getLast_length_lt_wire_name ls l hg
      rcases hshape with ⟨h1, h2⟩ | ⟨h1, _, h2⟩
      · rw [h1] at hcl
        simp only [List.length_append, List.length_cons] at hcl
        omega
      · rw [h1] at hcl
        omega
  refine ⟨key.1, key.2.1, key.2.2.1, key.2.2.2, hbase, ?_, ?_⟩
  · have e1 : in1.position + 2 ^ 64 - last - 1 = (in1.position - last - 1) + 2 ^ 64 := by
      omega
    rw [e1, Nat.add_mod_right]
    exact Nat.mod_eq_of_lt (by omega)
  · omega

theorem parse_edns_position (ctx c : Context) (h : parse_edns ctx = .ok c)
    (hpos : ctx.inb.position ≤ ctx.inb.base.length) :
    ctx.inb.position ≤ c.inb.position ∧ c.inb.position ≤ c.inb.base.length ∧
    c.inb.base = ctx.inb.base := by
  rcases parse_edns_cases ctx with ⟨_, h1⟩ | ⟨_, _, h1⟩ | ⟨h11, h1⟩
  · rw [h1] at h; cases h
    exact ⟨Nat.le_refl _, hpos, rfl⟩
  · rw [h1] at h; cases h
    exact ⟨Nat.le_refl _, hpos, rfl⟩
  · rw [h1] at h; cases h
    unfold ReadBuffer.available ReadBuffer.size at h11
    unfold edns_result
    simp only
    split
    · exact ⟨by simp only; omega, by simp only; omega, rfl⟩
    · split
      · exact ⟨by simp only; omega, by simp only; omega, rfl⟩
      · split
        · exact ⟨by simp only; omega, by simp only; omega, rfl⟩
        · exact ⟨by simp only; omega, by simp only; omega, rfl⟩

theorem execute_parse_qdstart (zone : Zone) (input : List Byte) (rx : dnshdr) (ctx : Context)
    (ans : AnswerPtr) (hlen : 12 ≤ input.length)
    (hp : execute_parse zone (Context.fresh ⟨input, 0⟩) = .ok (rx, ctx, ans)) :
    ctx.qdstart = 0 ∨ ctx.qdstart = 12 := by
  rw [execute_parse_eq zone input hlen] at hp
  split at hp
  · cases hp
    exact Or.inl rfl
  · split at hp
    · cases hp
      exact Or.inl rfl
    · split at hp
      · cases hp
      · next c2 hpp =>
        have hinv := parse_packet_inv _ _ hpp
        split at hp
        · cases hp
          exact Or.inr hinv.2.2.2.1
        · cases hp
          exact Or.inr hinv.2.2.2.1

/-- C19: for every packet that passes the legal-header gate: the 12-byte
header read succeeds and leaves at least 5 bytes; if a fault leaves `execute`
it is the label-body read of `parse_name`, on a length byte between 1 and 63
that announces more bytes than remain; `parse_question` faults only where
`parse_name` does (its 4-byte read is guarded) and `parse_edns` never faults
and never moves past the end of the buffer; the slice `parse_name` takes for
the name starts at or after the name, its length `position - last - 1` does
not underflow, and it ends inside the input; and in every response the
question copy range `[qdstart, qdstart + qdsize)` lies inside the input. -/
theorem c19_bounds (zone : Zone) (input : List Byte) (hgate : gate_ok input) :
    ReadBuffer.read_dnshdr ⟨input, 0⟩ = .ok (dnshdr.load (input.take 12), ⟨input, 12⟩) ∧
    5 ≤ ReadBuffer.available ⟨input, 12⟩ ∧
    (∀ e, run zone input = .error e →
      e = .out_of_range ∧
      ∃ (ls : List (List Byte)) (c : Byte) (body : List Byte),
        (∀ l ∈ ls, 1 ≤ l.length ∧ l.length ≤ 63) ∧
        input.drop 12 = wire_name ls ++ c :: body ∧
        1 ≤ c.val ∧ c.val ≤ 63 ∧ body.length < c.val) ∧
    (∀ (ctx : Context) (e : Fault), parse_question ctx = .error e →
      parse_name ctx.inb ctx.qname = .error e) ∧
    (∀ ctx : Context, ctx.inb.position ≤ ctx.inb.base.length →
      ∃ c1, parse_edns ctx = .ok c1 ∧ ctx.inb.position ≤ c1.inb.position ∧
        c1.inb.position ≤ c1.inb.base.length ∧ c1.inb.base = ctx.inb.base) ∧
    (∀ (in1 : ReadBuffer) (last labs : Nat),
      parse_name_loop (ReadBuffer.available ⟨input, 12⟩ + 1) ⟨input, 12⟩ 0 12 0 =
        .ok (.finished in1 last labs) →
      12 ≤ last ∧ last + 1 ≤ in1.position ∧ in1.position - last - 1 ≤ 63 ∧
      (in1.position + 2 ^ 64 - last - 1) % 2 ^ 64 = in1.position - last - 1 ∧
      last + (in1.position - last - 1) ≤ input.length) ∧
    (∀ r, run zone input = .ok r → r.ret = true →
      r.ctx.inb.base = input ∧ r.ctx.qdstart + r.ctx.qdsize ≤ input.length) := by
  have hlen : 12 ≤ input.length := gate_length input hgate
  have h17 := hgate.1
  have hav : 5 ≤ ReadBuffer.available ⟨input, 12⟩ := by
    show 5 ≤ input.length - 12
    omega
  refine ⟨?_, hav, ?_, parse_question_error_name, ?_, ?_, ?_⟩
  · rw [read_dnshdr_ok _ (by simpa using hlen)]
    simp
  · intro e he
    obtain ⟨_, _, hn⟩ := run_fault_name zone input e he
    obtain ⟨h1, ls, c, body, hwf, hcur, hc1, hc2, _, hshort⟩ :=
      parse_name_error_shape _ _ _ hn
    exact ⟨h1, ls, c, body, hwf, hcur, hc1, hc2, hshort⟩
  · intro ctx hpos
    obtain ⟨c1, hc1⟩ := parse_edns_total ctx
    exact ⟨c1, hc1, parse_edns_position ctx c1 hc1 hpos⟩
  · intro in1 last labs h
    obtain ⟨h1, h2, h3, h4, h5, h6, h7⟩ :=
      parse_name_slice ⟨input, 12⟩ in1 last labs (by omega) h
    rw [h5] at h7
    exact ⟨h1, h2, h3, h6, h7⟩
  · intro r hrun hret
    obtain ⟨rx, ctx, ans, hl, hp, hq, rfl⟩ := run_responded zone input r hrun hret
    obtain ⟨_, _, _, hbase, hqd⟩ := execute_parse_inv zone input rx ctx ans hlen hp
    have hqs := execute_parse_qdstart zone input rx ctx ans hlen hp
    refine ⟨hbase, ?_⟩
    show ctx.qdstart + ctx.qdsize ≤ input.length
    rcases hqd with h0 | ⟨h1, h2, _⟩
    · rcases hqs with h | h <;> omega
    · omega

/-- C19 at the `com A CH` query (header read, at least 5 bytes left, question
copy range inside the 21 bytes) and at the 17-byte packet whose first label
announces 5 bytes where 4 remain (the one fault is that label-body read). -/
theorem c19_bounds_witness :
    (gate_ok ch_input ∧
      ReadBuffer.read_dnshdr ⟨ch_input, 0⟩ =
        .ok (dnshdr.load (ch_input.take 12), ⟨ch_input, 12⟩) ∧
      5 ≤ ReadBuffer.available ⟨ch_input, 12⟩ ∧
      (result_of demo_zone ch_input).ctx.inb.base = ch_input ∧
      (result_of demo_zone ch_input).ctx.qdstart + (result_of demo_zone ch_input).ctx.qdsize ≤
        ch_input.length) ∧
    (gate_ok overrun_input ∧ run demo_zone overrun_input = .error .out_of_range ∧
      Fault.out_of_range = .out_of_range ∧
      ∃ (ls : List (List Byte)) (c : Byte) (body : List Byte),
        (∀ l ∈ ls, 1 ≤ l.length ∧ l.length ≤ 63) ∧
        overrun_input.drop 12 = wire_name ls ++ c :: body ∧
        1 ≤ c.val ∧ c.val ≤ 63 ∧ body.length < c.val) :=
  ⟨⟨by decide, (c19_bounds demo_zone ch_input (by decide)).1,
     (c19_bounds demo_zone ch_input (by decide)).2.1,
     (c19_bounds demo_zone ch_input (by decide)).2.2.2.2.2.2
       (result_of demo_zone ch_input) rfl rfl⟩,
   ⟨by decide, rfl,
     (c19_bounds demo_zone overrun_input (by decide)).2.2.1 .out_of_range rfl⟩⟩

/-! ## Properties of the Internet checksum -/

theorem add_append (a b : List Byte) : ∀ s : Checksum, (s.add a).add b = s.add (a ++ b) := by
  induction a with
  | nil => intro s; rfl
  | cons c a ih =>
    intro s
    exact ih (s.add_byte c)

theorem add_chunks (chunks : List (List Byte)) :
    ∀ s : Checksum, chunks.foldl Checksum.add s = s.add chunks.flatten := by
  induction chunks with
  | nil => intro s; rfl
  | cons a chunks ih =>
    intro s
    rw [List.foldl_cons, ih, List.flatten_cons, add_append]

theorem add_sum (p : List Byte) :
    ∀ s : Checksum, s.sum < 2 ^ 32 →
      (s.add p).sum = (s.sum + word_sum s.odd p) % 2 ^ 32 ∧
      (s.add p).odd = xor s.odd (decide (p.length % 2 = 1)) := by
  induction p with
  | nil =>
    intro s hs
    exact ⟨(Nat.mod_eq_of_lt (by simpa [word_sum] using hs)).symm, by simp [Checksum.add]⟩
  | cons c p ih =>
    intro s hs
    have hb : (s.add_byte c).sum < 2 ^ 32 := by
      unfold Checksum.add_byte
      simp only
      split <;> exact Nat.mod_lt _ (by norm_num)
    obtain ⟨h1, h2⟩ := ih (s.add_byte c) hb
    have hodd : (s.add_byte c).odd = !s.odd := rfl
    constructor
    · show ((s.add_byte c).add p).sum = _
      have hw : word_sum s.odd (c :: p) =
          (if s.odd then c.val else c.val * 256) + word_sum (!s.odd) p := rfl
      have hsum : (s.add_byte c).sum =
          (s.sum + (if s.odd then c.val else c.val * 256)) % 2 ^ 32 := by
        unfold Checksum.add_byte
        simp only [Nat.shiftLeft_eq]
        cases s.odd <;> rfl
      rw [h1, hodd, hw, hsum]
      generalize word_sum (!s.odd) p = x
      generalize (if s.odd = true then c.val else c.val * 256) = v
      omega
    · show ((s.add_byte c).add p).odd = _
      rw [h2, hodd, List.length_cons]
      rcases Nat.mod_two_eq_zero_or_one p.length with hp | hp
      · have hp1 : (p.length + 1) % 2 = 1 := by omega
        simp [hp, hp1]
      · have hp0 : (p.length + 1) % 2 = 0 := by omega
        simp [hp, hp0]

theorem word_sum_even : ∀ (n : Nat) (p : List Byte), p.length ≤ n →
    word_sum false p = be_word_sum p := by
  intro n
  induction n using Nat.strong_induction_on with
  | _ n ih =>
    intro p hp
    match p, hp with
    | [], _ => rfl
    | [a], _ => simp [word_sum, be_word_sum]
    | a :: b :: rest, hp =>
      simp only [List.length_cons] at hp
      have := ih rest.length (by omega) rest (Nat.le_refl _)
      simp only [word_sum, be_word_sum, Bool.not_false, Bool.not_true, if_true,
        Bool.false_eq_true, if_false, this]
      omega

theorem htons_bytes (n : Nat) (hn : n < 65536) :
    htons n % 256 = n / 256 ∧ htons n / 256 % 256 = n % 256 := by
  have hhi : n / 256 < 256 := by omega
  unfold htons
  rw [Nat.mod_eq_of_lt hhi, Nat.mul_comm]
  constructor
  · rw [Nat.mul_add_mod]
    exact Nat.mod_eq_of_lt hhi
  · rw [Nat.mul_add_div (by norm_num), Nat.div_eq_of_lt hhi, Nat.add_zero]
    exact Nat.mod_mod _ _

theorem add_u16_sum (s : Checksum) (n : Nat) (hs : s.sum < 2 ^ 32) (hn : n < 65536)
    (hodd : s.odd = false) :
    (s.add_u16 n).sum = (s.sum + n) % 2 ^ 32 ∧ (s.add_u16 n).odd = false := by
  have hw : word_sum false (store16 (htons (n % 65536))) = n := by
    rw [Nat.mod_eq_of_lt hn]
    unfold store16
    simp only [word_sum, Bool.not_false, Bool.not_true, if_true, Bool.false_eq_true, if_false,
      ofNat_val_mod, (htons_bytes n hn).1, (htons_bytes n hn).2]
    omega
  obtain ⟨h1, h2⟩ := add_sum (store16 (htons (n % 65536))) s hs
  unfold Checksum.add_u16
  rw [h1, h2, hodd, hw, store16_length]
  exact ⟨rfl, rfl⟩

theorem ones_fold_lt (s : Nat) : ones_fold s < 65536 := by
  unfold ones_fold
  split <;> omega

theorem ones_fold_mod (s : Nat) : ones_fold s % 65535 = s % 65535 := by
  unfold ones_fold
  split <;> omega

theorem ones_fold_eq_zero (s : Nat) : ones_fold s = 0 ↔ s = 0 := by
  unfold ones_fold
  split <;> omega

/-- The loop of `value` ends, with the end-around-carry fold of its start
value. -/
theorem value_loop_eq (fuel : Nat) :
    ∀ tmp, tmp < fuel → tmp < 2 ^ 32 → Checksum.value_loop fuel tmp = .ok (ones_fold tmp) := by
  induction fuel with
  | zero =>
    intro tmp h
    omega
  | succ fuel ih =>
    intro tmp hf h32
    have hand : tmp &&& 0xffff = tmp % 65536 := Nat.and_pow_two_sub_one_eq_mod tmp 16
    have hshr : tmp >>> 16 = tmp / 65536 := Nat.shiftRight_eq_div_pow tmp 16
    rw [Checksum.value_loop, hand, hshr]
    by_cases h : tmp / 65536 ≠ 0
    · have hdiv : tmp / 65536 < 65536 := by omega
      have hmod : (tmp % 65536 + tmp / 65536) % 2 ^ 32 = tmp % 65536 + tmp / 65536 :=
        Nat.mod_eq_of_lt (by omega)
      have hsplit := Nat.div_add_mod tmp 65536
      rw [if_pos h, hmod, ih _ (by omega) (by omega)]
      congr 1
      unfold ones_fold
      rw [if_neg (show ¬ tmp % 65536 + tmp / 65536 = 0 by omega),
        if_neg (show ¬ tmp = 0 by omega)]
      have e : tmp - 1 = (tmp % 65536 + tmp / 65536 - 1) + 65535 * (tmp / 65536) := by omega
      rw [e, Nat.add_mul_mod_self_left]
    · rw [if_neg h]
      congr 1
      unfold ones_fold
      split <;> omega

theorem value_eq (s : Checksum) (hs : s.sum < 2 ^ 32) :
    s.value = .ok (htons (0xffff - ones_fold s.sum)) := by
  have hlt := ones_fold_lt s.sum
  unfold Checksum.value
  rw [value_loop_eq _ _ (Nat.lt_succ_self _) hs]
  simp only [bind, Except.bind, pure, Except.pure]
  congr 1
  have e1 : (2 ^ 32 - 1 - ones_fold s.sum) % 2 ^ 32 % 65536 = 0xffff - ones_fold s.sum := by
    omega
  rw [e1]
  unfold htons
  omega

/-- C20: adding `a` and then `b` leaves the state of adding `a ++ b`, for any
split (odd-length chunks included) and any number of chunks; on a fresh
`Checksum` the sum is the sum of the big-endian 16-bit words of the
concatenation, an odd last byte counting as a high byte, modulo 2^32 and so
exactly when that does not overflow, and `odd` is the parity of the byte
count; `add(uint16_t n)` at an even offset adds exactly `n` and leaves the
offset even; and `value()` ends and returns `htons` of the 16-bit complement
of the end-around-carry fold of the sum. -/
theorem c20_checksum (s : Checksum) (a b : List Byte) (n : Nat)
    (hs : s.sum < 2 ^ 32) (hn : n < 65536) :
    (s.add a).add b = s.add (a ++ b) ∧
    s.add_iov a = s.add a ∧
    (∀ chunks : List (List Byte),
      chunks.foldl Checksum.add Checksum.fresh = Checksum.fresh.add chunks.flatten) ∧
    ((Checksum.fresh.add a).add b).sum = be_word_sum (a ++ b) % 2 ^ 32 ∧
    (be_word_sum (a ++ b) < 2 ^ 32 →
      ((Checksum.fresh.add a).add b).sum = be_word_sum (a ++ b)) ∧
    ((Checksum.fresh.add a).add b).odd = decide ((a ++ b).length % 2 = 1) ∧
    (s.odd = false →
      (s.add_u16 n).sum = (s.sum + n) % 2 ^ 32 ∧ (s.add_u16 n).odd = false ∧
      (s.sum + n < 2 ^ 32 → (s.add_u16 n).sum = s.sum + n)) ∧
    s.value = .ok (htons (0xffff - ones_fold s.sum)) ∧
    ones_fold s.sum < 65536 ∧ ones_fold s.sum % 65535 = s.sum % 65535 ∧
    (ones_fold s.sum = 0 ↔ s.sum = 0) := by
  have hfresh := add_sum (a ++ b) Checksum.fresh (by show 0 < 2 ^ 32; norm_num)
  have hsum : ((Checksum.fresh.add a).add b).sum = be_word_sum (a ++ b) % 2 ^ 32 := by
    rw [add_append, hfresh.1, ← word_sum_even _ (a ++ b) (Nat.le_refl _)]
    show (0 + word_sum false (a ++ b)) % 2 ^ 32 = _
    rw [Nat.zero_add]
  refine ⟨add_append a b s, rfl, fun chunks => add_chunks chunks _, hsum, ?_, ?_, ?_,
    value_eq s hs, ones_fold_lt _, ones_fold_mod _, ones_fold_eq_zero _⟩
  · intro h
    rw [hsum]
    exact Nat.mod_eq_of_lt h
  · rw [add_append, hfresh.2]
    show xor false (decide ((a ++ b).length % 2 = 1)) = _
    simp
  · intro hodd
    obtain ⟨h1, h2⟩ := add_u16_sum s n hs hn hodd
    refine ⟨h1, h2, fun h => ?_⟩
    rw [h1]
    exact Nat.mod_eq_of_lt h

/-- C20 at the example of RFC 1071 (bytes 00 01 f2 03 f4 f5 f6 f7, added as a
3-byte and a 5-byte chunk): sum 0x2ddf0, fold 0xddf2, value `htons 0x220d`. -/
theorem c20_checksum_witness :
    (Checksum.fresh.add rfc1071_head).add rfc1071_tail = ⟨187888, false⟩ ∧
    be_word_sum (rfc1071_head ++ rfc1071_tail) = 187888 ∧
    ones_fold 187888 = 56818 ∧
    Checksum.value ⟨187888, false⟩ = .ok 3362 ∧
    (Checksum.add_u16 ⟨187888, false⟩ 4660).sum = 192548 ∧
    ((Checksum.mk 187888 false).add rfc1071_head).add rfc1071_tail =
      (Checksum.mk 187888 false).add (rfc1071_head ++ rfc1071_tail) ∧
    (Checksum.mk 187888 false).add_iov rfc1071_head =
      (Checksum.mk 187888 false).add rfc1071_head ∧
    (∀ chunks : List (List Byte),
      chunks.foldl Checksum.add Checksum.fresh = Checksum.fresh.add chunks.flatten) ∧
    ((Checksum.fresh.add rfc1071_head).add rfc1071_tail).sum =
      be_word_sum (rfc1071_head ++ rfc1071_tail) % 2 ^ 32 ∧
    (be_word_sum (rfc1071_head ++ rfc1071_tail) < 2 ^ 32 →
      ((Checksum.fresh.add rfc1071_head).add rfc1071_tail).sum =
        be_word_sum (rfc1071_head ++ rfc1071_tail)) ∧
    ((Checksum.fresh.add rfc1071_head).add rfc1071_tail).odd =
      decide ((rfc1071_head ++ rfc1071_tail).length % 2 = 1) ∧
    ((Checksum.mk 187888 false).odd = false →
      (Checksum.add_u16 ⟨187888, false⟩ 4660).sum = (187888 + 4660) % 2 ^ 32 ∧
      (Checksum.add_u16 ⟨187888, false⟩ 4660).odd = false ∧
      (187888 + 4660 < 2 ^ 32 → (Checksum.add_u16 ⟨187888, false⟩ 4660).sum = 187888 + 4660)) ∧
    Checksum.value ⟨187888, false⟩ = .ok (htons (0xffff - ones_fold 187888)) ∧
    ones_fold 187888 < 65536 ∧ ones_fold 187888 % 65535 = 187888 % 65535 ∧
    (ones_fold 187888 = 0 ↔ 187888 = 0) :=
  ⟨rfl, rfl, rfl, rfl, rfl,
    c20_checksum ⟨187888, false⟩ rfc1071_head rfc1071_tail 4660 (by decide) (by decide)⟩

/-! ## Where an OPT RR in the response comes from -/

/-- A response built from a context that recorded no OPT: two segments, and
the header arcount is the one of the answer. -/
theorem response_no_opt (zone : Zone) (input : List Byte) (r : Returned)
    (h : run zone input = .ok r) (hret : r.ret = true) (hed : r.ctx.has_edns = false) :
    r.out = [first_segment r, answer_segment r.answer r.ctx.qdsize] ∧
    be16 (first_segment r) 10 = r.answer.get.arcount % 65536 := by
  have hw := first_segment_wire zone input r h hret
  obtain ⟨rx, ctx, ans, _, _, _, rfl⟩ := run_responded zone input r h hret
  have hed1 : ctx.has_edns = false := hed
  constructor
  · exact record_out_plain rx ctx ans hed1
  · rw [hw.2.2.2.2.2.2.2.1]
    show (ans.get.arcount + (if ctx.has_edns then 1 else 0)) % 65536 = _
    rw [hed1]
    rfl

/-- The EDNS parse records an OPT only for bytes that are an acceptable OPT
RR. -/
theorem edns_recorded (input : List Byte) (ls : List (List Byte)) (a b c d : Byte)
    (rest : List Byte) (c2 : Context)
    (hq : input.drop 12 = wire_name ls ++ 0 :: a :: b :: c :: d :: rest)
    (hc2 : parse_edns (question_ctx input ls a b LDNS_RCODE_NOERROR) = .ok c2)
    (hed : c2.has_edns = true) : ¬ opt_malformed rest := by
  have hav : (question_ctx input ls a b LDNS_RCODE_NOERROR).inb.available = rest.length :=
    input_length_rest input ls a b c d _ hq
  obtain ⟨e1, e2, e3, _⟩ := edns_result_question input ls a b c d rest hq
  rcases parse_edns_cases (question_ctx input ls a b LDNS_RCODE_NOERROR) with
    ⟨_, h1⟩ | ⟨_, _, h1⟩ | ⟨h11, h1⟩
  · have hc := Except.ok.inj (hc2.symm.trans h1)
    subst hc
    cases hed
  · have hc := Except.ok.inj (hc2.symm.trans h1)
    subst hc
    cases hed
  · have hc := Except.ok.inj (hc2.symm.trans h1)
    subst hc
    unfold opt_malformed
    rintro (h | h | h | h)
    · omega
    · rw [e1 h] at hed
      cases hed
    · by_cases g0 : (rest.getD 0 0).val = 0
      · rw [e2 g0 h] at hed
        cases hed
      · rw [e1 g0] at hed
        cases hed
    · by_cases g0 : (rest.getD 0 0).val = 0
      · by_cases g1 : be16 rest 1 = 41
        · rw [e3 g0 g1 h] at hed
          cases hed
        · rw [e2 g0 g1] at hed
          cases hed
      · rw [e1 g0] at hed
        cases hed

theorem gate_of_legal_header (input : List Byte) (h : legal_header ⟨input, 0⟩ = true) :
    gate_ok input := by
  unfold gate_ok
  by_contra hn
  have hf : legal_header ⟨input, 0⟩ = false := by
    apply (legal_header_iff input).mpr
    by_cases h17 : input.length < 17
    · exact Or.inl h17
    · right
      intro h0
      exact hn ⟨by omega, h0⟩
  rw [h] at hf
  cases hf

/-- A response built from a context that recorded an OPT: the packet passed
the gate and the header check, its opcode is QUERY, and an accepted
well-formed question is followed by an acceptable OPT RR. -/
theorem response_opt_source (zone : Zone) (input : List Byte) (r : Returned)
    (h : run zone input = .ok r) (hret : r.ret = true) (hed : r.ctx.has_edns = true) :
    gate_ok input ∧ header_counts_ok input ∧ opcode_of input = 0 ∧
    ∃ (ls : List (List Byte)) (a b c d : Byte) (rest : List Byte),
      input.drop 12 = wire_name ls ++ 0 :: a :: b :: c :: d :: rest ∧
      (∀ l ∈ ls, 1 ≤ l.length ∧ l.length ≤ 63) ∧ (wire_name ls).length ≤ 255 ∧
      ¬ question_rejected a b c d ∧ ¬ opt_malformed rest := by
  obtain ⟨rx, ctx, ans, hl, hp, _, rfl⟩ := run_responded zone input r h hret
  have hed1 : ctx.has_edns = true := hed
  have hgate := gate_of_legal_header input hl
  have hlen := gate_length input hgate
  rw [execute_parse_eq zone input hlen] at hp
  split at hp
  · cases hp
    cases hed1
  · next hv =>
    have hok : header_counts_ok input := by
      apply (valid_header_iff input).mp
      cases hvv : valid_header (dnshdr.load (input.take 12)) with
      | true => rfl
      | false => exact absurd hvv hv
    split at hp
    · cases hp
      cases hed1
    · next hop =>
      have hop0 : opcode_of input = 0 := not_not.mp hop
      refine ⟨hgate, hok, hop0, ?_⟩
      split at hp
      · cases hp
      · next c2 hpp =>
        have hc2 : c2.has_edns = true := by
          split at hp
          · cases hp
            exact hed1
          · cases hp
            exact hed1
        rcases parse_packet_shape _ _ hpp with ⟨_, _, h3⟩ | ⟨ls, a, b, c, d, tl, hcur, hwf, hl255, _⟩
        · rw [hc2] at h3
          cases h3
        · have hq : input.drop 12 = wire_name ls ++ 0 :: a :: b :: c :: d :: tl := hcur
          have hpa := parse_packet_after_header input ls a b c d tl hq hwf hl255
          by_cases hrej : question_rejected a b c d
          · have := Except.ok.inj (hpp.symm.trans (hpa.1 hrej))
            rw [this] at hc2
            cases hc2
          · obtain ⟨c3, hc3, hpp3⟩ := hpa.2 hrej
            have := Except.ok.inj (hpp.symm.trans hpp3)
            rw [this, (trailing_rule_frame c3).2.1] at hc2
            exact ⟨ls, a, b, c, d, tl, hq, hwf, hl255, hrej,
              edns_recorded input ls a b c d tl c3 hq hc3 hc2⟩

theorem s1_carries_no_opt : ¬ carries_opt s1_input := by
  rintro ⟨ls, a, b, c, d, rest, hq, hwf, _, hm⟩
  cases ls with
  | nil =>
    have h1 : ([0, 0, 6, 0, 1] : List Byte) = 0 :: a :: b :: c :: d :: rest := hq
    simp only [List.cons.injEq] at h1
    have hr : rest = [] := h1.2.2.2.2.2.symm
    subst hr
    exact hm (Or.inl (by decide))
  | cons l ls =>
    have hl := hwf l (List.mem_cons_self l ls)
    have h1 : ([0, 0, 6, 0, 1] : List Byte) =
        Fin.ofNat l.length :: (l ++ wire_name ls ++ 0 :: a :: b :: c :: d :: rest) := by
      rw [show s1_input.drop 12 = [0, 0, 6, 0, 1] from rfl] at hq
      rw [hq, wire_name]
      simp
    have h2 : (0 : Byte) = Fin.ofNat l.length := (List.cons.inj h1).1
    have h3 := congrArg Fin.val h2
    rw [ofNat_val_mod] at h3
    have h4 : (0 : Byte).val = 0 := rfl
    omega

/-- C4 (amended): for a query with a legal and valid header, opcode QUERY and
a well-formed question that `parse_question` accepts (non-meta qtype, class
IN): if a valid OPT RR (owner 0, type 41, rdlen within the remaining bytes)
with DO bit `d` follows the question, the output has exactly three segments,
the last being one 11-byte OPT RR with version 0, udp-size 1480, rdlen 0 and
DO bit `d`, and the header arcount is answer.arcount + 1 (as a 16-bit value).
And for every input that produces a response: the response carries an OPT
segment only if such a packet holds such an OPT RR; when no OPT was recorded,
and so whenever the input carries no valid OPT RR behind a well-formed
question, the output has two segments, no OPT RR, and the header arcount is
answer.arcount. -/
theorem c4_opt_round_trip (zone : Zone) (input : List Byte) :
    (∀ (ls : List (List Byte)) (a b c d : Byte) (rest : List Byte),
      gate_ok input → header_counts_ok input → opcode_of input = 0 →
      input.drop 12 = wire_name ls ++ 0 :: a :: b :: c :: d :: rest →
      (∀ l ∈ ls, 1 ≤ l.length ∧ l.length ≤ 63) → (wire_name ls).length ≤ 255 →
      ¬ (128 ≤ a.val * 256 + b.val ∧ a.val * 256 + b.val < 255) →
      c.val * 256 + d.val = 1 →
      ∀ (s0 s1 e v f0 f1 r0 r1 : Byte) (more : List Byte),
        rest = 0 :: 0 :: 41 :: s0 :: s1 :: e :: v :: f0 :: f1 :: r0 :: r1 :: more →
        r0.val * 256 + r1.val ≤ more.length →
        ∃ r, run zone input = .ok r ∧ r.ret = true ∧ r.ctx.has_edns = true ∧
          r.out = [first_segment r, answer_segment r.answer r.ctx.qdsize,
            [0, 0, 41, 5, 200, Fin.ofNat ((r.ctx.rcode >>> 4) % 256), 0,
              if (f0.val * 256 + f1.val) &&& 0x8000 ≠ 0 then 128 else 0, 0, 0, 0]] ∧
          be16 (first_segment r) 10 = (r.answer.get.arcount + 1) % 65536 ∧
          (r.answer.get.arcount < 65535 →
            be16 (first_segment r) 10 = r.answer.get.arcount + 1)) ∧
    (∀ r, run zone input = .ok r → r.ret = true →
      (r.ctx.has_edns = true →
        gate_ok input ∧ header_counts_ok input ∧ opcode_of input = 0 ∧
        ∃ (ls : List (List Byte)) (a b c d : Byte) (rest : List Byte),
          input.drop 12 = wire_name ls ++ 0 :: a :: b :: c :: d :: rest ∧
          (∀ l ∈ ls, 1 ≤ l.length ∧ l.length ≤ 63) ∧ (wire_name ls).length ≤ 255 ∧
          ¬ question_rejected a b c d ∧ ¬ opt_malformed rest) ∧
      (r.ctx.has_edns = false →
        r.out = [first_segment r, answer_segment r.answer r.ctx.qdsize] ∧
        be16 (first_segment r) 10 = r.answer.get.arcount % 65536 ∧
        (r.answer.get.arcount < 65536 →
          be16 (first_segment r) 10 = r.answer.get.arcount)) ∧
      (¬ carries_opt input →
        r.ctx.has_edns = false ∧
        r.out = [first_segment r, answer_segment r.answer r.ctx.qdsize] ∧
        be16 (first_segment r) 10 = r.answer.get.arcount % 65536 ∧
        (r.answer.get.arcount < 65536 →
          be16 (first_segment r) 10 = r.answer.get.arcount))) := by
  constructor
  · intro ls a b c d rest hgate hok hop hq hwf hlen hqt hqc s0 s1 e v f0 f1 r0 r1 more hrest hrd
    have hacc : ¬ question_rejected a b c d := by
      unfold question_rejected
      omega
    obtain ⟨c2, cx, ans, hc2, hrun, hed, hdo, hqd⟩ :=
      run_accepted_fields zone input ls a b c d rest hgate hok hop hq hwf hlen hacc
    have hw := first_segment_wire zone input _ hrun rfl
    subst hrest
    have he := parse_edns_opt_ctx input ls a b c d s0 s1 e v f0 f1 r0 r1 more hq hrd
    have hc := Except.ok.inj (hc2.symm.trans he)
    subst hc
    have hed1 : cx.has_edns = true := hed
    have hdo1 : cx.do_bit = decide ((f0.val * 256 + f1.val) &&& 0x8000 ≠ 0) := hdo
    have h10 : be16 (first_segment (response_record (dnshdr.load (input.take 12)) cx ans)) 10 =
        (ans.get.arcount + 1) % 65536 := by
      rw [hw.2.2.2.2.2.2.2.1]
      show (ans.get.arcount + (if cx.has_edns then 1 else 0)) % 65536 = _
      rw [hed1]
      rfl
    refine ⟨_, hrun, rfl, hed1, ?_, h10, ?_⟩
    · rw [record_out_edns _ _ _ hed1]
      show [_, _, opt_bytes cx.rcode cx.do_bit] = [_, _, _]
      rw [hdo1, opt_bytes_do]
      rfl
    · intro hlt
      have hlt1 : ans.get.arcount < 65535 := hlt
      rw [h10]
      exact Nat.mod_eq_of_lt (by omega)
  · intro r hrun hret
    have hno : r.ctx.has_edns = false →
        r.out = [first_segment r, answer_segment r.answer r.ctx.qdsize] ∧
        be16 (first_segment r) 10 = r.answer.get.arcount % 65536 ∧
        (r.answer.get.arcount < 65536 →
          be16 (first_segment r) 10 = r.answer.get.arcount) := by
      intro hed
      obtain ⟨h1, h2⟩ := response_no_opt zone input r hrun hret hed
      refine ⟨h1, h2, fun hlt => ?_⟩
      rw [h2]
      exact Nat.mod_eq_of_lt hlt
    refine ⟨response_opt_source zone input r hrun hret, hno, ?_⟩
    intro hnc
    have hed : r.ctx.has_edns = false := by
      cases hh : r.ctx.has_edns with
      | false => rfl
      | true =>
        obtain ⟨_, _, _, ls, a, b, c, d, rest, hq, hwf, hlen, _, hm⟩ :=
          response_opt_source zone input r hrun hret hh
        exact absurd ⟨ls, a, b, c, d, rest, hq, hwf, hlen, hm⟩ hnc
    exact ⟨hed, hno hed⟩

/-- C4 (amended) at a root `SOA IN` query with an OPT RR of version 0 and DO
set (three segments, arcount 1) and at the same query without OPT (two
segments, arcount 0), against the demo zone. -/
theorem c4_opt_round_trip_witness :
    (gate_ok edns_input ∧ header_counts_ok edns_input ∧ opcode_of edns_input = 0 ∧
      edns_input.drop 12 = wire_name [] ++ 0 :: 0 :: 6 :: 0 :: 1 ::
        [0, 0, 41, 16, 0, 0, 0, 128, 0, 0, 0] ∧
      (result_of demo_zone edns_input).out =
        [[0, 6, 132, 0, 0, 1, 0, 1, 0, 0, 0, 1, 0, 0, 6, 0, 1], [7],
         [0, 0, 41, 5, 200, 0, 0, 128, 0, 0, 0]] ∧
      ∃ r, run demo_zone edns_input = .ok r ∧ r.ret = true ∧ r.ctx.has_edns = true ∧
        r.out = [first_segment r, answer_segment r.answer r.ctx.qdsize,
          [0, 0, 41, 5, 200, Fin.ofNat ((r.ctx.rcode >>> 4) % 256), 0,
            if ((128 : Byte).val * 256 + (0 : Byte).val) &&& 0x8000 ≠ 0 then 128 else 0,
            0, 0, 0]] ∧
        be16 (first_segment r) 10 = (r.answer.get.arcount + 1) % 65536 ∧
        (r.answer.get.arcount < 65535 →
          be16 (first_segment r) 10 = r.answer.get.arcount + 1)) ∧
    (¬ carries_opt s1_input ∧
      (result_of demo_zone s1_input).out =
        [[0, 1, 132, 0, 0, 1, 0, 1, 0, 0, 0, 0, 0, 0, 6, 0, 1], [7]] ∧
      (result_of demo_zone s1_input).ctx.has_edns = false ∧
      (result_of demo_zone s1_input).out =
        [first_segment (result_of demo_zone s1_input),
          answer_segment (result_of demo_zone s1_input).answer
            (result_of demo_zone s1_input).ctx.qdsize] ∧
      be16 (first_segment (result_of demo_zone s1_input)) 10 =
        (result_of demo_zone s1_input).answer.get.arcount % 65536 ∧
      ((result_of demo_zone s1_input).answer.get.arcount < 65536 →
        be16 (first_segment (result_of demo_zone s1_input)) 10 =
          (result_of demo_zone s1_input).answer.get.arcount)) ∧
    ((result_of demo_zone ch_edns_input).ctx.has_edns = false ∧
      (result_of demo_zone ch_edns_input).out =
        [first_segment (result_of demo_zone ch_edns_input),
          answer_segment (result_of demo_zone ch_edns_input).answer
            (result_of demo_zone ch_edns_input).ctx.qdsize] ∧
      be16 (first_segment (result_of demo_zone ch_edns_input)) 10 =
        (result_of demo_zone ch_edns_input).answer.get.arcount % 65536 ∧
      ((result_of demo_zone ch_edns_input).answer.get.arcount < 65536 →
        be16 (first_segment (result_of demo_zone ch_edns_input)) 10 =
          (result_of demo_zone ch_edns_input).answer.get.arcount)) :=
  ⟨⟨by decide, by decide, by decide, rfl, rfl,
     (c4_opt_round_trip demo_zone edns_input).1 [] 0 6 0 1
       [0, 0, 41, 16, 0, 0, 0, 128, 0, 0, 0]
       (by decide) (by decide) (by decide) rfl (by decide) (by decide) (by decide)
       (by decide) 16 0 0 0 128 0 0 0 [] rfl (by decide)⟩,
   ⟨s1_carries_no_opt, rfl,
     ((c4_opt_round_trip demo_zone s1_input).2 (result_of demo_zone s1_input) rfl rfl).2.2
       s1_carries_no_opt⟩,
   ⟨rfl,
     ((c4_opt_round_trip demo_zone ch_edns_input).2 (result_of demo_zone ch_edns_input)
       rfl rfl).2.1 rfl⟩⟩

end FastRoot
